import Mathlib

/-!
# Chunked arrays of `array.h` and the table of `modified_dataframe.h`

The first part embeds the containers of `array.h`; the table that is built on them follows
under "The table of `modified_dataframe.h`", then the rowers of `bench.cpp` and the list of
client addresses of `Server::register_clients` in `network.h`.

`array.h` declares four classes, `Array` (of `Object*`), `BoolArray`, `IntArray` and
`FloatArray`.  Each keeps an outer array of pointers to inner blocks of `INNER_CAPACITY`
elements.  Constructor, `reallocate_`, `append`, `set`, `get` and `size` are the same text in
the four classes up to the element type, so they are embedded once, over an element type `α`.
`contains`, `index_of`, `equals` and `append_all` differ between `Array` and the three
primitive classes and are embedded separately.

Modelling conventions.
* The `int` fields and the `size_t` indices are natural numbers.  The model covers the runs
  in which `size_` stays in the range of `int`, where no arithmetic of the source wraps;
  the one conversion that matters, `-1` to `size_t` in `index_of`, is `SIZE_MAX`.
* The outer array is a list with one entry per slot, `none` for a slot that holds no block
  pointer yet.  An inner block is a list of `INNER_CAPACITY` elements.
* `new T[INNER_CAPACITY]` does not initialise the block.  The values found there are given
  by the field `fresh_`: `fresh_ k j` is what slot `j` of the block allocated for outer
  index `k` holds before it is written.
* A failed `assert` is `Fault.assertion`; a read through a slot that holds no block, or
  a call through a null pointer, is `Fault.undefined`.
* `Object*` is `Option β`: `none` is the null pointer, `β` is the type of object
  references, compared by `=`.  The virtual methods `Object::equals` and `Object::clone`,
  declared outside `array.h`, are parameters `equals : β → Option β → Bool` and
  `clone : β → β` of the methods that call them.
* A loop is a function recursive in the number of iterations left, which its caller sets
  to the bound of the loop; the loop guard is tested as in the source.  The loops of `map`
  and `filter` with a rower that may write the table have no bound that is known when they
  are entered: the number of iterations allowed is an argument, and the result `none` says
  that it was used up.
-/

namespace Cs4500a5

/-- The `INITIAL_OUTER_CAPACITY` of `array.h`. -/
def INITIAL_OUTER_CAPACITY : Nat := 16

/-- The `INNER_CAPACITY` of `array.h`. -/
def INNER_CAPACITY : Nat := 8

/-- Largest value of `int`. -/
def INT_MAX : Nat := 2 ^ 31 - 1

/-- The value of `(size_t)-1`, which `index_of` returns for "not found". -/
def SIZE_MAX : Nat := 2 ^ 64 - 1

/-- Ways in which a call does not return: a failed `assert`, undefined behaviour, and
`exit_if_not` of `helper.h` called with a false condition and the message printed. -/
inductive Fault where
  | assertion
  | undefined
  | exit (message : String)
deriving DecidableEq, Repr

/-- Outcome of one run of an inner `for` loop: the method returned `r` from inside the loop,
or the loop ended with the counter `count`. -/
inductive LoopExit (ρ : Type) where
  | ret (r : ρ)
  | next (count : Nat)
deriving DecidableEq, Repr

/-- State of an `Array`, `BoolArray`, `IntArray` or `FloatArray` object. -/
structure ChunkedArray (α : Type) where
  /-- The outer array `objects_` / `bools_` / `ints_` / `floats_`. -/
  data_ : List (Option (List α))
  size_ : Nat
  /-- Number of inner arrays that we have space for. -/
  outer_capacity_ : Nat
  /-- Number of inner arrays that have been initialized. -/
  array_count_ : Nat
  /-- Content of uninitialised memory: `fresh_ k j` is found in slot `j` of a new block `k`. -/
  fresh_ : Nat → Nat → α

/-- The class `IntArray`. -/
abbrev IntArray := ChunkedArray Int

/-- The class `BoolArray`. -/
abbrev BoolArray := ChunkedArray Bool

/-- The class `Array`: the elements are `Object*`, `none` being the null pointer and
`some p` a pointer to the object `p`. -/
abbrev Array (β : Type) := ChunkedArray (Option β)

/-- The expression `new T[INNER_CAPACITY]` evaluated for outer index `k`. -/
def newBlock {α : Type} (fresh : Nat → Nat → α) (k : Nat) : List α :=
  (List.range INNER_CAPACITY).map (fresh k)

/-- The read `arr[o][i]`. -/
def load {α : Type} (arr : List (Option (List α))) (o i : Nat) : Except Fault α :=
  match arr[o]? with
  | some (some blk) =>
    match blk[i]? with
    | some v => .ok v
    | none => .error .undefined
  | _ => .error .undefined

/-- The write `arr[o][i] = v`.  Nothing is written when slot `o` holds no block. -/
def store {α : Type} (arr : List (Option (List α))) (o i : Nat) (v : α) :
    List (Option (List α)) :=
  match arr[o]? with
  | some (some blk) => arr.set o (some (blk.set i v))
  | _ => arr

namespace ChunkedArray

variable {α : Type}

/-- The constructors `Array()`, `BoolArray()`, `IntArray()`. -/
def ctor (fresh : Nat → Nat → α) : ChunkedArray α :=
  { size_ := 0
    outer_capacity_ := INITIAL_OUTER_CAPACITY
    array_count_ := 1
    data_ := (List.replicate INITIAL_OUTER_CAPACITY none).set 0 (some (newBlock fresh 0))
    fresh_ := fresh }

/-- The method `reallocate_`: a larger outer array receives the first `array_count_` block
pointers. -/
def reallocate_ (a : ChunkedArray α) : ChunkedArray α :=
  let new_outer_arr : List (Option (List α)) :=
    List.replicate (a.outer_capacity_ + INITIAL_OUTER_CAPACITY) none
  let old_outer_arr := a.data_
  let new_outer_arr := (List.range a.array_count_).foldl
    (fun arr i => arr.set i (old_outer_arr.getD i none)) new_outer_arr
  { a with data_ := new_outer_arr
           outer_capacity_ := a.outer_capacity_ + INITIAL_OUTER_CAPACITY }

/-- The method `append`.  In `array_count_ - 1` the count is at least 1 in every state
that the methods produce. -/
def append (a : ChunkedArray α) (val : α) : ChunkedArray α :=
  let a := if a.size_ + 1 > a.outer_capacity_ * INNER_CAPACITY then a.reallocate_ else a
  let a :=
    if a.size_ + 1 > a.array_count_ * INNER_CAPACITY then
      { a with data_ := a.data_.set a.array_count_
                 (some ((newBlock a.fresh_ a.array_count_).set 0 val))
               array_count_ := a.array_count_ + 1 }
    else
      { a with data_ := store a.data_ (a.array_count_ - 1) (a.size_ % INNER_CAPACITY) val }
  { a with size_ := a.size_ + 1 }

/-- The method `set`.  A failure carries the state of the object at the failed assertion.
The assertion `index >= 0` holds for every `size_t`. -/
def set (a : ChunkedArray α) (val : α) (index : Nat) :
    Except (Fault × ChunkedArray α) (ChunkedArray α) :=
  if ¬ index ≤ a.size_ then .error (.assertion, a)
  else if index = a.size_ then .ok (a.append val)
  else
    let outer_idx := index / INNER_CAPACITY
    let inner_idx := index % INNER_CAPACITY
    .ok { a with data_ := store a.data_ outer_idx inner_idx val }

/-- The method `get`.  The assertion `index >= 0` holds for every `size_t`. -/
def get (a : ChunkedArray α) (index : Nat) : Except Fault α :=
  if ¬ index < a.size_ then .error .assertion
  else
    let outer_idx := index / INNER_CAPACITY
    let inner_idx := index % INNER_CAPACITY
    load a.data_ outer_idx inner_idx

/-- The method `size`. -/
def size (a : ChunkedArray α) : Nat := a.size_

/-- The loop of the `append_all` of `BoolArray`, `IntArray`, `FloatArray`, entered with loop
variable `i`; the first argument is the number of iterations left, `vals->size() - i`. -/
def append_all_loop (vals : ChunkedArray α) :
    Nat → Nat → ChunkedArray α → Except Fault (ChunkedArray α)
  | 0, _, a => .ok a
  | left + 1, i, a =>
    if i < vals.size then
      match vals.get i with
      | .error e => .error e
      | .ok v => append_all_loop vals left (i + 1) (a.append v)
    else .ok a

/-- The method `append_all` of `BoolArray`, `IntArray`, `FloatArray`; `vals` is another
object than `a`, or null (`none`). -/
def append_all (a : ChunkedArray α) (vals : Option (ChunkedArray α)) :
    Except Fault (ChunkedArray α) :=
  match vals with
  | none => .ok a
  | some vals => append_all_loop vals vals.size 0 a

/-- The inner loop of the `equals` of `BoolArray`, `IntArray`, entered with loop variable `j`
in outer iteration `i`; the first argument is the number of iterations left,
`INNER_CAPACITY - j`. -/
def equals_inner [DecidableEq α] (a other : ChunkedArray α) (i : Nat) :
    Nat → Nat → Nat → Except Fault (LoopExit Bool)
  | 0, _, count => .ok (.next count)
  | left + 1, j, count =>
    if j < INNER_CAPACITY ∧ count < a.size_ then
      let inner_idx := j % INNER_CAPACITY
      match load a.data_ i inner_idx, other.get count with
      | .error e, _ => .error e
      | .ok _, .error e => .error e
      | .ok x, .ok y =>
        if ¬ (x = y) then .ok (.ret false)
        else equals_inner a other i left (j + 1) (count + 1)
    else .ok (.next count)

/-- The outer loop of the `equals` of `BoolArray`, `IntArray`, entered with loop variable
`i`; the first argument is the number of iterations left, `array_count_ - i`. -/
def equals_outer [DecidableEq α] (a other : ChunkedArray α) :
    Nat → Nat → Nat → Except Fault Bool
  | 0, _, _ => .ok true
  | left + 1, i, count =>
    if i < a.array_count_ ∧ count < a.size_ then
      match equals_inner a other i INNER_CAPACITY 0 count with
      | .error e => .error e
      | .ok (.ret r) => .ok r
      | .ok (.next count) => equals_outer a other left (i + 1) count
    else .ok true

/-- The method `equals` of `BoolArray`, `IntArray`, called with an object of the same class
(the `dynamic_cast` succeeds). -/
def equals [DecidableEq α] (a other : ChunkedArray α) : Except Fault Bool :=
  if a.size_ = 0 then .ok (decide (other.size = 0))
  else equals_outer a other a.array_count_ 0 0

/-- The inner loop of the `index_of` of `BoolArray`, `IntArray`, `FloatArray`; it does not
change `count`. -/
def index_of_inner [DecidableEq α] (a : ChunkedArray α) (val : α) (i count : Nat) :
    Nat → Nat → Except Fault (LoopExit Nat)
  | 0, _ => .ok (.next count)
  | left + 1, j =>
    if j < INNER_CAPACITY ∧ count < a.size_ then
      match load a.data_ i (j % INNER_CAPACITY) with
      | .error e => .error e
      | .ok x =>
        if x = val then .ok (.ret count)
        else index_of_inner a val i count left (j + 1)
    else .ok (.next count)

/-- The outer loop of the `index_of` of `BoolArray`, `IntArray`, `FloatArray`; `count++` is
the last statement of its body. -/
def index_of_outer [DecidableEq α] (a : ChunkedArray α) (val : α) :
    Nat → Nat → Nat → Except Fault Nat
  | 0, _, _ => .ok SIZE_MAX
  | left + 1, i, count =>
    if i < a.array_count_ ∧ count < a.size_ then
      match index_of_inner a val i count INNER_CAPACITY 0 with
      | .error e => .error e
      | .ok (.ret r) => .ok r
      | .ok (.next count) => index_of_outer a val left (i + 1) (count + 1)
    else .ok SIZE_MAX

/-- The method `index_of` of `BoolArray`, `IntArray`, `FloatArray`. -/
def index_of [DecidableEq α] (a : ChunkedArray α) (val : α) : Except Fault Nat :=
  index_of_outer a val a.array_count_ 0 0

/-- The inner loop of the `contains` of `BoolArray`, `IntArray`, `FloatArray`; it does not
change `count`. -/
def contains_inner [DecidableEq α] (a : ChunkedArray α) (val : α) (i count : Nat) :
    Nat → Nat → Except Fault (LoopExit Bool)
  | 0, _ => .ok (.next count)
  | left + 1, j =>
    if j < INNER_CAPACITY ∧ count < a.size_ then
      match load a.data_ i (j % INNER_CAPACITY) with
      | .error e => .error e
      | .ok x =>
        if x = val then .ok (.ret true)
        else contains_inner a val i count left (j + 1)
    else .ok (.next count)

/-- The outer loop of the `contains` of `BoolArray`, `IntArray`, `FloatArray`; `count++` is
the last statement of its body. -/
def contains_outer [DecidableEq α] (a : ChunkedArray α) (val : α) :
    Nat → Nat → Nat → Except Fault Bool
  | 0, _, _ => .ok false
  | left + 1, i, count =>
    if i < a.array_count_ ∧ count < a.size_ then
      match contains_inner a val i count INNER_CAPACITY 0 with
      | .error e => .error e
      | .ok (.ret r) => .ok r
      | .ok (.next count) => contains_outer a val left (i + 1) (count + 1)
    else .ok false

/-- The method `contains` of `BoolArray`, `IntArray`, `FloatArray`. -/
def contains [DecidableEq α] (a : ChunkedArray α) (val : α) : Except Fault Bool :=
  contains_outer a val a.array_count_ 0 0

end ChunkedArray

namespace Array

variable {β : Type}

/-- The loop of `Array::append_all`, entered with loop variable `i`; `clone` is the virtual
`Object::clone`; the first argument is the number of iterations left. -/
def append_all_loop (clone : β → β) (vals : Array β) :
    Nat → Nat → Array β → Except Fault (Array β)
  | 0, _, a => .ok a
  | left + 1, i, a =>
    if i < vals.size then
      match vals.get i with
      | .error e => .error e
      | .ok none => append_all_loop clone vals left (i + 1) (a.append none)
      | .ok (some val) => append_all_loop clone vals left (i + 1) (a.append (some (clone val)))
    else .ok a

/-- The method `Array::append_all`; `vals` is another object than `a`, or null (`none`). -/
def append_all (clone : β → β) (a : Array β) (vals : Option (Array β)) :
    Except Fault (Array β) :=
  match vals with
  | none => .ok a
  | some vals => append_all_loop clone vals vals.size 0 a

/-- The test made on one slot by `Array::contains` and `Array::index_of`; `equals` is the
virtual `Object::equals`, called on the element with argument `obj`. -/
def slot_matches [DecidableEq β] (equals : β → Option β → Bool) (x obj : Option β) : Bool :=
  if obj = none ∨ x = none then decide (x = obj)
  else
    match x with
    | some p => equals p obj
    | none => false

/-- The inner loop of `Array::index_of`. -/
def index_of_inner [DecidableEq β] (equals : β → Option β → Bool) (a : Array β)
    (obj : Option β) (i : Nat) : Nat → Nat → Nat → Except Fault (LoopExit Nat)
  | 0, _, count => .ok (.next count)
  | left + 1, j, count =>
    if j < INNER_CAPACITY ∧ count < a.size_ then
      let inner_idx := j % INNER_CAPACITY
      match load a.data_ i inner_idx with
      | .error e => .error e
      | .ok x =>
        if slot_matches equals x obj then .ok (.ret count)
        else index_of_inner equals a obj i left (j + 1) (count + 1)
    else .ok (.next count)

/-- The outer loop of `Array::index_of`. -/
def index_of_outer [DecidableEq β] (equals : β → Option β → Bool) (a : Array β)
    (obj : Option β) : Nat → Nat → Nat → Except Fault Nat
  | 0, _, _ => .ok SIZE_MAX
  | left + 1, i, count =>
    if i < a.array_count_ ∧ count < a.size_ then
      match index_of_inner equals a obj i INNER_CAPACITY 0 count with
      | .error e => .error e
      | .ok (.ret r) => .ok r
      | .ok (.next count) => index_of_outer equals a obj left (i + 1) count
    else .ok SIZE_MAX

/-- The method `Array::index_of`. -/
def index_of [DecidableEq β] (equals : β → Option β → Bool) (a : Array β) (obj : Option β) :
    Except Fault Nat :=
  index_of_outer equals a obj a.array_count_ 0 0

/-- The inner loop of `Array::contains`. -/
def contains_inner [DecidableEq β] (equals : β → Option β → Bool) (a : Array β)
    (obj : Option β) (i : Nat) : Nat → Nat → Nat → Except Fault (LoopExit Bool)
  | 0, _, count => .ok (.next count)
  | left + 1, j, count =>
    if j < INNER_CAPACITY ∧ count < a.size_ then
      let inner_idx := j % INNER_CAPACITY
      match load a.data_ i inner_idx with
      | .error e => .error e
      | .ok x =>
        if slot_matches equals x obj then .ok (.ret true)
        else contains_inner equals a obj i left (j + 1) (count + 1)
    else .ok (.next count)

/-- The outer loop of `Array::contains`. -/
def contains_outer [DecidableEq β] (equals : β → Option β → Bool) (a : Array β)
    (obj : Option β) : Nat → Nat → Nat → Except Fault Bool
  | 0, _, _ => .ok false
  | left + 1, i, count =>
    if i < a.array_count_ ∧ count < a.size_ then
      match contains_inner equals a obj i INNER_CAPACITY 0 count with
      | .error e => .error e
      | .ok (.ret r) => .ok r
      | .ok (.next count) => contains_outer equals a obj left (i + 1) count
    else .ok false

/-- The method `Array::contains`. -/
def contains [DecidableEq β] (equals : β → Option β → Bool) (a : Array β) (obj : Option β) :
    Except Fault Bool :=
  contains_outer equals a obj a.array_count_ 0 0

/-- The inner loop of `Array::equals`.  The first `if` returns unless both pointers are
null; the second `if` then calls `equals` through the element, a null pointer. -/
def equals_inner [DecidableEq β] (equals : β → Option β → Bool) (a other : Array β)
    (i : Nat) : Nat → Nat → Nat → Except Fault (LoopExit Bool)
  | 0, _, count => .ok (.next count)
  | left + 1, j, count =>
    if j < INNER_CAPACITY ∧ count < a.size_ then
      let inner_idx := j % INNER_CAPACITY
      match load a.data_ i inner_idx with
      | .error e => .error e
      | .ok x =>
        -- `x == NULL && other->get(count) == NULL`: `get` is called only when `x` is null
        let both_null : Except Fault Bool :=
          if x = none then (other.get count).map (fun y => decide (y = none)) else .ok false
        match both_null with
        | .error e => .error e
        | .ok false => .ok (.ret false)
        | .ok true =>
          match x, other.get count with
          | none, _ => .error .undefined
          | some _, .error e => .error e
          | some p, .ok y =>
            if ¬ equals p y then .ok (.ret false)
            else equals_inner equals a other i left (j + 1) (count + 1)
    else .ok (.next count)

/-- The outer loop of `Array::equals`. -/
def equals_outer [DecidableEq β] (equals : β → Option β → Bool) (a other : Array β) :
    Nat → Nat → Nat → Except Fault Bool
  | 0, _, _ => .ok true
  | left + 1, i, count =>
    if i < a.array_count_ ∧ count < a.size_ then
      match equals_inner equals a other i INNER_CAPACITY 0 count with
      | .error e => .error e
      | .ok (.ret r) => .ok r
      | .ok (.next count) => equals_outer equals a other left (i + 1) count
    else .ok true

/-- The method `Array::equals`, called with an `Array` (the `dynamic_cast` succeeds). -/
def equals [DecidableEq β] (equals : β → Option β → Bool) (a other : Array β) :
    Except Fault Bool :=
  if a.size_ = 0 then .ok (decide (other.size = 0))
  else equals_outer equals a other a.array_count_ 0 0

end Array

/-! ## Reachable states and the invariant -/

/-- The states `a` that the public methods produce from a constructor, with the sequence `l`
of elements that the calls made put into `a`: `append` adds one at the end, `set` replaces
one or adds one at the end, `append_all` adds the elements of its source, cloned by
`Array::append_all`.  The source of `append_all` is itself a reachable state. -/
inductive Reachable : {α : Type} → ChunkedArray α → List α → Prop
  | ctor {α : Type} (fresh : Nat → Nat → α) : Reachable (ChunkedArray.ctor fresh) []
  | append {α : Type} {a : ChunkedArray α} {l : List α} (v : α) :
      Reachable a l → Reachable (a.append v) (l ++ [v])
  | set {α : Type} {a a' : ChunkedArray α} {l : List α} (v : α) (i : Nat) :
      Reachable a l → a.set v i = .ok a' →
      Reachable a' (if i = l.length then l ++ [v] else l.set i v)
  | append_all {α : Type} {a a' b : ChunkedArray α} {l lb : List α} :
      Reachable a l → Reachable b lb → a.append_all (some b) = .ok a' →
      Reachable a' (l ++ lb)
  | append_all_obj {β : Type} {a a' b : Array β} {l lb : List (Option β)} (clone : β → β) :
      Reachable a l → Reachable b lb → Array.append_all clone a (some b) = .ok a' →
      Reachable a' (l ++ lb.map (Option.map clone))

/-- The invariant of the representation: `a` holds the sequence `l`. -/
structure Rep {α : Type} (a : ChunkedArray α) (l : List α) : Prop where
  len : a.data_.length = a.outer_capacity_
  count_pos : 1 ≤ a.array_count_
  count_le : a.array_count_ ≤ a.outer_capacity_
  size_le : a.size_ ≤ a.array_count_ * INNER_CAPACITY
  last_used : (a.array_count_ - 1) * INNER_CAPACITY ≤ a.size_
  blocks : ∀ k, k < a.array_count_ →
    ∃ blk, a.data_[k]? = some (some blk) ∧ blk.length = INNER_CAPACITY
  size_eq : a.size_ = l.length
  elems : ∀ i v, l[i]? = some v → load a.data_ (i / INNER_CAPACITY) (i % INNER_CAPACITY) = .ok v

/-! ## Auxiliary definitions of the proofs -/

/-- The state of `append` after its first `if`. -/
def appendGrown {α : Type} (a : ChunkedArray α) : ChunkedArray α :=
  if a.size_ + 1 > a.outer_capacity_ * INNER_CAPACITY then a.reallocate_ else a

/-- The state of `set` when `index < size_`. -/
def setInPlace {α : Type} (a : ChunkedArray α) (val : α) (index : Nat) : ChunkedArray α :=
  { a with data_ := store a.data_ (index / INNER_CAPACITY) (index % INNER_CAPACITY) val }

/-- The predicate that `Array::index_of` and `Array::contains` search for. -/
def Array.matcher {β : Type} [DecidableEq β] (equals : β → Option β → Bool)
    (obj : Option β) : Option β → Bool :=
  fun x => Array.slot_matches equals x obj

/-! ## The table of `modified_dataframe.h`

`modified_dataframe.h` includes `schema.h`, `column.h`, `row.h` and `helper.h`, which hold
the classes `Schema`, `Column`, `Row` and the function `exit_if_not`.  Their embedding
follows the specification.  The methods of `DataFrame` are embedded from their text.

An object that an `Array` slot points to is held by value in the slot: a call that modifies
the object through the pointer writes the new state of the object back to the slot.  This
covers the tables in which no column object is referenced twice. -/

/-- A `float`, identified by its bit pattern. -/
structure CFloat where
  bits : Nat
deriving DecidableEq, Repr

/-- The `float` `0.0`. -/
def CFloat.zero : CFloat := ⟨0⟩

/-- The type tag `'I'`. -/
def TAG_I : Int := 73

/-- The type tag `'B'`. -/
def TAG_B : Int := 66

/-- The type tag `'F'`. -/
def TAG_F : Int := 70

/-- The type tag `'S'`. -/
def TAG_S : Int := 83

/-- A value of one of the four payload types `int`, `bool`, `float`, `String*`. -/
inductive Value where
  | int (v : Int)
  | bool (v : Bool)
  | float (v : CFloat)
  | string (v : Option String)
deriving DecidableEq, Repr

/-- The type tag of the payload type of a value. -/
def Value.tag : Value → Int
  | .int _ => TAG_I
  | .bool _ => TAG_B
  | .float _ => TAG_F
  | .string _ => TAG_S

/-- Modelled from the spec: the missing value of a type tag, "same-type defaults (0, false,
0.0, null string)", which `Column::append_missing` of `column.h` appends. -/
def Value.missing (tag : Int) : Value :=
  if tag = TAG_I then .int 0
  else if tag = TAG_B then .bool false
  else if tag = TAG_F then .float CFloat.zero
  else .string none

/-- Modelled from the spec: the class `Column` of `column.h`, "closed set of four variants,
each a ChunkedContainer<its payload type>". -/
inductive Column where
  | int (vals_ : IntArray)
  | bool (vals_ : BoolArray)
  | float (vals_ : ChunkedArray CFloat)
  | string (vals_ : Array String)

/-- Content of the memory that `new` hands out uninitialised, for each element type. -/
structure Garbage where
  columns : Nat → Nat → Option Column
  ints : Nat → Nat → Int
  bools : Nat → Nat → Bool
  floats : Nat → Nat → CFloat
  strings : Nat → Nat → Option String

namespace Column

/-- Modelled from the spec: the constructors `IntColumn()`, `BoolColumn()`, `FloatColumn()`,
`StringColumn()` of `column.h`, for the tag of the variant: an empty column. -/
def ctor (g : Garbage) (tag : Int) : Column :=
  if tag = TAG_I then .int (ChunkedArray.ctor g.ints)
  else if tag = TAG_B then .bool (ChunkedArray.ctor g.bools)
  else if tag = TAG_F then .float (ChunkedArray.ctor g.floats)
  else .string (ChunkedArray.ctor g.strings)

/-- Modelled from the spec: `Column::size` of `column.h`. -/
def size : Column → Nat
  | .int a => a.size
  | .bool a => a.size
  | .float a => a.size
  | .string a => a.size

/-- Modelled from the spec: `Column::get_type` of `column.h`, the type tag of the variant. -/
def get_type : Column → Int
  | .int _ => TAG_I
  | .bool _ => TAG_B
  | .float _ => TAG_F
  | .string _ => TAG_S

/-- Modelled from the spec: the overloads of `Column::push_back` of `column.h`, "appends one
value of the matching payload type"; the overload is the one of the type of `v`.  The spec
does not say what an overload of another type than the column does. -/
def push_back : Column → Value → Except Fault Column
  | .int a, .int v => .ok (.int (a.append v))
  | .bool a, .bool v => .ok (.bool (a.append v))
  | .float a, .float v => .ok (.float (a.append v))
  | .string a, .string v => .ok (.string (a.append v))
  | _, _ => .error .undefined

/-- Modelled from the spec: `Column::append_missing` of `column.h`, "appends the type's
default/sentinel". -/
def append_missing : Column → Column
  | .int a => .int (a.append 0)
  | .bool a => .bool (a.append false)
  | .float a => .float (a.append CFloat.zero)
  | .string a => .string (a.append none)

/-- Modelled from the spec: the typed `get(idx)` of the four variants of `column.h`, the
`get` of the chunked container of the variant; the value read is tagged with its type. -/
def get : Column → Nat → Except Fault Value
  | .int a, idx => (a.get idx).map Value.int
  | .bool a, idx => (a.get idx).map Value.bool
  | .float a, idx => (a.get idx).map Value.float
  | .string a, idx => (a.get idx).map Value.string

/-- Modelled from the spec: `Column::as_int` of `column.h`, "a usable handle to the same
column only if the tag matches, else indicate absence"; the handle gives the values of the
column, on which `IntColumn::get` and `IntColumn::set(idx, val)` are the `get` and `set` of
the chunked container. -/
def as_int : Column → Option IntArray
  | .int a => some a
  | _ => none

/-- Modelled from the spec: `Column::as_bool` of `column.h`, as `as_int`. -/
def as_bool : Column → Option BoolArray
  | .bool a => some a
  | _ => none

/-- Modelled from the spec: `Column::as_float` of `column.h`, as `as_int`. -/
def as_float : Column → Option (ChunkedArray CFloat)
  | .float a => some a
  | _ => none

/-- Modelled from the spec: `Column::as_string` of `column.h`, as `as_int`. -/
def as_string : Column → Option (Array String)
  | .string a => some a
  | _ => none

end Column

/-- Modelled from the spec: the class `Schema` of `schema.h`, "ordered sequence of
single-character type tags, optional parallel sequence of column names, optional sequence
of row names".  `get_types()` is used as an `IntArray*` by `DataFrame`. -/
structure Schema where
  types_ : IntArray
  col_names_ : List (Option String)
  row_names_ : List (Option String)

namespace Schema

/-- Modelled from the spec: `Schema::get_types` of `schema.h`. -/
def get_types (s : Schema) : IntArray := s.types_

/-- Modelled from the spec: `Schema::width` of `schema.h`, the number of columns. -/
def width (s : Schema) : Nat := s.types_.size

/-- Modelled from the spec: `Schema::add_column(type, name)` of `schema.h`, which adds a
column of the given type and optional name at the end. -/
def add_column (s : Schema) (type : Int) (name : Option String) : Schema :=
  { s with types_ := s.types_.append type
           col_names_ := s.col_names_ ++ [name] }

/-- Modelled from the spec: the constructor of `Schema` from a type-tag string of
`schema.h`, "one tag per column, in order", here the list of the tags; no names. -/
def ctor (g : Garbage) (types : List Int) : Schema :=
  { types_ := types.foldl ChunkedArray.append (ChunkedArray.ctor g.ints)
    col_names_ := types.map (fun _ => none)
    row_names_ := [] }

end Schema

/-- Modelled from the spec: the class `Row` of `row.h`, "owns one value slot per schema
column, typed per the schema", with its cursor.  The type of slot `j` is the type of the
value held there. -/
structure Row where
  types_ : IntArray
  vals_ : List Value
  idx_ : Nat

namespace Row

/-- Modelled from the spec: `Row::get_types` of `row.h`. -/
def get_types (r : Row) : IntArray := r.types_

/-- Modelled from the spec: the typed getters `get_int`, `get_bool`, `get_float`,
`get_string` of `row.h` for the type of tag `tag`, "calling the wrong accessor on a column
is a contract violation". -/
def get_typed (r : Row) (tag : Int) (j : Nat) : Except Fault Value :=
  match r.vals_[j]? with
  | none => .error (.exit "row index out of bounds")
  | some v => if v.tag = tag then .ok v else .error (.exit "wrong type of the row slot")

/-- Modelled from the spec: the overloads of `Row::set(idx, value)` of `row.h`; the overload
is the one of the type of `v`. -/
def set (r : Row) (j : Nat) (v : Value) : Except Fault Row :=
  match r.vals_[j]? with
  | none => .error (.exit "row index out of bounds")
  | some old =>
    if old.tag = v.tag then .ok { r with vals_ := r.vals_.set j v }
    else .error (.exit "wrong type of the row slot")

end Row

/-- State of a `DataFrame` object; the fields `r_`, `r2_` serve `pmap` only.  A slot of
`columns_` holds the state of the column object that the `Column*` of the slot points to:
this is the table in which every slot points to an object of its own.  The table with the
pointers, in which one object can be in two slots, is `Mem.DataFrame`. -/
structure DataFrame where
  columns_ : Array Column
  schema_ : Schema
  /-- Number of rows. -/
  length_ : Nat

namespace DataFrame

/-- The method `nrows`. -/
def nrows (df : DataFrame) : Nat := df.length_

/-- The method `ncols`. -/
def ncols (df : DataFrame) : Nat := df.columns_.size

/-- The state of the table after a call that modified, through the pointer in slot `j` of
`columns_`, the column object, whose new state is `col`; no other slot points to the
object. -/
def put_column (df : DataFrame) (j : Nat) (col : Column) : DataFrame :=
  { df with columns_ := setInPlace df.columns_ (some col) j }

/-- The loop of the constructor `DataFrame(Schema&)`, entered with loop variable `i`; the
`switch` has no `default`.  The tags that a `Schema` stores are `char` codes, on which the
conversion of `types->get(i)` to `char` is the identity. -/
def ctor_loop (g : Garbage) (types : IntArray) :
    Nat → Nat → Array Column → Except Fault (Array Column)
  | 0, _, columns => .ok columns
  | left + 1, i, columns =>
    if i < types.size then
      match types.get i with
      | .error e => .error e
      | .ok type =>
        let columns :=
          if type = TAG_I then columns.append (some (Column.ctor g TAG_I))
          else if type = TAG_B then columns.append (some (Column.ctor g TAG_B))
          else if type = TAG_F then columns.append (some (Column.ctor g TAG_F))
          else if type = TAG_S then columns.append (some (Column.ctor g TAG_S))
          else columns
        ctor_loop g types left (i + 1) columns
    else .ok columns

/-- The constructor `DataFrame(Schema&)`.  The copy constructor of `Schema`, of `schema.h`,
gives an independent copy, here the same value. -/
def ctor (g : Garbage) (schema : Schema) : Except Fault DataFrame :=
  let types := schema.get_types
  match ctor_loop g types types.size 0 (ChunkedArray.ctor g.columns) with
  | .error e => .error e
  | .ok columns => .ok { columns_ := columns, schema_ := schema, length_ := 0 }

/-- The loop of `pad_column`, for a table of `length_` rows; the first argument is the
number of iterations left, `length_ - col->size()`. -/
def pad_column_loop (length_ : Nat) (type : Int) : Nat → Column → Except Fault Column
  | 0, col => .ok col
  | left + 1, col =>
    if col.size < length_ then
      if type = TAG_I then pad_column_loop length_ type left col.append_missing
      else if type = TAG_B then pad_column_loop length_ type left col.append_missing
      else if type = TAG_F then pad_column_loop length_ type left col.append_missing
      else if type = TAG_S then pad_column_loop length_ type left col.append_missing
      else .error (.exit "Invalid column type.")
    else .ok col

/-- The method `pad_column`; the result is the new state of the column object. -/
def pad_column (df : DataFrame) (col : Column) : Except Fault Column :=
  let type := col.get_type
  pad_column_loop df.length_ type (df.length_ - col.size) col

/-- The loop of `add_column` that pads the columns of the table, entered with loop variable
`i`.  A null pointer in `columns_` reaches `col->get_type()` in `pad_column`. -/
def add_column_loop : Nat → Nat → DataFrame → Except (Fault × DataFrame) DataFrame
  | 0, _, df => .ok df
  | left + 1, i, df =>
    if i < df.columns_.size then
      match df.columns_.get i with
      | .error e => .error (e, df)
      | .ok none => .error (.undefined, df)
      | .ok (some col) =>
        match df.pad_column col with
        | .error e => .error (e, df)
        | .ok col => add_column_loop left (i + 1) (df.put_column i col)
    else .ok df

/-- The method `add_column`; `col` is a pointer to a column object that no other slot
references, or null.  A failure carries the state of the table at that moment.  The second
component of the intermediate result is the state of the object `col`. -/
def add_column (df : DataFrame) (col : Option Column) (name : Option String) :
    Except (Fault × DataFrame) DataFrame :=
  match col with
  | none => .error (.exit "Undefined column provided.", df)
  | some col =>
    let padded : Except (Fault × DataFrame) (DataFrame × Column) :=
      if col.size < df.length_ then
        match df.pad_column col with
        | .error e => .error (e, df)
        | .ok col => .ok (df, col)
      else if col.size > df.length_ then
        let df := { df with length_ := col.size }
        match add_column_loop df.columns_.size 0 df with
        | .error e => .error e
        | .ok df => .ok (df, col)
      else .ok (df, col)
    match padded with
    | .error e => .error e
    | .ok (df, col) =>
      let df := { df with columns_ := df.columns_.append (some col) }
      if df.columns_.size > df.schema_.width then
        .ok { df with schema_ := df.schema_.add_column col.get_type name }
      else .ok df

/-- The method `set`, its four overloads selected by the type of `val`.  A failure carries
the state of the table at that moment. -/
def set (df : DataFrame) (col row : Nat) (val : Value) :
    Except (Fault × DataFrame) DataFrame :=
  match df.columns_.get col with
  | .error e => .error (e, df)
  | .ok none => .error (.undefined, df)
  | .ok (some c) =>
    match val with
    | .int val =>
      match c.as_int with
      | none => .error (.exit "Column index corresponds to the wrong type.", df)
      | some column =>
        match column.set val row with
        | .error e => .error (e.1, df)
        | .ok column => .ok (df.put_column col (.int column))
    | .bool val =>
      match c.as_bool with
      | none => .error (.exit "Column index corresponds to the wrong type.", df)
      | some column =>
        match column.set val row with
        | .error e => .error (e.1, df)
        | .ok column => .ok (df.put_column col (.bool column))
    | .float val =>
      match c.as_float with
      | none => .error (.exit "Column index corresponds to the wrong type.", df)
      | some column =>
        match column.set val row with
        | .error e => .error (e.1, df)
        | .ok column => .ok (df.put_column col (.float column))
    | .string val =>
      match c.as_string with
      | none => .error (.exit "Column index corresponds to the wrong type.", df)
      | some column =>
        match column.set val row with
        | .error e => .error (e.1, df)
        | .ok column => .ok (df.put_column col (.string column))

/-- The body of the loop of `add_row` after `col` and `type` are read: the `switch`. -/
def add_row_switch (row : Row) (j : Nat) (col : Column) (type : Int) : Except Fault Column :=
  if type = TAG_I then
    match row.get_typed TAG_I j with
    | .error e => .error e
    | .ok v => col.push_back v
  else if type = TAG_B then
    match row.get_typed TAG_B j with
    | .error e => .error e
    | .ok v => col.push_back v
  else if type = TAG_F then
    match row.get_typed TAG_F j with
    | .error e => .error e
    | .ok v => col.push_back v
  else if type = TAG_S then
    match row.get_typed TAG_S j with
    | .error e => .error e
    | .ok v => col.push_back v
  else .error (.exit "Column has invalid type.")

/-- The loop of `add_row`, entered with loop variable `j`. -/
def add_row_loop (row : Row) : Nat → Nat → DataFrame → Except (Fault × DataFrame) DataFrame
  | 0, _, df => .ok df
  | left + 1, j, df =>
    if j < df.ncols then
      match df.columns_.get j with
      | .error e => .error (e, df)
      | .ok none => .error (.undefined, df)
      | .ok (some col) =>
        let type := col.get_type
        match add_row_switch row j col type with
        | .error e => .error (e, df)
        | .ok col => add_row_loop row left (j + 1) (df.put_column j col)
    else .ok df

/-- The method `add_row`.  A failure carries the state of the table at that moment. -/
def add_row (df : DataFrame) (row : Row) : Except (Fault × DataFrame) DataFrame :=
  match df.schema_.get_types.equals row.get_types with
  | .error e => .error (e, df)
  | .ok false => .error (.exit "Row's schema does not match the data frame's.", df)
  | .ok true =>
    match add_row_loop row df.ncols 0 df with
    | .error e => .error e
    | .ok df => .ok { df with length_ := df.length_ + 1 }

/-- The body of the loop of `fill_row` after `col` and `type` are read: the `switch`. -/
def fill_row_switch (idx : Nat) (row : Row) (j : Nat) (col : Column) (type : Int) :
    Except Fault Row :=
  if type = TAG_I then
    match col.as_int with
    | none => .error .undefined
    | some c =>
      match c.get idx with
      | .error e => .error e
      | .ok v => row.set j (.int v)
  else if type = TAG_B then
    match col.as_bool with
    | none => .error .undefined
    | some c =>
      match c.get idx with
      | .error e => .error e
      | .ok v => row.set j (.bool v)
  else if type = TAG_F then
    match col.as_float with
    | none => .error .undefined
    | some c =>
      match c.get idx with
      | .error e => .error e
      | .ok v => row.set j (.float v)
  else if type = TAG_S then
    match col.as_string with
    | none => .error .undefined
    | some c =>
      match c.get idx with
      | .error e => .error e
      | .ok v => row.set j (.string v)
  else .error (.exit "Column has invalid type.")

/-- The loop of `fill_row`, entered with loop variable `j`. -/
def fill_row_loop (df : DataFrame) (idx : Nat) : Nat → Nat → Row → Except (Fault × Row) Row
  | 0, _, row => .ok row
  | left + 1, j, row =>
    if j < df.ncols then
      match df.columns_.get j with
      | .error e => .error (e, row)
      | .ok none => .error (.undefined, row)
      | .ok (some col) =>
        let type := col.get_type
        match fill_row_switch idx row j col type with
        | .error e => .error (e, row)
        | .ok row => fill_row_loop df idx left (j + 1) row
    else .ok row

/-- The method `fill_row`; the result is the new state of `row`.  A failure carries the
state of the row at that moment. -/
def fill_row (df : DataFrame) (idx : Nat) (row : Row) : Except (Fault × Row) Row :=
  match df.schema_.get_types.equals row.get_types with
  | .error e => .error (e, row)
  | .ok false => .error (.exit "Row's schema does not match the data frame's.", row)
  | .ok true => fill_row_loop df idx df.ncols 0 row

end DataFrame

/-! ## Invariants of the table -/

/-- The four type tags. -/
def IsTag (t : Int) : Prop := t = TAG_I ∨ t = TAG_B ∨ t = TAG_F ∨ t = TAG_S

/-- The column `c` holds the values `l`: the chunked container of its variant satisfies the
invariant of the representation with the payloads of `l`. -/
def Column.Holds (c : Column) (l : List Value) : Prop :=
  match c with
  | .int a => ∃ li, Rep a li ∧ l = li.map Value.int
  | .bool a => ∃ li, Rep a li ∧ l = li.map Value.bool
  | .float a => ∃ li, Rep a li ∧ l = li.map Value.float
  | .string a => ∃ li, Rep a li ∧ l = li.map Value.string

/-- The row `r` is a row of the schema with the type tags `ts`: its type array holds `ts` and
the value in each slot has the type of the slot. -/
def Row.Of (ts : List Int) (r : Row) : Prop :=
  Rep r.types_ ts ∧ r.vals_.map Value.tag = ts

/-- The table `df` has the column objects `cols`, each in a state that holds some values,
and its schema has the type tags `ts`. -/
structure DataFrame.Holds (df : DataFrame) (cols : List Column) (ts : List Int) : Prop where
  columns : Rep df.columns_ (cols.map some)
  each : ∀ c, c ∈ cols → ∃ l, c.Holds l
  types : Rep df.schema_.types_ ts

/-- The table `df` has the column objects `cols` with the type tags `ts` of its schema, and
holds the rows `rows`: column `j` holds the values of slot `j` of the rows. -/
structure DataFrame.Table (df : DataFrame) (cols : List Column) (ts : List Int)
    (rows : List (List Value)) : Prop where
  columns : Rep df.columns_ (cols.map some)
  types : Rep df.schema_.types_ ts
  tags : cols.map Column.get_type = ts
  cells : ∀ (j : Nat) (c : Column), cols[j]? = some c →
    c.Holds (rows.map (fun r => r.getD j (Value.int 0)))
  shape : ∀ r, r ∈ rows → r.map Value.tag = ts
  length : df.length_ = rows.length

/-- The loop over the columns that `add_column` and `add_row` share: the column object of
slot `j` is modified by `f j`. -/
def DataFrame.for_columns (f : Nat → Column → Except Fault Column) :
    Nat → Nat → DataFrame → Except (Fault × DataFrame) DataFrame
  | 0, _, df => .ok df
  | left + 1, j, df =>
    if j < df.columns_.size then
      match df.columns_.get j with
      | .error e => .error (e, df)
      | .ok none => .error (.undefined, df)
      | .ok (some col) =>
        match f j col with
        | .error e => .error (e, df)
        | .ok col => DataFrame.for_columns f left (j + 1) (df.put_column j col)
    else .ok df

/-- Uninitialised memory that holds zeros and null pointers. -/
def Garbage.blank : Garbage :=
  { columns := fun _ _ => none
    ints := fun _ _ => 0
    bools := fun _ _ => false
    floats := fun _ _ => CFloat.zero
    strings := fun _ _ => none }

/-- The last statements of `add_column`: the column is appended and the schema extended when
it has fewer columns than the table. -/
def DataFrame.add_column_store (df : DataFrame) (col : Column) (name : Option String) :
    DataFrame :=
  if (df.columns_.append (some col)).size > df.schema_.width then
    { df with columns_ := df.columns_.append (some col)
              schema_ := df.schema_.add_column col.get_type name }
  else { df with columns_ := df.columns_.append (some col) }

/-! ## Rows, rowers and the traversals of the table -/

/-- Modelled from the spec: `Column::clone` of `column.h`, through which the copy constructor
of the table has the columns "individually cloned": another column object in the same
state. -/
def Column.clone (c : Column) : Column := c

/-- Modelled from the spec: `Schema::clear_row_names` of `schema.h`. -/
def Schema.clear_row_names (s : Schema) : Schema := { s with row_names_ := [] }

/-- Modelled from the spec: the constructor `Row(Schema&)` of `row.h`, "one value slot per
schema column, typed per the schema"; a slot starts with the missing value of its type and
the cursor at 0. -/
def Row.ctor (schema : Schema) : Row :=
  { types_ := schema.get_types
    vals_ := (List.range schema.width).map (fun j =>
      match schema.get_types.get j with
      | .ok t => Value.missing t
      | .error _ => Value.missing TAG_S)
    idx_ := 0 }

/-- Modelled from the spec: `Row::set_idx` of `row.h`, which sets the cursor. -/
def Row.set_idx (r : Row) (idx : Nat) : Row := { r with idx_ := idx }

/-- Modelled from the spec: `Row::get_idx` of `row.h`, which reads the cursor. -/
def Row.get_idx (r : Row) : Nat := r.idx_

/-- Modelled from the spec: the class `Fielder` of `row.h`, with the state `φ` of the object:
`start(r)`, the four overloads of `accept`, selected by the type of the value, and
`done()`. -/
structure Fielder (φ : Type) where
  start : φ → Nat → Except Fault φ
  accept : φ → Value → Except Fault φ
  done : φ → Except Fault φ

/-- Modelled from the spec: `Row::visit(idx, fielder)` of `row.h`: "sets the fielder's row
context via `fielder.start(row_index)`, then for each column in schema order dispatches to
the one-argument `fielder.accept(value)` overload matching that column's type, then calls
`fielder.done()`".  The result is the new state of the fielder. -/
def Row.visit {φ : Type} (r : Row) (idx : Nat) (f : Fielder φ) (s : φ) : Except Fault φ :=
  match f.start s idx with
  | .error e => .error e
  | .ok s =>
    match r.vals_.foldlM f.accept s with
    | .error e => .error e
    | .ok s => f.done s

/-- Modelled from the spec: the class `Rower` of `row.h`, with the state `ρ` of the object:
`accept(row)` reads the row and returns a `bool` and the new state of the rower, `clone()`
gives a new rower or fails, `join_delete(other)` merges the state of `other` into the
rower.  This is the case of a rower that holds no pointer through which it writes to the
table or to the row, as the rowers of `bench.cpp`; the general case is `MutRower`. -/
structure Rower (ρ : Type) where
  accept : ρ → Row → Except Fault (Bool × ρ)
  clone : ρ → Except Fault ρ
  join_delete : ρ → ρ → Except Fault ρ

/-- The row `row2` has the slots of the row `row`: the same type array and, in each slot, a
value of the same type.  No method of `Row` changes the slots of a row: `set` writes a value
of the type of the slot, `set_idx` writes the cursor. -/
def Row.SameSlots (row row2 : Row) : Prop :=
  row2.types_ = row.types_ ∧ row2.vals_.map Value.tag = row.vals_.map Value.tag

/-- Modelled from the spec: the method `accept(Row& r)` of a `Rower` of `row.h` in general,
which "consumes a whole Row and optionally mutates the table": the rower can write the row
that it receives by reference and, when it holds a pointer to the table that is traversed,
the table.  `accept` takes the states of the rower, of the row and of the table, and returns
the `bool` and the new states of the three; a rower without a pointer to the table returns
the table as it was.  The rower reaches the row through the methods of `Row`, so that the
row comes back with the slots it had (`slots_kept`). -/
structure MutRower (ρ : Type) where
  accept : ρ → Row → DataFrame → Except Fault (Bool × ρ × Row × DataFrame)
  slots_kept : ∀ r row df b r2 row2 df2,
    accept r row df = .ok (b, r2, row2, df2) → Row.SameSlots row row2

/-- A `Rower` that leaves the row and the table as they are, as a `MutRower`. -/
def Rower.toMut {ρ : Type} (R : Rower ρ) : MutRower ρ :=
  { accept := fun r row df =>
      match R.accept r row with
      | .error e => .error e
      | .ok (b, r) => .ok (b, r, row, df)
    slots_kept := by
      intro r row df b r2 row2 df2 h
      beta_reduce at h
      cases hacc : R.accept r row with
      | error e =>
        rw [hacc] at h
        cases h
      | ok p =>
        rw [hacc] at h
        cases h
        exact ⟨rfl, rfl⟩ }

/-- The wrap-around of `int` arithmetic to 32 bits, two's complement. -/
def wrap32 (x : Int) : Int := Int.bmod x (2 ^ 32)

/-- State of a `SumFielder` of `bench.cpp`. -/
structure SumFielder where
  total_ : Int

/-- The methods `start`, `accept` and `done` of `SumFielder`. -/
def SumFielder.fielder : Fielder SumFielder :=
  { start := fun _ _ => .ok { total_ := 0 }
    accept := fun s v =>
      match v with
      | .int i => .ok { total_ := wrap32 (s.total_ + i) }
      | _ => .ok s
    done := fun s => .ok s }

/-- The method `SumFielder::get_total`. -/
def SumFielder.get_total (s : SumFielder) : Int := s.total_

/-- State of a `SumRower` of `bench.cpp`: its fielder `sf_` and its `total_`. -/
structure SumRower where
  sf_ : SumFielder
  total_ : Int

namespace SumRower

/-- The constructor `SumRower()`. -/
def ctor : SumRower := { total_ := 0, sf_ := { total_ := 0 } }

/-- The method `SumRower::accept`.  It has no `return` statement; the value that the caller
finds is taken as `false`, `map` and `pmap` do not read it. -/
def accept (s : SumRower) (r : Row) : Except Fault (Bool × SumRower) :=
  match r.visit r.get_idx SumFielder.fielder s.sf_ with
  | .error e => .error e
  | .ok sf => .ok (false, { sf_ := sf, total_ := wrap32 (s.total_ + sf.get_total) })

/-- The method `SumRower::get_total`. -/
def get_total (s : SumRower) : Int := s.total_

/-- The method `SumRower::join_delete`, called with a `SumRower`. -/
def join_delete (s o : SumRower) : Except Fault SumRower :=
  .ok { s with total_ := wrap32 (s.total_ + o.get_total) }

/-- The method `SumRower::clone`. -/
def clone (_ : SumRower) : SumRower := ctor

/-- The class `SumRower` as a `Rower`. -/
def rower : Rower SumRower :=
  { accept := accept, clone := fun s => .ok (clone s), join_delete := join_delete }

end SumRower

namespace DataFrame

/-- The copy constructor `DataFrame(DataFrame&)`.  The copy constructor of `Schema`, of
`schema.h`, gives an independent copy, here the same value. -/
def copy (g : Garbage) (df : DataFrame) : Except Fault DataFrame :=
  match Array.append_all Column.clone (ChunkedArray.ctor g.columns) (some df.columns_) with
  | .error e => .error e
  | .ok columns =>
    .ok { columns_ := columns
          schema_ := df.schema_.clear_row_names
          length_ := df.nrows }

/-- The methods `get_int`, `get_bool`, `get_float`, `get_string`, for the type of tag `tag`:
`as_int()`, `as_bool()`, `as_float()`, `as_string()` return a null pointer on a column of
another type.  The value returned is tagged with its type. -/
def get_typed (df : DataFrame) (tag : Int) (col row : Nat) : Except Fault Value :=
  match df.columns_.get col with
  | .error e => .error e
  | .ok none => .error .undefined
  | .ok (some c) =>
    if tag = TAG_I then
      match c.as_int with
      | none => .error (.exit "Column index corresponds to the wrong type.")
      | some column => (column.get row).map Value.int
    else if tag = TAG_B then
      match c.as_bool with
      | none => .error (.exit "Column index corresponds to the wrong type.")
      | some column => (column.get row).map Value.bool
    else if tag = TAG_F then
      match c.as_float with
      | none => .error (.exit "Column index corresponds to the wrong type.")
      | some column => (column.get row).map Value.float
    else
      match c.as_string with
      | none => .error (.exit "Column index corresponds to the wrong type.")
      | some column => (column.get row).map Value.string

/-- The method `get_int`. -/
def get_int (df : DataFrame) (col row : Nat) : Except Fault Value := df.get_typed TAG_I col row

/-- The method `get_bool`. -/
def get_bool (df : DataFrame) (col row : Nat) : Except Fault Value := df.get_typed TAG_B col row

/-- The method `get_float`. -/
def get_float (df : DataFrame) (col row : Nat) : Except Fault Value := df.get_typed TAG_F col row

/-- The method `get_string`. -/
def get_string (df : DataFrame) (col row : Nat) : Except Fault Value :=
  df.get_typed TAG_S col row

/-- The loop of `map`, entered with loop variable `i`, the scratch row and the state of the
rower. -/
def map_loop {ρ : Type} (R : Rower ρ) (df : DataFrame) : Nat → Nat → Row → ρ → Except Fault ρ
  | 0, _, _, r => .ok r
  | left + 1, i, row, r =>
    if i < df.length_ then
      let row := row.set_idx i
      match df.fill_row i row with
      | .error e => .error e.1
      | .ok row =>
        match R.accept r row with
        | .error e => .error e
        | .ok (_, r) => map_loop R df left (i + 1) row r
    else .ok r

/-- The method `map`; the result is the new state of the rower. -/
def map {ρ : Type} (df : DataFrame) (R : Rower ρ) (r : ρ) : Except Fault ρ :=
  let row := Row.ctor df.schema_
  map_loop R df df.length_ 0 row r

/-- The loop of `map_x`, entered with loop variable `i`; the first argument is the number of
iterations left, `end - i`. -/
def map_x_loop {ρ : Type} (R : Rower ρ) (df : DataFrame) (stop : Nat) :
    Nat → Nat → Row → ρ → Except Fault ρ
  | 0, _, _, r => .ok r
  | left + 1, i, row, r =>
    if i < stop then
      let row := row.set_idx i
      match df.fill_row i row with
      | .error e => .error e.1
      | .ok row =>
        match R.accept r row with
        | .error e => .error e
        | .ok (_, r) => map_x_loop R df stop left (i + 1) row r
    else .ok r

/-- The method `map_x`, with the states of the rowers `r_` and `r2_` of the table; the result
is their new states. -/
def map_x {ρ : Type} (df : DataFrame) (R : Rower ρ) (x : Int) (r_ r2_ : ρ) :
    Except Fault (ρ × ρ) :=
  let row := Row.ctor df.schema_
  if x = 1 then
    let start := 0
    let stop := df.length_ / 2
    match map_x_loop R df stop (stop - start) start row r_ with
    | .error e => .error e
    | .ok r => .ok (r, r2_)
  else
    let start := df.length_ / 2
    let stop := df.length_
    match map_x_loop R df stop (stop - start) start row r2_ with
    | .error e => .error e
    | .ok r => .ok (r_, r)

/-- The method `pmap`; the result is the new state of the rower.  The thread `t1` writes to
the rower `r_` and to its own row, the thread `t2` to the rower `r2_` and to its own row,
and both read the table; the state after `t1.join()` and `t2.join()` is the one that the run
of `map_x(1)` followed by the run of `map_x(2)` leaves. -/
def pmap {ρ : Type} (df : DataFrame) (R : Rower ρ) (r : ρ) : Except Fault ρ :=
  let r_ := r
  match R.clone r_ with
  | .error e => .error e
  | .ok r2_ =>
    match df.map_x R 1 r_ r2_ with
    | .error e => .error e
    | .ok (r_, r2_) =>
      match df.map_x R 2 r_ r2_ with
      | .error e => .error e
      | .ok (r_, r2_) => R.join_delete r_ r2_

/-- The loop of `map` for a rower that may write the row and the table, entered with loop
variable `i`, the scratch row, the state of the rower and the state of the table.  The guard
reads `length_` in every iteration, so the number of iterations is not known when the loop
is entered: the first argument bounds it, and `none` says that the bound was reached before
the loop ended. -/
def map_mut_loop {ρ : Type} (R : MutRower ρ) :
    Nat → Nat → Row → ρ → DataFrame → Except Fault (Option (ρ × DataFrame))
  | 0, _, _, _, _ => .ok none
  | fuel + 1, i, row, r, df =>
    if i < df.length_ then
      let row := row.set_idx i
      match df.fill_row i row with
      | .error e => .error e.1
      | .ok row =>
        match R.accept r row df with
        | .error e => .error e
        | .ok (_, r, row, df) => map_mut_loop R fuel (i + 1) row r df
    else .ok (some (r, df))

/-- The method `map` for a rower that may write the row and the table, within `fuel`
iterations of its loop; the result is the new state of the rower and of the table. -/
def map_mut {ρ : Type} (fuel : Nat) (df : DataFrame) (R : MutRower ρ) (r : ρ) :
    Except Fault (Option (ρ × DataFrame)) :=
  let row := Row.ctor df.schema_
  map_mut_loop R fuel 0 row r df

/-- The loop of `filter`, entered with loop variable `i`, the states of the table, of the
new table `df2` and of the rower.  The row is passed to `accept` by reference, and
`add_row` receives it as `accept` left it.  The guard reads `length_` in every iteration:
the first argument bounds the number of iterations, and `none` says that the bound was
reached before the loop ended. -/
def filter_loop {ρ : Type} (R : MutRower ρ) :
    Nat → Nat → DataFrame → DataFrame → ρ →
      Except Fault (Option (DataFrame × ρ × DataFrame))
  | 0, _, _, _, _ => .ok none
  | fuel + 1, i, df, df2, r =>
    if i < df.length_ then
      let row := Row.ctor df.schema_
      match df.fill_row i row with
      | .error e => .error e.1
      | .ok row =>
        match R.accept r row df with
        | .error e => .error e
        | .ok (true, r, row, df) =>
          match df2.add_row row with
          | .error e => .error e.1
          | .ok df2 => filter_loop R fuel (i + 1) df df2 r
        | .ok (false, r, _, df) => filter_loop R fuel (i + 1) df df2 r
    else .ok (some (df2, r, df))

/-- The method `filter`, within `fuel` iterations of its loop; the result is the new table,
the new state of the rower and the state of the table. -/
def filter {ρ : Type} (g : Garbage) (fuel : Nat) (df : DataFrame) (R : MutRower ρ) (r : ρ) :
    Except Fault (Option (DataFrame × ρ × DataFrame)) :=
  match DataFrame.ctor g df.schema_ with
  | .error e => .error e
  | .ok df2 => filter_loop R fuel 0 df df2 r

end DataFrame

/-! ## `IncrementFielder` and `IncrementRower` of `bench.cpp` -/

/-- State of an `IncrementFielder` of `bench.cpp`.  `df_` points to the table that is
traversed, which no method writes to, and is held by value; `row_` and `new_row_` are `none`
when the pointer is not to an object (before `start` and after `done`). -/
structure IncrementFielder where
  df_ : DataFrame
  new_df_ : DataFrame
  row_ : Option Row
  new_row_ : Option Row
  /-- The index within the row we're traversing. -/
  col_index_ : Nat

namespace IncrementFielder

/-- The constructor `IncrementFielder(df)`; it does not initialise `col_index_`, where it
finds `junk`.  The copy constructor of `Schema`, of `schema.h`, gives an independent copy,
here the same value. -/
def ctor (g : Garbage) (junk : Nat) (df : DataFrame) : Except Fault IncrementFielder :=
  let new_schema := df.schema_
  match DataFrame.ctor g new_schema with
  | .error e => .error e
  | .ok new_df =>
    .ok { df_ := df, new_df_ := new_df, row_ := none, new_row_ := none, col_index_ := junk }

/-- The method `start`. -/
def start (s : IncrementFielder) (r : Nat) : Except Fault IncrementFielder :=
  let row := Row.ctor s.df_.schema_
  match s.df_.fill_row r row with
  | .error e => .error e.1
  | .ok row =>
    .ok { s with row_ := some row, col_index_ := 0, new_row_ := some (Row.ctor s.df_.schema_) }

/-- The method `done`. -/
def done (s : IncrementFielder) : Except Fault IncrementFielder :=
  match s.new_row_ with
  | none => .error .undefined
  | some new_row =>
    match s.new_df_.add_row new_row with
    | .error e => .error e.1
    | .ok new_df => .ok { s with new_df_ := new_df, row_ := none, new_row_ := none }

/-- The statements `new_row_->set(col_index_, v); col_index_++;` of the overloads of
`accept` for `bool`, `float` and `int`. -/
def put (s : IncrementFielder) (v : Value) : Except Fault IncrementFielder :=
  match s.new_row_ with
  | none => .error .undefined
  | some new_row =>
    match new_row.set s.col_index_ v with
    | .error e => .error e
    | .ok new_row => .ok { s with new_row_ := some new_row, col_index_ := s.col_index_ + 1 }

/-- The four overloads of `accept`; `fadd1 f` is the `float` sum `f + 1` of the machine, and
`i + 1` wraps around.  The overload for `String*` has an empty body. -/
def accept (fadd1 : CFloat → CFloat) (s : IncrementFielder) (v : Value) :
    Except Fault IncrementFielder :=
  match v with
  | .bool b => s.put (.bool (!b))
  | .float f => s.put (.float (fadd1 f))
  | .string _ => .ok s
  | .int i => s.put (.int (wrap32 (i + 1)))

/-- The method `get_new_df`. -/
def get_new_df (s : IncrementFielder) : DataFrame := s.new_df_

/-- The class `IncrementFielder` as a `Fielder`. -/
def fielder (fadd1 : CFloat → CFloat) : Fielder IncrementFielder :=
  { start := start, accept := accept fadd1, done := done }

end IncrementFielder

/-- State of an `IncrementRower` of `bench.cpp`: its fielder `if_` and the table `df_` it
was built on. -/
structure IncrementRower where
  if_ : IncrementFielder
  df_ : DataFrame

namespace IncrementRower

/-- The constructor `IncrementRower(df)`. -/
def ctor (g : Garbage) (junk : Nat) (df : DataFrame) : Except Fault IncrementRower :=
  match IncrementFielder.ctor g junk df with
  | .error e => .error e
  | .ok f => .ok { if_ := f, df_ := df }

/-- The method `IncrementRower::accept`.  It has no `return` statement; the value that the
caller finds is taken as `false`, `map` and `pmap` do not read it. -/
def accept (fadd1 : CFloat → CFloat) (s : IncrementRower) (r : Row) :
    Except Fault (Bool × IncrementRower) :=
  match r.visit r.get_idx (IncrementFielder.fielder fadd1) s.if_ with
  | .error e => .error e
  | .ok f => .ok (false, { s with if_ := f })

/-- The method `IncrementRower::get_new_df`. -/
def get_new_df (s : IncrementRower) : DataFrame := s.if_.get_new_df

/-- The loop of `IncrementRower::join_delete`, entered with loop variable `i` and the state
of the table `new_df_`. -/
def join_delete_loop (o_df : DataFrame) : Nat → Nat → DataFrame → Except Fault DataFrame
  | 0, _, new_df => .ok new_df
  | left + 1, i, new_df =>
    if i < o_df.nrows then
      let row := Row.ctor new_df.schema_
      match o_df.fill_row i row with
      | .error e => .error e.1
      | .ok row =>
        match new_df.add_row row with
        | .error e => .error e.1
        | .ok new_df => join_delete_loop o_df left (i + 1) new_df
    else .ok new_df

/-- The method `IncrementRower::join_delete`, called with an `IncrementRower`. -/
def join_delete (s o : IncrementRower) : Except Fault IncrementRower :=
  let o_df := o.get_new_df
  let new_df := s.if_.get_new_df
  match join_delete_loop o_df o_df.nrows 0 new_df with
  | .error e => .error e
  | .ok new_df => .ok { s with if_ := { s.if_ with new_df_ := new_df } }

/-- The method `IncrementRower::clone`. -/
def clone (g : Garbage) (junk : Nat) (s : IncrementRower) : Except Fault IncrementRower :=
  ctor g junk s.df_

/-- The class `IncrementRower` as a `Rower`. -/
def rower (g : Garbage) (junk : Nat) (fadd1 : CFloat → CFloat) : Rower IncrementRower :=
  { accept := accept fadd1, clone := clone g junk, join_delete := join_delete }

end IncrementRower

/-- The value that an `IncrementFielder` puts in the new row for a value of the row it
visits: an `int` plus 1, a `float` plus 1, a `bool` negated; a slot of a string is not
written and keeps the missing value. -/
def increment_value (fadd1 : CFloat → CFloat) : Value → Value
  | .int i => .int (wrap32 (i + 1))
  | .bool b => .bool (!b)
  | .float f => .float (fadd1 f)
  | .string _ => Value.missing TAG_S

/-! ## The table with its column objects in memory

`columns_` of the source holds `Column*`.  The embedding of `DataFrame` above holds in a slot
the state of the object that the slot points to, which is the table of the source when every
slot points to an object of its own.  `add_column` stores the pointer it is given, so one
column object can be in two slots, and a write through one slot is then seen through the
other.  The embedding below keeps the pointers: a slot of `columns_` holds the address of a
column object, and the column objects are in a store. -/

/-- The column objects in memory: `store[p]` is the state of the object at address `p`, and
`new` of a column gives the address `store.length`. -/
abbrev Mem.Store := List Column

/-- State of a `DataFrame` object, `columns_` holding the addresses of the column objects. -/
structure Mem.DataFrame where
  columns_ : Array Nat
  schema_ : Schema
  /-- Number of rows. -/
  length_ : Nat

/-- The method `nrows`. -/
def Mem.DataFrame.nrows (df : Mem.DataFrame) : Nat := df.length_

/-- The method `ncols`. -/
def Mem.DataFrame.ncols (df : Mem.DataFrame) : Nat := df.columns_.size

/-- The loop of the constructor `DataFrame(Schema&)`, entered with loop variable `i`, with
the store; the `switch` has no `default`. -/
def Mem.DataFrame.ctor_loop (g : Garbage) (types : IntArray) :
    Nat → Nat → Mem.Store → Array Nat → Except Fault (Mem.Store × Array Nat)
  | 0, _, store, columns => .ok (store, columns)
  | left + 1, i, store, columns =>
    if i < types.size then
      match types.get i with
      | .error e => .error e
      | .ok type =>
        if type = TAG_I then
          Mem.DataFrame.ctor_loop g types left (i + 1) (store ++ [Column.ctor g TAG_I])
            (columns.append (some store.length))
        else if type = TAG_B then
          Mem.DataFrame.ctor_loop g types left (i + 1) (store ++ [Column.ctor g TAG_B])
            (columns.append (some store.length))
        else if type = TAG_F then
          Mem.DataFrame.ctor_loop g types left (i + 1) (store ++ [Column.ctor g TAG_F])
            (columns.append (some store.length))
        else if type = TAG_S then
          Mem.DataFrame.ctor_loop g types left (i + 1) (store ++ [Column.ctor g TAG_S])
            (columns.append (some store.length))
        else Mem.DataFrame.ctor_loop g types left (i + 1) store columns
    else .ok (store, columns)

/-- The constructor `DataFrame(Schema&)`; the result is the new store and the table.
`fresh` is what the blocks of `columns_` hold before they are written. -/
def Mem.DataFrame.ctor (g : Garbage) (fresh : Nat → Nat → Option Nat) (store : Mem.Store)
    (schema : Schema) : Except Fault (Mem.Store × Mem.DataFrame) :=
  let types := schema.get_types
  match Mem.DataFrame.ctor_loop g types types.size 0 store (ChunkedArray.ctor fresh) with
  | .error e => .error e
  | .ok (store, columns) =>
    .ok (store, { columns_ := columns, schema_ := schema, length_ := 0 })

/-- The method `pad_column(col)` for the column object at the address `col`; the result is
the new store.  An address that holds no object is a dangling pointer. -/
def Mem.DataFrame.pad_column (store : Mem.Store) (df : Mem.DataFrame) (col : Nat) :
    Except Fault Mem.Store :=
  match store[col]? with
  | none => .error .undefined
  | some c =>
    let type := c.get_type
    match DataFrame.pad_column_loop df.length_ type (df.length_ - c.size) c with
    | .error e => .error e
    | .ok c => .ok (store.set col c)

/-- The loop of `add_column` that pads the columns of the table, entered with loop variable
`i`. -/
def Mem.DataFrame.add_column_loop (df : Mem.DataFrame) :
    Nat → Nat → Mem.Store → Except Fault Mem.Store
  | 0, _, store => .ok store
  | left + 1, i, store =>
    if i < df.columns_.size then
      match df.columns_.get i with
      | .error e => .error e
      | .ok none => .error .undefined
      | .ok (some col) =>
        match Mem.DataFrame.pad_column store df col with
        | .error e => .error e
        | .ok store => Mem.DataFrame.add_column_loop df left (i + 1) store
    else .ok store

/-- The `if` and `else if` of `add_column`, for the column object at the address `col`, read
in the state `c`: the column is padded to the number of rows of the table, or the columns of
the table to the size of the column. -/
def Mem.DataFrame.add_column_pad (store : Mem.Store) (df : Mem.DataFrame) (col : Nat)
    (c : Column) : Except Fault (Mem.Store × Mem.DataFrame) :=
  if c.size < df.length_ then
    match Mem.DataFrame.pad_column store df col with
    | .error e => .error e
    | .ok store => .ok (store, df)
  else if c.size > df.length_ then
    let df := { df with length_ := c.size }
    match Mem.DataFrame.add_column_loop df df.columns_.size 0 store with
    | .error e => .error e
    | .ok store => .ok (store, df)
  else .ok (store, df)

/-- The method `add_column`; `col` is the address of a column object, or null.  The address
is stored in the new slot, whether or not a slot holds it already. -/
def Mem.DataFrame.add_column (store : Mem.Store) (df : Mem.DataFrame) (col : Option Nat)
    (name : Option String) : Except Fault (Mem.Store × Mem.DataFrame) :=
  match col with
  | none => .error (.exit "Undefined column provided.")
  | some col =>
    match store[col]? with
    | none => .error .undefined
    | some c =>
      match Mem.DataFrame.add_column_pad store df col c with
      | .error e => .error e
      | .ok (store, df) =>
        let df := { df with columns_ := df.columns_.append (some col) }
        if df.columns_.size > df.schema_.width then
          match store[col]? with
          | none => .error .undefined
          | some c => .ok (store, { df with schema_ := df.schema_.add_column c.get_type name })
        else .ok (store, df)

/-- The loop of `add_row`, entered with loop variable `j`. -/
def Mem.DataFrame.add_row_loop (df : Mem.DataFrame) (row : Row) :
    Nat → Nat → Mem.Store → Except Fault Mem.Store
  | 0, _, store => .ok store
  | left + 1, j, store =>
    if j < df.ncols then
      match df.columns_.get j with
      | .error e => .error e
      | .ok none => .error .undefined
      | .ok (some col) =>
        match store[col]? with
        | none => .error .undefined
        | some c =>
          let type := c.get_type
          match DataFrame.add_row_switch row j c type with
          | .error e => .error e
          | .ok c => Mem.DataFrame.add_row_loop df row left (j + 1) (store.set col c)
    else .ok store

/-- The method `add_row`. -/
def Mem.DataFrame.add_row (store : Mem.Store) (df : Mem.DataFrame) (row : Row) :
    Except Fault (Mem.Store × Mem.DataFrame) :=
  match df.schema_.get_types.equals row.get_types with
  | .error e => .error e
  | .ok false => .error (.exit "Row's schema does not match the data frame's.")
  | .ok true =>
    match Mem.DataFrame.add_row_loop df row df.ncols 0 store with
    | .error e => .error e
    | .ok store => .ok (store, { df with length_ := df.length_ + 1 })

/-- The method `set`, its four overloads selected by the type of `val`. -/
def Mem.DataFrame.set (store : Mem.Store) (df : Mem.DataFrame) (col row : Nat)
    (val : Value) : Except Fault (Mem.Store × Mem.DataFrame) :=
  match df.columns_.get col with
  | .error e => .error e
  | .ok none => .error .undefined
  | .ok (some p) =>
    match store[p]? with
    | none => .error .undefined
    | some c =>
      match val with
      | .int val =>
        match c.as_int with
        | none => .error (.exit "Column index corresponds to the wrong type.")
        | some column =>
          match column.set val row with
          | .error e => .error e.1
          | .ok column => .ok (store.set p (.int column), df)
      | .bool val =>
        match c.as_bool with
        | none => .error (.exit "Column index corresponds to the wrong type.")
        | some column =>
          match column.set val row with
          | .error e => .error e.1
          | .ok column => .ok (store.set p (.bool column), df)
      | .float val =>
        match c.as_float with
        | none => .error (.exit "Column index corresponds to the wrong type.")
        | some column =>
          match column.set val row with
          | .error e => .error e.1
          | .ok column => .ok (store.set p (.float column), df)
      | .string val =>
        match c.as_string with
        | none => .error (.exit "Column index corresponds to the wrong type.")
        | some column =>
          match column.set val row with
          | .error e => .error e.1
          | .ok column => .ok (store.set p (.string column), df)

/-- The methods `get_int`, `get_bool`, `get_float`, `get_string`, for the type of tag
`tag`. -/
def Mem.DataFrame.get_typed (store : Mem.Store) (df : Mem.DataFrame) (tag : Int)
    (col row : Nat) : Except Fault Value :=
  match df.columns_.get col with
  | .error e => .error e
  | .ok none => .error .undefined
  | .ok (some p) =>
    match store[p]? with
    | none => .error .undefined
    | some c =>
      if tag = TAG_I then
        match c.as_int with
        | none => .error (.exit "Column index corresponds to the wrong type.")
        | some column => (column.get row).map Value.int
      else if tag = TAG_B then
        match c.as_bool with
        | none => .error (.exit "Column index corresponds to the wrong type.")
        | some column => (column.get row).map Value.bool
      else if tag = TAG_F then
        match c.as_float with
        | none => .error (.exit "Column index corresponds to the wrong type.")
        | some column => (column.get row).map Value.float
      else
        match c.as_string with
        | none => .error (.exit "Column index corresponds to the wrong type.")
        | some column => (column.get row).map Value.string

/-- The method `get_int`. -/
def Mem.DataFrame.get_int (store : Mem.Store) (df : Mem.DataFrame) (col row : Nat) :
    Except Fault Value := Mem.DataFrame.get_typed store df TAG_I col row

/-- A loop over the slots of `columns_`, entered with loop variable `j`, that calls `f` on
the column object of each slot; the loops of `add_row` and of `add_column` are of this
form. -/
def Mem.for_objects (f : Nat → Column → Except Fault Column) (columns : Array Nat) :
    Nat → Nat → Mem.Store → Except Fault Mem.Store
  | 0, _, store => .ok store
  | left + 1, j, store =>
    if j < columns.size then
      match columns.get j with
      | .error e => .error e
      | .ok none => .error .undefined
      | .ok (some p) =>
        match store[p]? with
        | none => .error .undefined
        | some c =>
          match f j c with
          | .error e => .error e
          | .ok c => Mem.for_objects f columns left (j + 1) (store.set p c)
    else .ok store

/-- The slots of `columns_` of the table `df` hold the addresses `ptrs`, no address is in two
slots, and at each of these addresses the store has a column object in a state of its class
that holds `nrows()` values. -/
structure Mem.Sized (store : Mem.Store) (df : Mem.DataFrame) (ptrs : List Nat) : Prop where
  columns : Rep df.columns_ (ptrs.map some)
  nodup : ptrs.Nodup
  sized : ∀ p, p ∈ ptrs → ∃ c l, store[p]? = some c ∧ c.Holds l ∧ l.length = df.length_

/-- The tables, with the store of the column objects, that are reached from the constructor
`DataFrame(Schema&)` by calls that return of `add_column` with the address of a column object
that is in no slot of the table, of `add_row`, and of `set` with a row index below `nrows()`.
Between the calls, column objects are created (`alloc`) and the objects that are in no slot
of the table are written (`write`); the objects in the slots of the table are written by the
calls of the table only: no other table holds them. -/
inductive Mem.ReachableTable : Mem.Store → Mem.DataFrame → Prop
  | ctor (g : Garbage) (fresh : Nat → Nat → Option Nat) (store0 : Mem.Store)
      (schema : Schema) (ts : List Int) (store : Mem.Store) (df : Mem.DataFrame) :
      Reachable schema.types_ ts →
      Mem.DataFrame.ctor g fresh store0 schema = .ok (store, df) →
      Mem.ReachableTable store df
  | alloc {store : Mem.Store} {df : Mem.DataFrame} (col : Column) :
      Mem.ReachableTable store df → Mem.ReachableTable (store ++ [col]) df
  | write {store : Mem.Store} {df : Mem.DataFrame} (p : Nat) (col : Column) :
      Mem.ReachableTable store df → (∀ j, df.columns_.get j ≠ .ok (some p)) →
      Mem.ReachableTable (store.set p col) df
  | add_column {store store' : Mem.Store} {df df' : Mem.DataFrame} (p : Nat)
      (col : Column) (l : List Value) (name : Option String) :
      Mem.ReachableTable store df → (∀ j, df.columns_.get j ≠ .ok (some p)) →
      store[p]? = some col → col.Holds l →
      Mem.DataFrame.add_column store df (some p) name = .ok (store', df') →
      Mem.ReachableTable store' df'
  | add_row {store store' : Mem.Store} {df df' : Mem.DataFrame} (row : Row) :
      Mem.ReachableTable store df →
      Mem.DataFrame.add_row store df row = .ok (store', df') →
      Mem.ReachableTable store' df'
  | set {store store' : Mem.Store} {df df' : Mem.DataFrame} (col row : Nat) (val : Value) :
      Mem.ReachableTable store df → row < df.nrows →
      Mem.DataFrame.set store df col row val = .ok (store', df') →
      Mem.ReachableTable store' df'

/-! ## Reference definitions for the traversals -/

/-- The row that `map` and `map_x` pass to `accept` for the row `k` of a table that holds
`rows`: the cursor is `k` and the slots hold the values of the row `k`. -/
def row_at (types : IntArray) (rows : List (List Value)) (k : Nat) : Row :=
  { types_ := types, vals_ := rows.getD k [], idx_ := k }

/-- The state of a rower after one call of `accept` for each row index of `ks`, in the order
of `ks`, each call with the row `row_at types rows k`. -/
def accept_rows {ρ : Type} (R : Rower ρ) (types : IntArray) (rows : List (List Value))
    (ks : List Nat) (r : ρ) : Except Fault ρ :=
  ks.foldlM (fun r k =>
    match R.accept r (row_at types rows k) with
    | .error e => .error e
    | .ok (_, r) => .ok r) r

/-- A rower that records the rows it is called with, in the order of the calls. -/
def Rower.log : Rower (List Row) :=
  { accept := fun l row => .ok (false, l ++ [row])
    clone := fun _ => .ok []
    join_delete := fun l o => .ok (l ++ o) }

/-- The state of a rower that may write the row and the table after one call of `accept`
for each row index of `ks`, in the order of `ks`, each call with the row
`row_at types rows k` and the table `df`. -/
def accept_rows_mut {ρ : Type} (R : MutRower ρ) (df : DataFrame) (types : IntArray)
    (rows : List (List Value)) (ks : List Nat) (r : ρ) : Except Fault ρ :=
  ks.foldlM (fun r k =>
    match R.accept r (row_at types rows k) df with
    | .error e => .error e
    | .ok (_, r, _, _) => .ok r) r

/-- A rower that records the rows it is called with, in the order of the calls, and leaves
the row and the table as they are. -/
def MutRower.log : MutRower (List Row) :=
  { accept := fun l row df => .ok (false, l ++ [row], row, df)
    slots_kept := by
      intro r row df b r2 row2 df2 h
      cases h
      exact ⟨rfl, rfl⟩ }

/-- A rower that holds a pointer to the table that is traversed: its first call of `accept`
passes the row to `add_row` of the table; the state of the rower is the number of calls of
`accept`. -/
def MutRower.add_row_once : MutRower Nat :=
  { accept := fun calls row df =>
      if calls = 0 then
        match df.add_row row with
        | .error e => .error e.1
        | .ok df => .ok (false, calls + 1, row, df)
      else .ok (false, calls + 1, row, df)
    slots_kept := by
      intro r row df b r2 row2 df2 h
      beta_reduce at h
      split at h
      · split at h
        · cases h
        · cases h
          exact ⟨rfl, rfl⟩
      · cases h
        exact ⟨rfl, rfl⟩ }

/-- A rower that leaves the table alone: `accept` calls `set(0, 99)` of the row that it is
passed and returns `true`. -/
def MutRower.write_row : MutRower Unit :=
  { accept := fun u row df =>
      match row.set 0 (.int 99) with
      | .error e => .error e
      | .ok row => .ok (true, u, row, df)
    slots_kept := by
      intro r row df b r2 row2 df2 h
      beta_reduce at h
      cases hs : row.set 0 (.int 99) with
      | error e =>
        rw [hs] at h
        cases h
      | ok row3 =>
        rw [hs] at h
        cases h
        unfold Row.set at hs
        split at hs
        · cases hs
        · rename_i old hold
          split at hs
          · rename_i htag
            cases hs
            refine ⟨rfl, ?_⟩
            show (row.vals_.set 0 (.int 99)).map Value.tag = row.vals_.map Value.tag
            rw [List.map_set, ← htag]
            apply List.ext_getElem?
            intro n
            by_cases hn : 0 = n
            · subst hn
              cases hv : row.vals_ with
              | nil => rfl
              | cons a t =>
                rw [hv, List.getElem?_cons_zero] at hold
                cases hold
                rfl
            · rw [List.getElem?_set_ne hn]
          · cases hs }

/-- A rower that only reads: `accept` returns `true` on the rows that hold the one
integer 5; the state of the rower is the number of calls of `accept`. -/
def MutRower.count_fives : MutRower Nat :=
  { accept := fun n row df => .ok (decide (row.vals_ = [.int 5]), n + 1, row, df)
    slots_kept := by
      intro r row df b r2 row2 df2 h
      cases h
      exact ⟨rfl, rfl⟩ }

/-- The rows that `filter` keeps when `accept` leaves the row and the table `df` as they
are: `accept` is called once for each row, in the order of the rows, with the cursor of the
row at 0, and the rows for which it returns `true` are kept, in their order; with the state
of the rower after the calls. -/
def select_rows {ρ : Type} (R : MutRower ρ) (df : DataFrame) (types : IntArray) :
    List (List Value) → ρ → Except Fault (List (List Value) × ρ)
  | [], r => .ok ([], r)
  | vals :: rest, r =>
    match R.accept r { types_ := types, vals_ := vals, idx_ := 0 } df with
    | .error e => .error e
    | .ok (b, r, _, _) =>
      match select_rows R df types rest r with
      | .error e => .error e
      | .ok (sel, r) => .ok (if b then vals :: sel else sel, r)

/-- The sum of the integer cells of a row. -/
def row_int_sum (vals : List Value) : Int :=
  (vals.map (fun v => match v with
    | .int i => i
    | _ => 0)).sum

/-- The sum of all integer cells of a table that holds `rows`. -/
def table_int_sum (rows : List (List Value)) : Int := (rows.map row_int_sum).sum

/-! ## The client addresses of `Server::register_clients` in `network.h` -/

/-- The `BACKLOG` of `network.h`, the fixed number of clients that the network supports. -/
def BACKLOG : Int := 5

/-- A pointer in a slot of `client_ips_`: what `new char*[BACKLOG]` left there, or the
address of `buffer_`. -/
inductive IpSlot where
  | unwritten
  | buffer
deriving DecidableEq, Repr

/-- The part of the state of a `Server` in `register_clients` that a received address
touches: the content of `buffer_`, the array `client_ips_` and the local variable
`ip_arr_idx`. -/
structure Server where
  buffer_ : String
  client_ips_ : List IpSlot
  ip_arr_idx : Int

namespace Server

/-- The state when `register_clients` enters its main loop, after the constructor and
`int ip_arr_idx = 0`; `garbage` is the content of the buffer that `new char[BUF_SIZE]`
gave. -/
def listening (garbage : String) : Server :=
  { buffer_ := garbage
    client_ips_ := List.replicate BACKLOG.toNat .unwritten
    ip_arr_idx := 0 }

/-- The branch of the main loop of `register_clients` for a message of a client: `recv` put
`msg` in `buffer_`, then the address is added to the array.  The result is the index of the
slot that is written and the new state.  The calls of `printf` and the forwarding of the
message with `send` do not change this state. -/
def receive_ip (s : Server) (msg : String) : Int × Server :=
  let s := { s with buffer_ := msg }
  let s := if s.ip_arr_idx ≥ BACKLOG then { s with ip_arr_idx := 0 } else s
  (s.ip_arr_idx, { s with client_ips_ := s.client_ips_.set s.ip_arr_idx.toNat .buffer })

/-- The messages `msgs` of the clients received one after the other: the indices of the
slots written, in order, and the last state. -/
def receive_ips : List String → Server → List Int × Server
  | [], s => ([], s)
  | msg :: rest, s =>
    let (i, s) := s.receive_ip msg
    let (is, s) := receive_ips rest s
    (i :: is, s)

end Server

/-! ## Memory lemmas -/

theorem load_of_block {α : Type} {arr : List (Option (List α))} {o i : Nat} {blk : List α}
    (h : arr[o]? = some (some blk)) :
    load arr o i = match blk[i]? with
      | some v => .ok v
      | none => .error .undefined := by
  simp [load, h]

theorem store_length {α : Type} (arr : List (Option (List α))) (o i : Nat) (v : α) :
    (store arr o i v).length = arr.length := by
  unfold store
  split <;> simp

theorem store_getElem?_ne {α : Type} (arr : List (Option (List α))) (o i k : Nat) (v : α)
    (h : k ≠ o) : (store arr o i v)[k]? = arr[k]? := by
  unfold store
  split
  · rw [List.getElem?_set_ne (Ne.symm h)]
  · rfl

theorem store_getElem?_eq {α : Type} {arr : List (Option (List α))} {o : Nat} {blk : List α}
    (i : Nat) (v : α) (h : arr[o]? = some (some blk)) :
    (store arr o i v)[o]? = some (some (blk.set i v)) := by
  have ho : o < arr.length := by
    by_contra hc
    rw [List.getElem?_eq_none (by omega)] at h
    cases h
  simp [store, h, List.getElem?_set_self, ho]

theorem load_store_eq {α : Type} {arr : List (Option (List α))} {o i : Nat} {blk : List α}
    (v : α) (h : arr[o]? = some (some blk)) (hi : i < blk.length) :
    load (store arr o i v) o i = .ok v := by
  rw [load_of_block (store_getElem?_eq i v h)]
  simp [List.getElem?_set_self, hi]

theorem load_store_ne {α : Type} (arr : List (Option (List α))) (o i o' i' : Nat) (v : α)
    (h : o' ≠ o ∨ i' ≠ i) : load (store arr o i v) o' i' = load arr o' i' := by
  by_cases ho : o' = o
  · subst ho
    have hi : i' ≠ i := by
      rcases h with h | h
      · exact absurd rfl h
      · exact h
    cases hb : arr[o']? with
    | none => simp [store, hb]
    | some ob =>
      cases ob with
      | none => simp [store, hb]
      | some blk =>
        rw [load_of_block (store_getElem?_eq i v hb), load_of_block hb,
          List.getElem?_set_ne (Ne.symm hi)]
  · unfold load
    rw [store_getElem?_ne arr o i o' v ho]

theorem foldl_set_length {γ : Type} (f : Nat → γ) (n : Nat) (init : List γ) :
    ((List.range n).foldl (fun arr i => arr.set i (f i)) init).length = init.length := by
  induction n with
  | zero => simp
  | succ n ih => simp [List.range_succ, List.foldl_append, ih]

theorem foldl_set_getElem? {γ : Type} (f : Nat → γ) (n : Nat) (init : List γ) (k : Nat) :
    ((List.range n).foldl (fun arr i => arr.set i (f i)) init)[k]? =
      if k < n ∧ k < init.length then some (f k) else init[k]? := by
  induction n with
  | zero => simp
  | succ n ih =>
    rw [List.range_succ, List.foldl_append]
    simp only [List.foldl_cons, List.foldl_nil]
    by_cases hk : k = n
    · subst hk
      by_cases hl : k < init.length
      · rw [List.getElem?_set_self (by rw [foldl_set_length]; exact hl)]
        simp [hl]
      · rw [List.getElem?_eq_none (by rw [List.length_set, foldl_set_length]; omega)]
        rw [List.getElem?_eq_none (by omega)]
        simp [hl]
    · rw [List.getElem?_set_ne (Ne.symm hk), ih]
      have : (k < n + 1 ∧ k < init.length) ↔ (k < n ∧ k < init.length) := by omega
      simp only [this]

/-! ## The operations keep the invariant -/

theorem newBlock_length {α : Type} (fresh : Nat → Nat → α) (k : Nat) :
    (newBlock fresh k).length = INNER_CAPACITY := by
  simp [newBlock]

theorem rep_ctor {α : Type} (fresh : Nat → Nat → α) : Rep (ChunkedArray.ctor fresh) [] where
  len := by simp [ChunkedArray.ctor]
  count_pos := by simp [ChunkedArray.ctor]
  count_le := by simp [ChunkedArray.ctor, INITIAL_OUTER_CAPACITY]
  size_le := by simp [ChunkedArray.ctor]
  last_used := by simp [ChunkedArray.ctor]
  blocks := by
    intro k hk
    have hk0 : k = 0 := by simp [ChunkedArray.ctor] at hk; omega
    subst hk0
    exact ⟨newBlock fresh 0, by simp [ChunkedArray.ctor, INITIAL_OUTER_CAPACITY],
      newBlock_length fresh 0⟩
  size_eq := by simp [ChunkedArray.ctor]
  elems := by intro i v h; simp at h

/-- The method `reallocate_` keeps the fields other than the outer array and its capacity. -/
theorem reallocate_fields {α : Type} (a : ChunkedArray α) :
    a.reallocate_.size_ = a.size_ ∧ a.reallocate_.array_count_ = a.array_count_ ∧
    a.reallocate_.fresh_ = a.fresh_ ∧
    a.reallocate_.outer_capacity_ = a.outer_capacity_ + INITIAL_OUTER_CAPACITY := by
  simp [ChunkedArray.reallocate_]

theorem reallocate_length {α : Type} (a : ChunkedArray α) :
    a.reallocate_.data_.length = a.outer_capacity_ + INITIAL_OUTER_CAPACITY := by
  simp [ChunkedArray.reallocate_, foldl_set_length]

/-- The method `reallocate_` copies the block references below `array_count_`. -/
theorem reallocate_getElem? {α : Type} (a : ChunkedArray α) (k : Nat)
    (hlen : a.data_.length = a.outer_capacity_) (hk : k < a.array_count_)
    (hc : a.array_count_ ≤ a.outer_capacity_) :
    a.reallocate_.data_[k]? = a.data_[k]? := by
  have hk2 : k < a.data_.length := by omega
  simp only [ChunkedArray.reallocate_]
  rw [foldl_set_getElem?]
  have : k < a.array_count_ ∧
      k < (List.replicate (a.outer_capacity_ + INITIAL_OUTER_CAPACITY)
        (none : Option (List α))).length := by
    simp; omega
  rw [if_pos this, List.getD_eq_getElem?_getD, List.getElem?_eq_getElem hk2]
  simp

theorem rep_reallocate {α : Type} {a : ChunkedArray α} {l : List α} (h : Rep a l) :
    Rep a.reallocate_ l := by
  obtain ⟨hs, hc, hf, hcap⟩ := reallocate_fields a
  have hget : ∀ k, k < a.array_count_ → a.reallocate_.data_[k]? = a.data_[k]? :=
    fun k hk => reallocate_getElem? a k h.len hk h.count_le
  refine ⟨?_, ?_, ?_, ?_, ?_, ?_, ?_, ?_⟩
  · rw [reallocate_length, hcap]
  · rw [hc]; exact h.count_pos
  · rw [hc, hcap]; have := h.count_le; omega
  · rw [hc, hs]; exact h.size_le
  · rw [hc, hs]; exact h.last_used
  · intro k hk
    rw [hc] at hk
    rw [hget k hk]
    exact h.blocks k hk
  · rw [hs]; exact h.size_eq
  · intro i v hi
    have hlt : i < l.length := by
      by_contra hcon
      rw [List.getElem?_eq_none (by omega)] at hi
      cases hi
    have hk : i / INNER_CAPACITY < a.array_count_ := by
      have h1 := h.size_le
      have h2 := h.size_eq
      apply Nat.div_lt_of_lt_mul
      rw [Nat.mul_comm]
      omega
    unfold load
    rw [hget _ hk]
    exact h.elems i v hi

theorem getElem?_lt_length {γ : Type} {l : List γ} {i : Nat} {v : γ} (h : l[i]? = some v) :
    i < l.length := by
  by_contra hcon
  rw [List.getElem?_eq_none (by omega)] at h
  cases h

theorem rep_appendGrown {α : Type} {a : ChunkedArray α} {l : List α} (h : Rep a l) :
    Rep (appendGrown a) l ∧ (appendGrown a).size_ = a.size_ ∧
    (appendGrown a).array_count_ = a.array_count_ ∧ (appendGrown a).fresh_ = a.fresh_ ∧
    (a.size_ + 1 > a.array_count_ * INNER_CAPACITY →
      (appendGrown a).array_count_ < (appendGrown a).outer_capacity_) := by
  unfold appendGrown
  obtain ⟨hs, hc, hf, hcap⟩ := reallocate_fields a
  have h1 := h.size_le
  have h2 := h.count_le
  simp only [INNER_CAPACITY, INITIAL_OUTER_CAPACITY] at *
  split
  · refine ⟨rep_reallocate h, hs, hc, hf, ?_⟩
    intro _
    rw [hc, hcap]
    omega
  · refine ⟨h, rfl, rfl, rfl, ?_⟩
    intro hgt
    by_contra hcon
    have : a.array_count_ = a.outer_capacity_ := by omega
    rw [this] at hgt
    omega

theorem append_eq {α : Type} (a : ChunkedArray α) (val : α) :
    a.append val =
      (if (appendGrown a).size_ + 1 > (appendGrown a).array_count_ * INNER_CAPACITY then
        { appendGrown a with
          data_ := (appendGrown a).data_.set (appendGrown a).array_count_
            (some ((newBlock (appendGrown a).fresh_ (appendGrown a).array_count_).set 0 val))
          array_count_ := (appendGrown a).array_count_ + 1
          size_ := (appendGrown a).size_ + 1 }
      else
        { appendGrown a with
          data_ := store (appendGrown a).data_ ((appendGrown a).array_count_ - 1)
            ((appendGrown a).size_ % INNER_CAPACITY) val
          size_ := (appendGrown a).size_ + 1 }) := by
  unfold ChunkedArray.append appendGrown
  simp only []
  split <;> split <;> rfl

theorem rep_append {α : Type} {a : ChunkedArray α} {l : List α} (h : Rep a l) (val : α) :
    Rep (a.append val) (l ++ [val]) := by
  obtain ⟨hg, hs, hc, hf, hroom⟩ := rep_appendGrown h
  rw [append_eq]
  generalize appendGrown a = g at hg hs hc hf hroom
  rw [← hs, ← hc] at hroom
  have hlen := hg.len
  have hsl := hg.size_le
  have hlu := hg.last_used
  have hcp := hg.count_pos
  have hcl := hg.count_le
  have hse := hg.size_eq
  simp only [INNER_CAPACITY] at *
  split
  · -- a new inner block
    rename_i hnew
    have hroom2 := hroom hnew
    have hsz : g.size_ = g.array_count_ * 8 := by omega
    refine ⟨?_, ?_, ?_, ?_, ?_, ?_, ?_, ?_⟩
    · simpa using hlen
    · simp
    · show g.array_count_ + 1 ≤ g.outer_capacity_
      omega
    · show g.size_ + 1 ≤ (g.array_count_ + 1) * 8
      omega
    · show (g.array_count_ + 1 - 1) * 8 ≤ g.size_ + 1
      simp only [Nat.add_sub_cancel]
      omega
    · intro k hk
      have hk2 : k < g.array_count_ + 1 := hk
      by_cases hkc : k = g.array_count_
      · subst hkc
        refine ⟨(newBlock g.fresh_ g.array_count_).set 0 val, ?_, ?_⟩
        · show (g.data_.set g.array_count_ _)[g.array_count_]? = _
          rw [List.getElem?_set_self (by omega)]
        · simp [newBlock, INNER_CAPACITY]
      · have := hg.blocks k (by omega)
        obtain ⟨blk, hb, hbl⟩ := this
        refine ⟨blk, ?_, hbl⟩
        show (g.data_.set g.array_count_ _)[k]? = _
        rw [List.getElem?_set_ne (Ne.symm hkc)]
        exact hb
    · show g.size_ + 1 = (l ++ [val]).length
      simp [hse]
    · intro i v hi
      show load (g.data_.set g.array_count_ _) (i / 8) (i % 8) = .ok v
      by_cases hil : i < l.length
      · rw [List.getElem?_append_left hil] at hi
        have hdiv : i / 8 < g.array_count_ := by omega
        have := hg.elems i v hi
        unfold load at this ⊢
        rw [List.getElem?_set_ne (by omega)]
        exact this
      · have hilen := getElem?_lt_length hi
        simp only [List.length_append, List.length_singleton] at hilen
        have hie : i = l.length := by omega
        subst hie
        rw [List.getElem?_append_right (le_refl _)] at hi
        simp at hi
        subst hi
        have hdiv : l.length / 8 = g.array_count_ := by omega
        have hmod : l.length % 8 = 0 := by omega
        rw [hdiv, hmod]
        unfold load
        rw [List.getElem?_set_self (by omega)]
        simp [newBlock, INNER_CAPACITY]
  · -- room in the last inner block
    rename_i hold
    have hlt : g.size_ < g.array_count_ * 8 := by omega
    have hdiv : g.size_ / 8 = g.array_count_ - 1 := by omega
    obtain ⟨lastb, hlb, hlbl⟩ := hg.blocks (g.array_count_ - 1) (by omega)
    refine ⟨?_, ?_, ?_, ?_, ?_, ?_, ?_, ?_⟩
    · show (store g.data_ _ _ val).length = g.outer_capacity_
      rw [store_length]; exact hlen
    · exact hcp
    · exact hcl
    · show g.size_ + 1 ≤ g.array_count_ * 8
      omega
    · show (g.array_count_ - 1) * 8 ≤ g.size_ + 1
      omega
    · intro k hk
      have hk2 : k < g.array_count_ := hk
      show ∃ blk, (store g.data_ (g.array_count_ - 1) (g.size_ % 8) val)[k]? = _ ∧ _
      by_cases hkc : k = g.array_count_ - 1
      · subst hkc
        refine ⟨lastb.set (g.size_ % 8) val, store_getElem?_eq _ val hlb, ?_⟩
        simp [hlbl]
      · rw [store_getElem?_ne _ _ _ _ _ hkc]
        exact hg.blocks k hk2
    · show g.size_ + 1 = (l ++ [val]).length
      simp [hse]
    · intro i v hi
      show load (store g.data_ (g.array_count_ - 1) (g.size_ % 8) val) (i / 8) (i % 8) = .ok v
      by_cases hil : i < l.length
      · rw [List.getElem?_append_left hil] at hi
        rw [load_store_ne _ _ _ _ _ _ (by omega)]
        exact hg.elems i v hi
      · have hilen := getElem?_lt_length hi
        simp only [List.length_append, List.length_singleton] at hilen
        have hie : i = l.length := by omega
        subst hie
        rw [List.getElem?_append_right (le_refl _)] at hi
        simp at hi
        subst hi
        rw [← hse, hdiv]
        exact load_store_eq _ hlb (by rw [hlbl]; exact Nat.mod_lt _ (by decide))

theorem div_lt_count {α : Type} {a : ChunkedArray α} {l : List α} (h : Rep a l) {i : Nat}
    (hi : i < a.size_) : i / INNER_CAPACITY < a.array_count_ := by
  have h1 := h.size_le
  simp only [INNER_CAPACITY] at *
  omega

theorem rep_get {α : Type} {a : ChunkedArray α} {l : List α} (h : Rep a l) (i : Nat) :
    a.get i = match l[i]? with
      | some v => .ok v
      | none => .error .assertion := by
  unfold ChunkedArray.get
  by_cases hi : i < l.length
  · rw [List.getElem?_eq_getElem hi]
    have : ¬ ¬ i < a.size_ := by rw [h.size_eq]; omega
    rw [if_neg this]
    exact h.elems i _ (List.getElem?_eq_getElem hi)
  · rw [List.getElem?_eq_none (by omega)]
    have : ¬ i < a.size_ := by rw [h.size_eq]; exact hi
    rw [if_pos this]

theorem rep_get_ok {α : Type} {a : ChunkedArray α} {l : List α} (h : Rep a l) {i : Nat}
    (hi : i < l.length) : a.get i = .ok (l.get ⟨i, hi⟩) := by
  rw [rep_get h, List.getElem?_eq_getElem hi]
  rfl

theorem set_eq {α : Type} (a : ChunkedArray α) (val : α) (index : Nat) :
    a.set val index =
      if a.size_ < index then .error (.assertion, a)
      else if index = a.size_ then .ok (a.append val)
      else .ok (setInPlace a val index) := by
  unfold ChunkedArray.set setInPlace
  by_cases h1 : a.size_ < index
  · have h2 : ¬ index ≤ a.size_ := by omega
    simp [h1, h2]
  · have h2 : index ≤ a.size_ := by omega
    simp [h1, h2]

theorem rep_setInPlace {α : Type} {a : ChunkedArray α} {l : List α} (h : Rep a l) (val : α)
    {index : Nat} (hi : index < a.size_) : Rep (setInPlace a val index) (l.set index val) := by
  have hk := div_lt_count h hi
  obtain ⟨blk, hb, hbl⟩ := h.blocks _ hk
  have hmod : index % INNER_CAPACITY < INNER_CAPACITY := Nat.mod_lt _ (by decide)
  refine ⟨?_, h.count_pos, h.count_le, h.size_le, h.last_used, ?_, ?_, ?_⟩
  · show (store a.data_ _ _ val).length = a.outer_capacity_
    rw [store_length]; exact h.len
  · intro k hk2
    show ∃ b, (store a.data_ (index / INNER_CAPACITY) (index % INNER_CAPACITY) val)[k]? = _ ∧ _
    by_cases hkc : k = index / INNER_CAPACITY
    · subst hkc
      exact ⟨blk.set (index % INNER_CAPACITY) val, store_getElem?_eq _ val hb, by simp [hbl]⟩
    · rw [store_getElem?_ne _ _ _ _ _ hkc]
      exact h.blocks k hk2
  · show a.size_ = (l.set index val).length
    simp [h.size_eq]
  · intro i v hv
    show load (store a.data_ (index / INNER_CAPACITY) (index % INNER_CAPACITY) val) _ _ = .ok v
    by_cases hie : i = index
    · subst hie
      rw [List.getElem?_set_self (by rw [← h.size_eq]; exact hi)] at hv
      cases hv
      exact load_store_eq _ hb (by rw [hbl]; exact hmod)
    · rw [List.getElem?_set_ne (Ne.symm hie)] at hv
      rw [load_store_ne]
      · exact h.elems i v hv
      · simp only [INNER_CAPACITY]
        omega

/-- The loop of `append_all` appends the elements of `vals` from index `i` on. -/
theorem rep_append_all_loop {α : Type} {vals : ChunkedArray α} {lb : List α}
    (hv : Rep vals lb) (left : Nat) :
    ∀ (i : Nat) (a : ChunkedArray α) (l : List α), Rep a l → i + left = lb.length →
      ∃ a', ChunkedArray.append_all_loop vals left i a = .ok a' ∧ Rep a' (l ++ lb.drop i) := by
  induction left with
  | zero =>
    intro i a l ha hil
    refine ⟨a, rfl, ?_⟩
    rw [List.drop_of_length_le (by omega)]
    simpa using ha
  | succ n ih =>
    intro i a l ha hil
    have hi : i < lb.length := by omega
    unfold ChunkedArray.append_all_loop
    have hsz : i < vals.size := by unfold ChunkedArray.size; rw [hv.size_eq]; exact hi
    rw [if_pos hsz, rep_get_ok hv hi]
    simp only []
    obtain ⟨a', h1, h2⟩ := ih (i + 1) (a.append (lb.get ⟨i, hi⟩)) _ (rep_append ha _) (by omega)
    refine ⟨a', h1, ?_⟩
    rw [List.append_assoc] at h2
    have : lb.drop i = lb.get ⟨i, hi⟩ :: lb.drop (i + 1) := by
      rw [List.get_eq_getElem]
      exact List.drop_eq_getElem_cons hi
    rw [this]
    exact h2

/-- The loop of `Array::append_all` appends clones of the elements of `vals` from index `i`
on. -/
theorem rep_append_all_obj_loop {β : Type} (clone : β → β) {vals : Array β}
    {lb : List (Option β)} (hv : Rep vals lb) (left : Nat) :
    ∀ (i : Nat) (a : Array β) (l : List (Option β)), Rep a l → i + left = lb.length →
      ∃ a', Array.append_all_loop clone vals left i a = .ok a' ∧
        Rep a' (l ++ (lb.drop i).map (Option.map clone)) := by
  induction left with
  | zero =>
    intro i a l ha hil
    refine ⟨a, rfl, ?_⟩
    rw [List.drop_of_length_le (by omega)]
    simpa using ha
  | succ n ih =>
    intro i a l ha hil
    have hi : i < lb.length := by omega
    have hsz : i < vals.size := by unfold ChunkedArray.size; rw [hv.size_eq]; exact hi
    have hd : lb.drop i = lb.get ⟨i, hi⟩ :: lb.drop (i + 1) := by
      rw [List.get_eq_getElem]
      exact List.drop_eq_getElem_cons hi
    unfold Array.append_all_loop
    rw [if_pos hsz, rep_get_ok hv hi, hd]
    cases hx : lb.get ⟨i, hi⟩ with
    | none =>
      simp only []
      obtain ⟨a', h1, h2⟩ := ih (i + 1) (a.append none) _ (rep_append ha _) (by omega)
      refine ⟨a', h1, ?_⟩
      rw [List.append_assoc] at h2
      simpa using h2
    | some p =>
      simp only []
      obtain ⟨a', h1, h2⟩ := ih (i + 1) (a.append (some (clone p))) _ (rep_append ha _) (by omega)
      refine ⟨a', h1, ?_⟩
      rw [List.append_assoc] at h2
      simpa using h2

/-- Every reachable state satisfies the invariant. -/
theorem Reachable.rep {α : Type} {a : ChunkedArray α} {l : List α} (h : Reachable a l) :
    Rep a l := by
  induction h with
  | ctor fresh => exact rep_ctor fresh
  | append v _ ih => exact rep_append ih v
  | @set _ a a' l v i _ hset ih =>
    rw [set_eq] at hset
    by_cases h1 : a.size_ < i
    · rw [if_pos h1] at hset
      cases hset
    · rw [if_neg h1] at hset
      by_cases h2 : i = a.size_
      · rw [if_pos h2] at hset
        cases hset
        rw [if_pos (by rw [h2, ih.size_eq])]
        exact rep_append ih v
      · rw [if_neg h2] at hset
        cases hset
        rw [if_neg (by rw [← ih.size_eq]; exact h2)]
        exact rep_setInPlace ih v (by omega)
  | @append_all _ a a' b l lb _ _ hall iha ihb =>
    obtain ⟨a2, h1, h2⟩ := rep_append_all_loop ihb lb.length 0 a l iha (by simp)
    have hsz : b.size = lb.length := ihb.size_eq
    simp only [ChunkedArray.append_all, hsz, h1] at hall
    cases hall
    simpa using h2
  | @append_all_obj _ a a' b l lb clone _ _ hall iha ihb =>
    obtain ⟨a2, h1, h2⟩ := rep_append_all_obj_loop clone ihb lb.length 0 a l iha (by simp)
    have hsz : b.size = lb.length := ihb.size_eq
    simp only [Array.append_all, hsz, h1] at hall
    cases hall
    simpa using h2

/-- The states produced by a run of `append` calls are reachable. -/
theorem reachable_foldl_append {α : Type} (vs : List α) :
    ∀ (a : ChunkedArray α) (l : List α), Reachable a l →
      Reachable (vs.foldl ChunkedArray.append a) (l ++ vs) := by
  induction vs with
  | nil => intro a l h; simpa using h
  | cons v vs ih =>
    intro a l h
    have := ih (a.append v) (l ++ [v]) (Reachable.append v h)
    simpa using this

/-- The states produced from a constructor by a run of `append` calls hold what was
appended. -/
theorem reachable_of_appends {α : Type} (fresh : Nat → Nat → α) (vs : List α) :
    Reachable (vs.foldl ChunkedArray.append (ChunkedArray.ctor fresh)) vs := by
  have := reachable_foldl_append vs _ _ (Reachable.ctor fresh)
  simpa using this

theorem size_eq_length {α : Type} {a : ChunkedArray α} {l : List α} (h : Reachable a l) :
    a.size = l.length := h.rep.size_eq

/-- Reading below `size_` succeeds. -/
theorem get_ok_of_lt {α : Type} {a : ChunkedArray α} {l : List α} (h : Rep a l) {i : Nat}
    (hi : i < a.size_) : ∃ v, a.get i = .ok v ∧ l[i]? = some v := by
  have hl : i < l.length := by rw [← h.size_eq]; exact hi
  exact ⟨l.get ⟨i, hl⟩, rep_get_ok h hl, List.getElem?_eq_getElem hl⟩

/-! ## Claims on `append`, `set`, `get` -/

/-- C1: after appending `v_0 .. v_{N-1}` one by one to a freshly constructed `Array`,
`BoolArray` or `IntArray`, `size()` is `N` and `get(i)` returns `v_i` for every `i < N`,
for every `N` (also past one inner block and past the first outer reallocation). -/
theorem append_sequence_size_get {α : Type} (fresh : Nat → Nat → α) (vs : List α) (i : Nat)
    (hi : i < vs.length) :
    (vs.foldl ChunkedArray.append (ChunkedArray.ctor fresh)).size = vs.length ∧
    (vs.foldl ChunkedArray.append (ChunkedArray.ctor fresh)).get i = .ok (vs.get ⟨i, hi⟩) := by
  have h := (reachable_of_appends fresh vs).rep
  exact ⟨h.size_eq, rep_get_ok h hi⟩

/-- Witness of C1: 300 appends to an `IntArray`, read at index 299, past the first outer
reallocation. -/
theorem append_sequence_size_get_witness :
    (((List.range 300).map Int.ofNat).foldl ChunkedArray.append
      (ChunkedArray.ctor (fun _ _ => (0 : Int)))).size = 300 ∧
    (((List.range 300).map Int.ofNat).foldl ChunkedArray.append
      (ChunkedArray.ctor (fun _ _ => (0 : Int)))).get 299 = .ok 299 := by
  have h := append_sequence_size_get (fun _ _ => (0 : Int)) ((List.range 300).map Int.ofNat)
    299 (by simp)
  simpa using h

/-- C2: in a reachable state, `append(v)` leaves `get(i)` unchanged for every `i` below the
size before the call, whichever branch `append` takes; `reallocate_` copies the first
`array_count_` block references. -/
theorem append_preserves_get {α : Type} {a : ChunkedArray α} {l : List α}
    (h : Reachable a l) (v : α) (i : Nat) (hi : i < a.size) :
    (a.append v).get i = a.get i ∧
    (∀ k, k < a.array_count_ → a.reallocate_.data_[k]? = a.data_[k]?) := by
  have hr := h.rep
  constructor
  · have hl : i < l.length := by rw [← hr.size_eq]; exact hi
    rw [rep_get hr, rep_get (rep_append hr v), List.getElem?_append_left hl]
  · intro k hk
    exact reallocate_getElem? a k hr.len hk hr.count_le

/-- Witness of C2: the append that follows 128 appends reallocates the outer array and
allocates a new inner block. -/
theorem append_preserves_get_witness :
    (((List.replicate 128 true).foldl ChunkedArray.append
        (ChunkedArray.ctor (fun _ _ => false))).append false).get 127 =
      ((List.replicate 128 true).foldl ChunkedArray.append
        (ChunkedArray.ctor (fun _ _ => false))).get 127 :=
  (append_preserves_get (reachable_of_appends (fun _ _ => false) (List.replicate 128 true))
    false 127 (by rw [size_eq_length (reachable_of_appends _ _)]; simp)).1

/-- C3: in every state reachable from a constructor by `append`, `set` and `append_all`,
`size_ ≤ array_count_ * INNER_CAPACITY ≤ outer_capacity_ * INNER_CAPACITY`, the element of
index `i < size_` is in block `i / 8` at offset `i % 8`, and the slot that `append` writes
is the one `get` reads for index `size_`. -/
theorem reachable_layout {α : Type} {a : ChunkedArray α} {l : List α} (h : Reachable a l) :
    INNER_CAPACITY = 8 ∧
    a.size_ = l.length ∧
    a.size_ ≤ a.array_count_ * INNER_CAPACITY ∧
    a.array_count_ * INNER_CAPACITY ≤ a.outer_capacity_ * INNER_CAPACITY ∧
    (∀ i x, l[i]? = some x →
      ∃ blk, a.data_[i / 8]? = some (some blk) ∧ blk[i % 8]? = some x) ∧
    (∀ v, ∃ blk, (a.append v).data_[a.size_ / 8]? = some (some blk) ∧
      blk[a.size_ % 8]? = some v ∧ (a.append v).get a.size_ = .ok v) := by
  have hr := h.rep
  have key : ∀ {b : ChunkedArray α} {m : List α}, Rep b m → ∀ i x, m[i]? = some x →
      ∃ blk, b.data_[i / 8]? = some (some blk) ∧ blk[i % 8]? = some x := by
    intro b m hb i x hx
    have hi : i < b.size_ := by rw [hb.size_eq]; exact getElem?_lt_length hx
    obtain ⟨blk, hblk, _⟩ := hb.blocks _ (div_lt_count hb hi)
    have hload := hb.elems i x hx
    rw [load_of_block hblk] at hload
    refine ⟨blk, hblk, ?_⟩
    simp only [INNER_CAPACITY] at hload
    cases hb2 : blk[i % 8]? with
    | none => rw [hb2] at hload; cases hload
    | some y => rw [hb2] at hload; cases hload; rfl
  refine ⟨rfl, hr.size_eq, hr.size_le, Nat.mul_le_mul_right _ hr.count_le, key hr, ?_⟩
  intro v
  have hr2 := rep_append hr v
  have hlast : (l ++ [v])[a.size_]? = some v := by
    rw [hr.size_eq, List.getElem?_append_right (le_refl _)]
    simp
  obtain ⟨blk, h1, h2⟩ := key hr2 a.size_ v hlast
  refine ⟨blk, h1, h2, ?_⟩
  rw [rep_get hr2, hlast]

/-- Witness of C3: the state after `append(4)`, `set(5, 1)`, `set(6, 0)`. -/
theorem reachable_layout_witness :
    Reachable
      (setInPlace (((ChunkedArray.ctor (fun _ _ => (0 : Int))).append 4).append 5) 6 0) [6, 5] ∧
    (setInPlace (((ChunkedArray.ctor (fun _ _ => (0 : Int))).append 4).append 5) 6 0).size_ ≤
      (setInPlace (((ChunkedArray.ctor (fun _ _ => (0 : Int))).append 4).append 5) 6 0).array_count_
        * INNER_CAPACITY := by
  have h1 : Reachable ((ChunkedArray.ctor (fun _ _ => (0 : Int))).append 4) [4] :=
    Reachable.append 4 (Reachable.ctor _)
  have h2 : Reachable (((ChunkedArray.ctor (fun _ _ => (0 : Int))).append 4).append 5) [4, 5] :=
    Reachable.set 5 1 h1 rfl
  have h3 : Reachable
      (setInPlace (((ChunkedArray.ctor (fun _ _ => (0 : Int))).append 4).append 5) 6 0) [6, 5] :=
    Reachable.set 6 0 h2 rfl
  exact ⟨h3, (reachable_layout h3).2.2.1⟩

/-- C4: in a reachable state, `set(v, size())` produces the state that `append(v)` produces:
the size grows by one, the new last element is `v`, the earlier elements are unchanged. -/
theorem set_at_size_is_append {α : Type} {a : ChunkedArray α} {l : List α}
    (h : Reachable a l) (v : α) :
    a.set v a.size = .ok (a.append v) ∧
    (a.append v).size = a.size + 1 ∧
    (a.append v).get a.size = .ok v ∧
    (∀ i, i < a.size → (a.append v).get i = a.get i) := by
  have hr := h.rep
  have hr2 := rep_append hr v
  refine ⟨?_, ?_, ?_, ?_⟩
  · rw [set_eq]
    simp [ChunkedArray.size]
  · show (a.append v).size_ = a.size_ + 1
    rw [hr2.size_eq, hr.size_eq]
    simp
  · rw [rep_get hr2]
    show (match (l ++ [v])[a.size_]? with
      | some v => Except.ok v
      | none => Except.error Fault.assertion) = _
    rw [hr.size_eq, List.getElem?_append_right (le_refl _)]
    simp
  · intro i hi
    have hl : i < l.length := by rw [← hr.size_eq]; exact hi
    rw [rep_get hr, rep_get hr2, List.getElem?_append_left hl]

/-- Witness of C4: `set(true, 8)` on a `BoolArray` of 8 elements. -/
theorem set_at_size_is_append_witness :
    ((List.replicate 8 false).foldl ChunkedArray.append
        (ChunkedArray.ctor (fun _ _ => false))).set true 8 =
      .ok (((List.replicate 8 false).foldl ChunkedArray.append
        (ChunkedArray.ctor (fun _ _ => false))).append true) := by
  have h := (set_at_size_is_append
    (reachable_of_appends (fun _ _ => false) (List.replicate 8 false)) true).1
  rw [size_eq_length (reachable_of_appends _ _)] at h
  simpa using h

/-- C5: in a reachable state and for `i < size()`, `set(v, i)` succeeds; afterwards `get(i)`
is `v`, `get(j)` is unchanged for every other `j < size()`, and `size()`, `array_count_` and
`outer_capacity_` are unchanged. -/
theorem set_in_range {α : Type} {a : ChunkedArray α} {l : List α}
    (h : Reachable a l) (v : α) (i : Nat) (hi : i < a.size) :
    ∃ a', a.set v i = .ok a' ∧
      a'.get i = .ok v ∧
      (∀ j, j ≠ i → j < a.size → a'.get j = a.get j) ∧
      a'.size = a.size ∧ a'.array_count_ = a.array_count_ ∧
      a'.outer_capacity_ = a.outer_capacity_ := by
  have hr := h.rep
  have hi2 : i < a.size_ := hi
  have hr2 := rep_setInPlace hr v hi2
  have hl : i < l.length := by rw [← hr.size_eq]; exact hi
  refine ⟨setInPlace a v i, ?_, ?_, ?_, rfl, rfl, rfl⟩
  · rw [set_eq, if_neg (by omega), if_neg (by omega)]
  · rw [rep_get hr2, List.getElem?_set_self hl]
  · intro j hj _
    rw [rep_get hr2, rep_get hr, List.getElem?_set_ne (Ne.symm hj)]

/-- Witness of C5: `set(9, 3)` on an `IntArray` of 20 elements. -/
theorem set_in_range_witness :
    ∃ a', ((List.replicate 20 (1 : Int)).foldl ChunkedArray.append
        (ChunkedArray.ctor (fun _ _ => (0 : Int)))).set 9 3 = .ok a' ∧
      a'.get 3 = .ok 9 ∧ a'.size = 20 := by
  obtain ⟨a', h1, h2, _, h4, _⟩ := set_in_range
    (reachable_of_appends (fun _ _ => (0 : Int)) (List.replicate 20 (1 : Int))) 9 3
    (by rw [size_eq_length (reachable_of_appends _ _)]; simp)
  refine ⟨a', h1, h2, ?_⟩
  rw [h4, size_eq_length (reachable_of_appends _ _)]
  simp

/-- C6: in a reachable state, `get(i)` fails, on its assertion, if and only if
`i ≥ size()`, and returns otherwise; `set(v, i)` fails, on its assertion, if and only if
`i > size()`, and returns otherwise; when `set` fails the container is as before the call. -/
theorem get_set_bounds {α : Type} {a : ChunkedArray α} {l : List α}
    (h : Reachable a l) (v : α) (i : Nat) :
    (a.get i = .error .assertion ↔ a.size ≤ i) ∧
    ((∃ x, a.get i = .ok x) ↔ i < a.size) ∧
    (a.set v i = .error (.assertion, a) ↔ a.size < i) ∧
    ((∃ a', a.set v i = .ok a') ↔ i ≤ a.size) ∧
    (∀ f s, a.set v i = .error (f, s) → f = .assertion ∧ s = a) := by
  have hr := h.rep
  have hsz : a.size = l.length := hr.size_eq
  have hget := rep_get hr i
  have hset := set_eq a v i
  refine ⟨?_, ?_, ?_, ?_, ?_⟩
  · rw [hsz]
    by_cases hi : i < l.length
    · rw [List.getElem?_eq_getElem hi] at hget
      rw [hget]
      simp
      omega
    · rw [List.getElem?_eq_none (by omega)] at hget
      rw [hget]
      simp
      omega
  · rw [hsz]
    by_cases hi : i < l.length
    · rw [List.getElem?_eq_getElem hi] at hget
      rw [hget]
      simp [hi]
    · rw [List.getElem?_eq_none (by omega)] at hget
      rw [hget]
      simp [hi]
  · show _ ↔ a.size_ < i
    rw [hset]
    by_cases h1 : a.size_ < i
    · simp [h1]
    · by_cases h2 : i = a.size_
      · simp [h1, h2]
      · simp [h1, h2]
  · show _ ↔ i ≤ a.size_
    rw [hset]
    by_cases h1 : a.size_ < i
    · simp [h1]
    · by_cases h2 : i = a.size_
      · simp [h2]
      · simp [h1, h2]
        omega
  · intro f s hfs
    rw [hset] at hfs
    by_cases h1 : a.size_ < i
    · rw [if_pos h1] at hfs
      cases hfs
      exact ⟨rfl, rfl⟩
    · rw [if_neg h1] at hfs
      by_cases h2 : i = a.size_
      · rw [if_pos h2] at hfs
        cases hfs
      · rw [if_neg h2] at hfs
        cases hfs

/-- Witness of C6: on an `IntArray` of 2 elements `get(2)` fails, `set(7, 2)` returns and
`set(7, 3)` fails. -/
theorem get_set_bounds_witness :
    (((ChunkedArray.ctor (fun _ _ => (0 : Int))).append 4).append 5).get 2
      = .error .assertion ∧
    (∃ a', (((ChunkedArray.ctor (fun _ _ => (0 : Int))).append 4).append 5).set 7 2
      = .ok a') ∧
    (((ChunkedArray.ctor (fun _ _ => (0 : Int))).append 4).append 5).set 7 3
      = .error (.assertion, ((ChunkedArray.ctor (fun _ _ => (0 : Int))).append 4).append 5) := by
  have hre : Reachable (((ChunkedArray.ctor (fun _ _ => (0 : Int))).append 4).append 5)
      ([] ++ [4] ++ [5]) := Reachable.append 5 (Reachable.append 4 (Reachable.ctor _))
  have hs := size_eq_length hre
  exact ⟨(get_set_bounds hre 7 2).1.mpr (by rw [hs]; simp),
    (get_set_bounds hre 7 2).2.2.2.1.mpr (by rw [hs]; simp),
    (get_set_bounds hre 7 3).2.2.1.mpr (by rw [hs]; simp)⟩

/-! ## The scanning loops -/

/-- In iteration `i`, `j` of the nested loops, with `count = i * INNER_CAPACITY + j` below
the size, the slot read is the element of index `count`. -/
theorem load_elem {α : Type} {a : ChunkedArray α} {l : List α} (h : Rep a l) {i j count : Nat}
    (hj : j < INNER_CAPACITY) (hc : count = i * INNER_CAPACITY + j) (hlt : count < l.length) :
    load a.data_ i (j % INNER_CAPACITY) = .ok (l.get ⟨count, hlt⟩) := by
  have h1 := h.elems count _ (List.getElem?_eq_getElem hlt)
  have h2 : count / INNER_CAPACITY = i := by
    simp only [INNER_CAPACITY] at *
    omega
  have h3 : count % INNER_CAPACITY = j % INNER_CAPACITY := by
    simp only [INNER_CAPACITY] at *
    omega
  rw [h2, h3] at h1
  exact h1

theorem equals_inner_self {α : Type} [DecidableEq α] {a : ChunkedArray α} {l : List α}
    (h : Rep a l) (i : Nat) (left : Nat) :
    ∀ j count, j + left = INNER_CAPACITY → count = i * INNER_CAPACITY + j →
      count ≤ a.size_ →
      a.equals_inner a i left j count = .ok (.next (min (count + left) a.size_)) := by
  induction left with
  | zero =>
    intro j count _ _ hle
    simp [ChunkedArray.equals_inner, hle]
  | succ n ih =>
    intro j count hj hc hle
    have hj8 : j < INNER_CAPACITY := by omega
    unfold ChunkedArray.equals_inner
    by_cases hlt : count < a.size_
    · have hl : count < l.length := by rw [← h.size_eq]; exact hlt
      rw [if_pos ⟨hj8, hlt⟩]
      simp only []
      rw [load_elem h hj8 hc hl, rep_get_ok h hl]
      simp only [not_true_eq_false, if_false]
      rw [ih (j + 1) (count + 1) (by omega) (by omega) (by omega)]
      congr 2
      omega
    · rw [if_neg (by tauto)]
      congr 2
      omega

theorem equals_outer_self {α : Type} [DecidableEq α] {a : ChunkedArray α} {l : List α}
    (h : Rep a l) (left : Nat) :
    ∀ i count, i + left = a.array_count_ →
      (count = i * INNER_CAPACITY ∨ count = a.size_) → count ≤ a.size_ →
      a.equals_outer a left i count = .ok true := by
  induction left with
  | zero => intro i count _ _ _; rfl
  | succ n ih =>
    intro i count hi hc hle
    unfold ChunkedArray.equals_outer
    by_cases hlt : count < a.size_
    · have hc2 : count = i * INNER_CAPACITY := by
        rcases hc with hc | hc
        · exact hc
        · omega
      rw [if_pos ⟨by omega, hlt⟩, equals_inner_self h i INNER_CAPACITY 0 count (by simp)
        (by omega) hle]
      simp only []
      apply ih (i + 1) _ (by omega)
      · simp only [INNER_CAPACITY] at *
        omega
      · omega
    · rw [if_neg (by tauto)]

theorem findIdx?_append_start {γ : Type} (p : γ → Bool) (xs ys : List γ) :
    ∀ s : Nat, (xs ++ ys).findIdx? p s =
      (xs.findIdx? p s).or (ys.findIdx? p (s + xs.length)) := by
  induction xs with
  | nil => intro s; simp
  | cons x xs ih =>
    intro s
    simp only [List.cons_append, List.findIdx?_cons, List.length_cons]
    by_cases hp : p x = true
    · simp [hp]
    · rw [if_neg hp, if_neg hp, ih (s + 1)]
      congr 2
      omega

theorem findIdx?_start_ge {γ : Type} (p : γ → Bool) (xs : List γ) :
    ∀ (s m : Nat), xs.findIdx? p s = some m → s ≤ m ∧ m < s + xs.length := by
  induction xs with
  | nil => intro s m h; simp at h
  | cons x xs ih =>
    intro s m h
    simp only [List.findIdx?_cons] at h
    by_cases hp : p x = true
    · rw [if_pos hp] at h
      cases h
      simp
    · rw [if_neg hp] at h
      have := ih (s + 1) m h
      simp only [List.length_cons]
      omega

theorem index_of_inner_eq {β : Type} [DecidableEq β] (equals : β → Option β → Bool)
    {a : Array β} {l : List (Option β)} (h : Rep a l) (obj : Option β) (i : Nat)
    (left : Nat) :
    ∀ j count, j + left = INNER_CAPACITY → count = i * INNER_CAPACITY + j →
      Array.index_of_inner equals a obj i left j count =
        .ok (match ((l.drop count).take left).findIdx? (Array.matcher equals obj) count with
          | some m => .ret m
          | none => .next (count + ((l.drop count).take left).length)) := by
  induction left with
  | zero => intro j count _ _; simp [Array.index_of_inner]
  | succ n ih =>
    intro j count hj hc
    have hj8 : j < INNER_CAPACITY := by omega
    unfold Array.index_of_inner
    by_cases hlt : count < a.size_
    · have hl : count < l.length := by rw [← h.size_eq]; exact hlt
      rw [if_pos ⟨hj8, hlt⟩]
      simp only []
      rw [load_elem h hj8 hc hl]
      simp only []
      have hd : l.drop count = l.get ⟨count, hl⟩ :: l.drop (count + 1) := by
        rw [List.get_eq_getElem]
        exact List.drop_eq_getElem_cons hl
      rw [hd, List.take_succ_cons, List.findIdx?_cons]
      by_cases hp : Array.slot_matches equals (l.get ⟨count, hl⟩) obj = true
      · have hp2 : Array.matcher equals obj (l.get ⟨count, hl⟩) = true := hp
        rw [if_pos hp, if_pos hp2]
      · have hp2 : ¬ Array.matcher equals obj (l.get ⟨count, hl⟩) = true := hp
        rw [if_neg hp, if_neg hp2, ih (j + 1) (count + 1) (by omega) (by omega)]
        simp only [List.length_cons]
        cases List.findIdx? (Array.matcher equals obj)
            (List.take n (List.drop (count + 1) l)) (count + 1) with
        | none =>
          simp only []
          congr 2
          omega
        | some m => rfl
    · rw [if_neg (by tauto)]
      have hl : l.length ≤ count := by rw [← h.size_eq]; omega
      rw [List.drop_of_length_le hl]
      simp

theorem index_of_outer_eq {β : Type} [DecidableEq β] (equals : β → Option β → Bool)
    {a : Array β} {l : List (Option β)} (h : Rep a l) (obj : Option β) (left : Nat) :
    ∀ i count, i + left = a.array_count_ →
      (count = i * INNER_CAPACITY ∨ l.length ≤ count) →
      Array.index_of_outer equals a obj left i count =
        .ok (match (l.drop count).findIdx? (Array.matcher equals obj) count with
          | some m => m
          | none => SIZE_MAX) := by
  induction left with
  | zero =>
    intro i count hi hc
    have hl : l.length ≤ count := by
      have h1 := h.size_le
      have h2 := h.size_eq
      rcases hc with hc | hc
      · simp only [INNER_CAPACITY] at *
        omega
      · exact hc
    rw [List.drop_of_length_le hl]
    rfl
  | succ n ih =>
    intro i count hi hc
    unfold Array.index_of_outer
    by_cases hlt : count < a.size_
    · have hl : count < l.length := by rw [← h.size_eq]; exact hlt
      have hc2 : count = i * INNER_CAPACITY := by
        rcases hc with hc | hc
        · exact hc
        · omega
      rw [if_pos ⟨by omega, hlt⟩,
        index_of_inner_eq equals h obj i INNER_CAPACITY 0 count (by simp) (by omega)]
      have hsplit : l.drop count =
          (l.drop count).take INNER_CAPACITY ++ l.drop (count + INNER_CAPACITY) := by
        rw [← List.drop_drop, List.take_append_drop]
      generalize hseg : (l.drop count).take INNER_CAPACITY = seg at hsplit
      have hseglen : seg.length = min INNER_CAPACITY (l.length - count) := by
        rw [← hseg]; simp
      rw [hsplit, findIdx?_append_start]
      cases hf : seg.findIdx? (Array.matcher equals obj) count with
      | some m => simp
      | none =>
        simp only [Option.none_or]
        have hnext : count + seg.length = (i + 1) * INNER_CAPACITY ∨
            l.length ≤ count + seg.length := by
          simp only [INNER_CAPACITY] at *
          omega
        rw [ih (i + 1) (count + seg.length) (by omega) hnext]
        have hdrop : l.drop (count + seg.length) = l.drop (count + INNER_CAPACITY) := by
          by_cases h8 : seg.length = INNER_CAPACITY
          · rw [h8]
          · rw [List.drop_of_length_le (by omega), List.drop_of_length_le (by omega)]
        rw [hdrop]
    · rw [if_neg (by tauto)]
      have hl : l.length ≤ count := by rw [← h.size_eq]; omega
      rw [List.drop_of_length_le hl]
      rfl

/-- What `Array::index_of` computes in a state that holds `l`. -/
theorem index_of_eq {β : Type} [DecidableEq β] (equals : β → Option β → Bool)
    {a : Array β} {l : List (Option β)} (h : Rep a l) (obj : Option β) :
    Array.index_of equals a obj =
      .ok (match l.findIdx? (Array.matcher equals obj) with
        | some m => m
        | none => SIZE_MAX) := by
  unfold Array.index_of
  rw [index_of_outer_eq equals h obj a.array_count_ 0 0 (by simp) (by simp)]
  simp

/-- The inner loop of `Array::contains` runs as the one of `Array::index_of` and returns
`true` where that one returns an index. -/
theorem contains_inner_eq {β : Type} [DecidableEq β] (equals : β → Option β → Bool)
    (a : Array β) (obj : Option β) (i : Nat) (left : Nat) :
    ∀ j count, Array.contains_inner equals a obj i left j count =
      match Array.index_of_inner equals a obj i left j count with
      | .error e => .error e
      | .ok (.ret _) => .ok (.ret true)
      | .ok (.next c) => .ok (.next c) := by
  induction left with
  | zero => intro j count; rfl
  | succ n ih =>
    intro j count
    unfold Array.contains_inner Array.index_of_inner
    by_cases hg : j < INNER_CAPACITY ∧ count < a.size_
    · rw [if_pos hg, if_pos hg]
      simp only []
      cases load a.data_ i (j % INNER_CAPACITY) with
      | error e => rfl
      | ok x =>
        simp only []
        by_cases hp : Array.slot_matches equals x obj = true
        · rw [if_pos hp, if_pos hp]
        · rw [if_neg hp, if_neg hp]
          exact ih (j + 1) (count + 1)
    · rw [if_neg hg, if_neg hg]

theorem contains_outer_eq {β : Type} [DecidableEq β] (equals : β → Option β → Bool)
    {a : Array β} {l : List (Option β)} (h : Rep a l) (obj : Option β) (left : Nat) :
    ∀ i count, i + left = a.array_count_ →
      (count = i * INNER_CAPACITY ∨ l.length ≤ count) →
      Array.contains_outer equals a obj left i count =
        .ok ((l.drop count).findIdx? (Array.matcher equals obj) count).isSome := by
  induction left with
  | zero =>
    intro i count hi hc
    have hl : l.length ≤ count := by
      have h1 := h.size_le
      have h2 := h.size_eq
      rcases hc with hc | hc
      · simp only [INNER_CAPACITY] at *
        omega
      · exact hc
    rw [List.drop_of_length_le hl]
    rfl
  | succ n ih =>
    intro i count hi hc
    unfold Array.contains_outer
    by_cases hlt : count < a.size_
    · have hl : count < l.length := by rw [← h.size_eq]; exact hlt
      have hc2 : count = i * INNER_CAPACITY := by
        rcases hc with hc | hc
        · exact hc
        · omega
      rw [if_pos ⟨by omega, hlt⟩, contains_inner_eq,
        index_of_inner_eq equals h obj i INNER_CAPACITY 0 count (by simp) (by omega)]
      have hsplit : l.drop count =
          (l.drop count).take INNER_CAPACITY ++ l.drop (count + INNER_CAPACITY) := by
        rw [← List.drop_drop, List.take_append_drop]
      generalize hseg : (l.drop count).take INNER_CAPACITY = seg at hsplit
      have hseglen : seg.length = min INNER_CAPACITY (l.length - count) := by
        rw [← hseg]; simp
      rw [hsplit, findIdx?_append_start]
      cases hf : seg.findIdx? (Array.matcher equals obj) count with
      | some m => simp
      | none =>
        simp only [Option.none_or]
        have hnext : count + seg.length = (i + 1) * INNER_CAPACITY ∨
            l.length ≤ count + seg.length := by
          simp only [INNER_CAPACITY] at *
          omega
        rw [ih (i + 1) (count + seg.length) (by omega) hnext]
        have hdrop : l.drop (count + seg.length) = l.drop (count + INNER_CAPACITY) := by
          by_cases h8 : seg.length = INNER_CAPACITY
          · rw [h8]
          · rw [List.drop_of_length_le (by omega), List.drop_of_length_le (by omega)]
        rw [hdrop]
    · rw [if_neg (by tauto)]
      have hl : l.length ≤ count := by rw [← h.size_eq]; omega
      rw [List.drop_of_length_le hl]
      rfl

/-- What `Array::contains` computes in a state that holds `l`. -/
theorem contains_eq {β : Type} [DecidableEq β] (equals : β → Option β → Bool)
    {a : Array β} {l : List (Option β)} (h : Rep a l) (obj : Option β) :
    Array.contains equals a obj = .ok (l.findIdx? (Array.matcher equals obj)).isSome := by
  unfold Array.contains
  rw [contains_outer_eq equals h obj a.array_count_ 0 0 (by simp) (by simp)]
  simp

/-! ## Claims on `equals`, `index_of`, `contains` -/

/-- C7: evaluation of `IntArray::equals` on arrays of different lengths.  With `a = [1]` and
`b = [1, 2]`, `a.equals(b)` returns `true` although the sizes differ, and `b.equals(a)`
fails the assertion of `a.get(1)` instead of returning `false`. -/
theorem IntArray_equals_length_mismatch :
    ((ChunkedArray.ctor (fun _ _ => (0 : Int))).append 1).equals
      (((ChunkedArray.ctor (fun _ _ => (0 : Int))).append 1).append 2) = .ok true ∧
    ((ChunkedArray.ctor (fun _ _ => (0 : Int))).append 1).size ≠
      (((ChunkedArray.ctor (fun _ _ => (0 : Int))).append 1).append 2).size ∧
    (((ChunkedArray.ctor (fun _ _ => (0 : Int))).append 1).append 2).equals
      ((ChunkedArray.ctor (fun _ _ => (0 : Int))).append 1) = .error .assertion :=
  ⟨rfl, by decide, rfl⟩

/-- C8: for every reachable `IntArray` or `BoolArray` `a`, empty or not, `a.equals(a)`
returns `true`. -/
theorem prim_equals_reflexive {α : Type} [DecidableEq α] {a : ChunkedArray α} {l : List α}
    (h : Reachable a l) : a.equals a = .ok true := by
  have hr := h.rep
  unfold ChunkedArray.equals
  by_cases h0 : a.size_ = 0
  · rw [if_pos h0]
    simp [ChunkedArray.size, h0]
  · rw [if_neg h0]
    exact equals_outer_self hr a.array_count_ 0 0 (by simp) (by simp) (by omega)

/-- Witness of C8: a `BoolArray` of 20 elements, in three inner blocks. -/
theorem prim_equals_reflexive_witness :
    ((List.replicate 20 true).foldl ChunkedArray.append
      (ChunkedArray.ctor (fun _ _ => false))).equals
      ((List.replicate 20 true).foldl ChunkedArray.append
        (ChunkedArray.ctor (fun _ _ => false))) = .ok true :=
  prim_equals_reflexive (reachable_of_appends (fun _ _ => false) (List.replicate 20 true))

/-- C9: evaluation of `Array::equals` on an array that holds one non-null object, with an
`Object::equals` that is reflexive: `a.equals(a)` returns `false`; on an array that holds one
null pointer the call goes through the null pointer. -/
theorem Array_equals_self_fails :
    Array.equals (fun (p : Nat) (q : Option Nat) => decide (q = some p))
      ((ChunkedArray.ctor (fun _ _ => (none : Option Nat))).append (some 7))
      ((ChunkedArray.ctor (fun _ _ => (none : Option Nat))).append (some 7)) = .ok false ∧
    Array.equals (fun (p : Nat) (q : Option Nat) => decide (q = some p))
      ((ChunkedArray.ctor (fun _ _ => (none : Option Nat))).append none)
      ((ChunkedArray.ctor (fun _ _ => (none : Option Nat))).append none)
        = .error .undefined :=
  ⟨rfl, rfl⟩

/-- C10: for a reachable `Array` (whose `size_` is an `int`), `index_of(obj)` returns the
least index whose element matches `obj`, and `(size_t)-1` when no element matches;
`contains(obj)` is `true` exactly when `index_of(obj)` is not `(size_t)-1`.  An element
matches by `element->equals(obj)` when both pointers are non-null, and by pointer equality
when one is null. -/
theorem Array_index_of_contains {β : Type} [DecidableEq β] (equals : β → Option β → Bool)
    {a : Array β} {l : List (Option β)} (h : Reachable a l) (hmax : a.size ≤ INT_MAX)
    (obj : Option β) :
    (∀ p o, Array.slot_matches equals (some p) (some o) = equals p (some o)) ∧
    (∀ x, Array.slot_matches equals x none = decide (x = none)) ∧
    (∀ o, Array.slot_matches equals none (some o) = false) ∧
    ∃ r c, Array.index_of equals a obj = .ok r ∧ Array.contains equals a obj = .ok c ∧
      (c = true ↔ r ≠ SIZE_MAX) ∧
      (r ≠ SIZE_MAX → r < a.size ∧
        (∃ x, a.get r = .ok x ∧ Array.slot_matches equals x obj = true) ∧
        ∀ j, j < r → ∃ x, a.get j = .ok x ∧ Array.slot_matches equals x obj = false) ∧
      (r = SIZE_MAX →
        ∀ j, j < a.size → ∃ x, a.get j = .ok x ∧ Array.slot_matches equals x obj = false) := by
  have hr := h.rep
  have hsz : a.size = l.length := hr.size_eq
  refine ⟨?_, ?_, ?_, ?_⟩
  · intro p o; simp [Array.slot_matches]
  · intro x; simp [Array.slot_matches]
  · intro o; simp [Array.slot_matches]
  rw [index_of_eq equals hr obj, contains_eq equals hr obj]
  cases hf : l.findIdx? (Array.matcher equals obj) with
  | some m =>
    obtain ⟨hm, hpm, hbefore⟩ := List.findIdx?_eq_some_iff_getElem.mp hf
    have hne : m ≠ SIZE_MAX := by
      simp only [SIZE_MAX, INT_MAX] at *
      omega
    refine ⟨m, true, rfl, rfl, by simp [hne], ?_, fun he => absurd he hne⟩
    intro _
    refine ⟨by rw [hsz]; exact hm, ⟨l.get ⟨m, hm⟩, rep_get_ok hr hm, hpm⟩, ?_⟩
    intro j hj
    have hjl : j < l.length := by omega
    refine ⟨l.get ⟨j, hjl⟩, rep_get_ok hr hjl, ?_⟩
    have := hbefore j hj
    simpa [Array.matcher] using this
  | none =>
    have hall := List.findIdx?_eq_none_iff.mp hf
    refine ⟨SIZE_MAX, false, rfl, rfl, by simp, fun hne => absurd rfl hne, ?_⟩
    intro _ j hj
    have hjl : j < l.length := by omega
    refine ⟨l.get ⟨j, hjl⟩, rep_get_ok hr hjl, ?_⟩
    exact hall _ (List.get_mem l j hjl)

/-- Witness of C10: an `Array` of 20 null pointers, searched for a null pointer. -/
theorem Array_index_of_contains_witness :
    ∃ r c, Array.index_of (fun (p : Nat) (q : Option Nat) => decide (q = some p))
        ((List.replicate 20 none).foldl ChunkedArray.append
          (ChunkedArray.ctor (fun _ _ => (none : Option Nat)))) none = .ok r ∧
      Array.contains (fun (p : Nat) (q : Option Nat) => decide (q = some p))
        ((List.replicate 20 none).foldl ChunkedArray.append
          (ChunkedArray.ctor (fun _ _ => (none : Option Nat)))) none = .ok c ∧
      (c = true ↔ r ≠ SIZE_MAX) := by
  obtain ⟨_, _, _, r, c, h1, h2, h3, _⟩ := Array_index_of_contains
    (fun (p : Nat) (q : Option Nat) => decide (q = some p))
    (reachable_of_appends (fun _ _ => (none : Option Nat)) (List.replicate 20 none))
    (by rw [size_eq_length (reachable_of_appends _ _)]; simp [INT_MAX]) none
  exact ⟨r, c, h1, h2, h3⟩

/-! ## Claims on the primitive `index_of`, `contains` and on `append_all` -/

/-- C11: evaluation of `IntArray::index_of` after `append(5)`, `append(7)`: `index_of(7)`
returns 0, the number of inner blocks passed, while 7 is the element of index 1. -/
theorem IntArray_index_of_counts_blocks :
    (((ChunkedArray.ctor (fun _ _ => (0 : Int))).append 5).append 7).index_of 7 = .ok 0 ∧
    (((ChunkedArray.ctor (fun _ _ => (0 : Int))).append 5).append 7).get 1 = .ok 7 ∧
    (((ChunkedArray.ctor (fun _ _ => (0 : Int))).append 5).append 7).get 0 = .ok 5 :=
  ⟨rfl, rfl, rfl⟩

/-- C12: evaluation of `IntArray::contains` after `append(1)` when the never-written slots
of the inner block hold 9: `contains(9)` returns `true` while the only element is 1. -/
theorem IntArray_contains_reads_unwritten :
    ((ChunkedArray.ctor (fun _ _ => (9 : Int))).append 1).contains 9 = .ok true ∧
    ((ChunkedArray.ctor (fun _ _ => (9 : Int))).append 1).size = 1 ∧
    ((ChunkedArray.ctor (fun _ _ => (9 : Int))).append 1).get 0 = .ok 1 ∧
    ((ChunkedArray.ctor (fun _ _ => (0 : Int))).append 1).contains 9 = .ok false :=
  ⟨rfl, rfl, rfl, rfl⟩

/-- The run of `append_all` from a reachable source on a reachable target. -/
theorem append_all_rep {α : Type} {a b : ChunkedArray α} {la lb : List α}
    (ha : Rep a la) (hb : Rep b lb) :
    ∃ a', a.append_all (some b) = .ok a' ∧ Rep a' (la ++ lb) := by
  obtain ⟨a', h1, h2⟩ := rep_append_all_loop hb lb.length 0 a la ha (by simp)
  have hsz : b.size = lb.length := hb.size_eq
  refine ⟨a', ?_, by simpa using h2⟩
  simp only [ChunkedArray.append_all, hsz, h1]

/-- The run of `Array::append_all` from a reachable source on a reachable target. -/
theorem append_all_obj_rep {β : Type} (clone : β → β) {a b : Array β}
    {la lb : List (Option β)} (ha : Rep a la) (hb : Rep b lb) :
    ∃ a', Array.append_all clone a (some b) = .ok a' ∧
      Rep a' (la ++ lb.map (Option.map clone)) := by
  obtain ⟨a', h1, h2⟩ := rep_append_all_obj_loop clone hb lb.length 0 a la ha (by simp)
  have hsz : b.size = lb.length := hb.size_eq
  refine ⟨a', ?_, by simpa using h2⟩
  simp only [Array.append_all, hsz, h1]

/-- Reading a state that holds `la ++ lb`, below and above the length of `la`. -/
theorem rep_get_append {α : Type} {a' : ChunkedArray α} {la lb : List α}
    (h : Rep a' (la ++ lb)) :
    (∀ i, i < la.length → a'.get i = match la[i]? with
      | some v => .ok v
      | none => .error .assertion) ∧
    (∀ i, a'.get (la.length + i) = match lb[i]? with
      | some v => .ok v
      | none => .error .assertion) := by
  constructor
  · intro i hi
    rw [rep_get h, List.getElem?_append_left hi]
  · intro i
    rw [rep_get h, List.getElem?_append_right (by omega)]
    simp

/-- C13: for reachable containers `a` and `b` of the same class, `a.append_all(b)` returns;
afterwards the size of `a` is the sum of the two sizes, `a.get(i)` is as before for `i`
below the old size, and `a.get(old size + i)` is `b.get(i)` for `i < b.size()`, for the
object `Array` the clone of `b.get(i)`, or null where `b.get(i)` is null.  The call reads
`b` through `size` and `get` only. -/
theorem append_all_appends {α β : Type} {a b : ChunkedArray α} {la lb : List α}
    (ha : Reachable a la) (hb : Reachable b lb)
    {oa ob : Array β} {loa lob : List (Option β)}
    (hoa : Reachable oa loa) (hob : Reachable ob lob) (clone : β → β) :
    (∃ a', a.append_all (some b) = .ok a' ∧ a'.size = a.size + b.size ∧
      (∀ i, i < a.size → a'.get i = a.get i) ∧
      (∀ i, i < b.size → a'.get (a.size + i) = b.get i)) ∧
    (∃ oa', Array.append_all clone oa (some ob) = .ok oa' ∧ oa'.size = oa.size + ob.size ∧
      (∀ i, i < oa.size → oa'.get i = oa.get i) ∧
      (∀ i, i < ob.size → ∃ x, ob.get i = .ok x ∧
        oa'.get (oa.size + i) = .ok (x.map clone))) := by
  constructor
  · have hra := ha.rep
    have hrb := hb.rep
    obtain ⟨a', h1, h2⟩ := append_all_rep hra hrb
    have hsa : a.size = la.length := hra.size_eq
    have hsb : b.size = lb.length := hrb.size_eq
    refine ⟨a', h1, ?_, ?_, ?_⟩
    · show a'.size_ = _
      rw [h2.size_eq, hsa, hsb]
      simp
    · intro i hi
      rw [(rep_get_append h2).1 i (by omega), rep_get hra]
    · intro i _
      rw [hsa, (rep_get_append h2).2 i, rep_get hrb]
  · have hra := hoa.rep
    have hrb := hob.rep
    obtain ⟨a', h1, h2⟩ := append_all_obj_rep clone hra hrb
    have hsa : oa.size = loa.length := hra.size_eq
    have hsb : ob.size = lob.length := hrb.size_eq
    refine ⟨a', h1, ?_, ?_, ?_⟩
    · show a'.size_ = _
      rw [h2.size_eq, hsa, hsb]
      simp
    · intro i hi
      rw [(rep_get_append h2).1 i (by omega), rep_get hra]
    · intro i hi
      have hil : i < lob.length := by omega
      refine ⟨lob.get ⟨i, hil⟩, rep_get_ok hrb hil, ?_⟩
      rw [hsa, (rep_get_append h2).2 i]
      simp [List.getElem?_eq_getElem hil]

/-- Witness of C13: an `IntArray` of 3 elements receives one of 10 elements, and an `Array`
of one object receives one that holds an object and a null pointer. -/
theorem append_all_appends_witness :
    (∃ a', ((List.replicate 3 (1 : Int)).foldl ChunkedArray.append
        (ChunkedArray.ctor (fun _ _ => (0 : Int)))).append_all
        (some ((List.replicate 10 (2 : Int)).foldl ChunkedArray.append
          (ChunkedArray.ctor (fun _ _ => (0 : Int))))) = .ok a' ∧ a'.size = 13) ∧
    (∃ oa', Array.append_all (fun n : Nat => n + 100)
        (([some 1] : List (Option Nat)).foldl ChunkedArray.append
          (ChunkedArray.ctor (fun _ _ => none)))
        (some (([some 2, none] : List (Option Nat)).foldl ChunkedArray.append
          (ChunkedArray.ctor (fun _ _ => none)))) = .ok oa' ∧ oa'.size = 3) := by
  have h := append_all_appends
    (reachable_of_appends (fun _ _ => (0 : Int)) (List.replicate 3 (1 : Int)))
    (reachable_of_appends (fun _ _ => (0 : Int)) (List.replicate 10 (2 : Int)))
    (reachable_of_appends (fun _ _ => (none : Option Nat)) [some 1])
    (reachable_of_appends (fun _ _ => (none : Option Nat)) [some 2, none])
    (fun n : Nat => n + 100)
  obtain ⟨⟨a', h1, h2, _⟩, ⟨oa', h3, h4, _⟩⟩ := h
  refine ⟨⟨a', h1, ?_⟩, ⟨oa', h3, ?_⟩⟩
  · rw [h2, size_eq_length (reachable_of_appends _ _),
      size_eq_length (reachable_of_appends _ _)]
    simp
  · rw [h4, size_eq_length (reachable_of_appends _ _),
      size_eq_length (reachable_of_appends _ _)]
    simp

/-- C14: `append_all` with a null source returns, without a fault, the state it was called
in, for the primitive classes and for `Array`: size and elements are as before. -/
theorem append_all_null {α β : Type} (a : ChunkedArray α) (oa : Array β) (clone : β → β) :
    a.append_all none = .ok a ∧ Array.append_all clone oa none = .ok oa :=
  ⟨rfl, rfl⟩

/-! ## `equals` on arrays that hold a sequence and an extension of it -/

theorem equals_inner_prefix {α : Type} [DecidableEq α] {a b : ChunkedArray α}
    {la lb : List α} (ha : Rep a la) (hb : Rep b lb) (hp : la <+: lb) (i : Nat) (left : Nat) :
    ∀ j count, j + left = INNER_CAPACITY → count = i * INNER_CAPACITY + j →
      count ≤ a.size_ →
      a.equals_inner b i left j count = .ok (.next (min (count + left) a.size_)) := by
  induction left with
  | zero =>
    intro j count _ _ hle
    simp [ChunkedArray.equals_inner, hle]
  | succ n ih =>
    intro j count hj hc hle
    have hj8 : j < INNER_CAPACITY := by omega
    unfold ChunkedArray.equals_inner
    by_cases hlt : count < a.size_
    · have hl : count < la.length := by rw [← ha.size_eq]; exact hlt
      obtain ⟨t, ht⟩ := hp
      have hbget : b.get count = .ok (la.get ⟨count, hl⟩) := by
        rw [rep_get hb, ← ht, List.getElem?_append_left hl, List.getElem?_eq_getElem hl]
        rfl
      rw [if_pos ⟨hj8, hlt⟩]
      simp only []
      rw [load_elem ha hj8 hc hl, hbget]
      simp only [not_true_eq_false, if_false]
      rw [ih (j + 1) (count + 1) (by omega) (by omega) (by omega)]
      congr 2
      omega
    · rw [if_neg (by tauto)]
      congr 2
      omega

theorem equals_outer_prefix {α : Type} [DecidableEq α] {a b : ChunkedArray α}
    {la lb : List α} (ha : Rep a la) (hb : Rep b lb) (hp : la <+: lb) (left : Nat) :
    ∀ i count, i + left = a.array_count_ →
      (count = i * INNER_CAPACITY ∨ count = a.size_) → count ≤ a.size_ →
      a.equals_outer b left i count = .ok true := by
  induction left with
  | zero => intro i count _ _ _; rfl
  | succ n ih =>
    intro i count hi hc hle
    unfold ChunkedArray.equals_outer
    by_cases hlt : count < a.size_
    · have hc2 : count = i * INNER_CAPACITY := by
        rcases hc with hc | hc
        · exact hc
        · omega
      rw [if_pos ⟨by omega, hlt⟩, equals_inner_prefix ha hb hp i INNER_CAPACITY 0 count
        (by simp) (by omega) hle]
      simp only []
      apply ih (i + 1) _ (by omega)
      · simp only [INNER_CAPACITY] at *
        omega
      · omega
    · rw [if_neg (by tauto)]

/-- The method `equals` of `IntArray`, `BoolArray` returns `true` when the argument holds
the elements of the receiver, followed by any others if the receiver is not empty. -/
theorem equals_of_prefix {α : Type} [DecidableEq α] {a b : ChunkedArray α}
    {la lb : List α} (ha : Rep a la) (hb : Rep b lb) (hp : la <+: lb)
    (hempty : la = [] → lb = []) : a.equals b = .ok true := by
  unfold ChunkedArray.equals
  by_cases h0 : a.size_ = 0
  · rw [if_pos h0]
    have hla : la = [] := by
      apply List.eq_nil_of_length_eq_zero
      rw [← ha.size_eq]; exact h0
    have hlb := hempty hla
    have : b.size = 0 := by
      show b.size_ = 0
      rw [hb.size_eq, hlb]; rfl
    simp [this]
  · rw [if_neg h0]
    exact equals_outer_prefix ha hb hp a.array_count_ 0 0 (by simp) (by simp) (by omega)

/-- The method `equals` of `IntArray`, `BoolArray` on two arrays that hold the same
sequence. -/
theorem equals_of_same {α : Type} [DecidableEq α] {a b : ChunkedArray α} {l : List α}
    (ha : Rep a l) (hb : Rep b l) : a.equals b = .ok true :=
  equals_of_prefix ha hb (List.prefix_refl l) (fun h => h)

/-! ## Columns -/

theorem Column.holds_size {c : Column} {l : List Value} (h : c.Holds l) :
    c.size = l.length := by
  cases c <;> obtain ⟨li, hr, hl⟩ := h <;> subst hl <;>
    simp [Column.size, ChunkedArray.size, hr.size_eq]

theorem Column.holds_get {c : Column} {l : List Value} (h : c.Holds l) (i : Nat) :
    c.get i = match l[i]? with
      | some v => .ok v
      | none => .error .assertion := by
  cases c <;> obtain ⟨li, hr, hl⟩ := h <;> subst hl <;>
    simp only [Column.get, rep_get hr, List.getElem?_map] <;>
    cases li[i]? <;> rfl

theorem Column.holds_tag {c : Column} {l : List Value} (h : c.Holds l) :
    ∀ v, v ∈ l → v.tag = c.get_type := by
  intro v hv
  cases c <;> obtain ⟨li, hr, hl⟩ := h <;> subst hl <;>
    simp only [List.mem_map] at hv <;> obtain ⟨x, _, hx⟩ := hv <;> subst hx <;> rfl

theorem Column.get_type_isTag (c : Column) : IsTag c.get_type := by
  cases c <;> simp [Column.get_type, IsTag]

theorem Column.push_back_holds {c : Column} {l : List Value} (h : c.Holds l) (v : Value)
    (hv : v.tag = c.get_type) :
    ∃ c', c.push_back v = .ok c' ∧ c'.Holds (l ++ [v]) ∧ c'.get_type = c.get_type := by
  cases c <;> cases v <;>
    first
    | (obtain ⟨li, hr, hl⟩ := h
       subst hl
       exact ⟨_, rfl, ⟨_, rep_append hr _, by simp⟩, rfl⟩)
    | (exfalso; revert hv; simp [Value.tag, Column.get_type, TAG_I, TAG_B, TAG_F, TAG_S])

/-- A `push_back` that returns has appended its argument, which has the type of the
column. -/
theorem Column.push_back_ok {c c' : Column} {l : List Value} (h : c.Holds l) (v : Value)
    (hok : c.push_back v = .ok c') :
    v.tag = c.get_type ∧ c'.Holds (l ++ [v]) ∧ c'.get_type = c.get_type := by
  have hv : v.tag = c.get_type := by
    cases c <;> cases v <;> first | rfl | (simp [Column.push_back] at hok)
  obtain ⟨c2, h1, h2, h3⟩ := Column.push_back_holds h v hv
  rw [h1] at hok
  cases hok
  exact ⟨hv, h2, h3⟩

theorem Column.append_missing_holds {c : Column} {l : List Value} (h : c.Holds l) :
    c.append_missing.Holds (l ++ [Value.missing c.get_type]) ∧
    c.append_missing.get_type = c.get_type := by
  cases c <;> obtain ⟨li, hr, hl⟩ := h <;> subst hl <;>
    exact ⟨⟨_, rep_append hr _, by simp [Value.missing, Column.get_type, TAG_I, TAG_B, TAG_F,
      TAG_S]⟩, rfl⟩

theorem Column.ctor_holds (g : Garbage) (t : Int) :
    (Column.ctor g t).Holds [] ∧ (IsTag t → (Column.ctor g t).get_type = t) := by
  unfold Column.ctor
  constructor
  · split
    · exact ⟨[], rep_ctor _, rfl⟩
    · split
      · exact ⟨[], rep_ctor _, rfl⟩
      · split
        · exact ⟨[], rep_ctor _, rfl⟩
        · exact ⟨[], rep_ctor _, rfl⟩
  · intro ht
    rcases ht with h | h | h | h <;> subst h <;> rfl

theorem nested_tag_if {γ : Type} {t : Int} (ht : IsTag t) (x e : γ) :
    (if t = TAG_I then x else if t = TAG_B then x else if t = TAG_F then x
      else if t = TAG_S then x else e) = x := by
  rcases ht with h | h | h | h <;> subst h <;> simp [TAG_I, TAG_B, TAG_F, TAG_S]

/-- The loop of `pad_column` ends by its guard, after appending the missing value until the
column has `n` values. -/
theorem pad_column_loop_holds (n : Nat) (left : Nat) :
    ∀ (c : Column) (l : List Value), c.Holds l → left = n - l.length →
      ∃ c', DataFrame.pad_column_loop n c.get_type left c = .ok c' ∧
        c'.Holds (l ++ List.replicate (n - l.length) (Value.missing c.get_type)) ∧
        c'.get_type = c.get_type := by
  induction left with
  | zero =>
    intro c l h hl
    refine ⟨c, rfl, ?_, rfl⟩
    rw [← hl]
    simpa using h
  | succ k ih =>
    intro c l h hl
    have hsz : c.size < n := by rw [Column.holds_size h]; omega
    obtain ⟨h1, h2⟩ := Column.append_missing_holds h
    obtain ⟨c', hc1, hc2, hc3⟩ := ih c.append_missing _ h1 (by simp; omega)
    refine ⟨c', ?_, ?_, by rw [hc3, h2]⟩
    · unfold DataFrame.pad_column_loop
      rw [if_pos hsz, nested_tag_if (Column.get_type_isTag c)]
      rw [h2] at hc1
      exact hc1
    · rw [h2] at hc2
      have : n - l.length = (n - (l ++ [Value.missing c.get_type]).length) + 1 := by
        simp; omega
      rw [this, List.replicate_succ]
      simpa using hc2

theorem pad_column_holds (df : DataFrame) {c : Column} {l : List Value} (h : c.Holds l) :
    ∃ c', df.pad_column c = .ok c' ∧
      c'.Holds (l ++ List.replicate (df.length_ - l.length) (Value.missing c.get_type)) ∧
      c'.get_type = c.get_type := by
  unfold DataFrame.pad_column
  simp only []
  exact pad_column_loop_holds df.length_ _ c l h (by rw [Column.holds_size h])

/-! ## The loops over the columns of a table -/

theorem add_row_loop_eq (row : Row) (left : Nat) :
    ∀ (j : Nat) (df : DataFrame), DataFrame.add_row_loop row left j df =
      DataFrame.for_columns
        (fun j col => DataFrame.add_row_switch row j col col.get_type) left j df := by
  induction left with
  | zero => intro j df; rfl
  | succ n ih =>
    intro j df
    unfold DataFrame.add_row_loop DataFrame.for_columns
    simp only [DataFrame.ncols, ChunkedArray.size]
    split
    · cases df.columns_.get j with
      | error e => rfl
      | ok oc =>
        cases oc with
        | none => rfl
        | some col =>
          simp only []
          cases DataFrame.add_row_switch row j col col.get_type with
          | error e => rfl
          | ok c => exact ih (j + 1) _
    · rfl

theorem add_column_loop_eq (n : Nat) (left : Nat) :
    ∀ (i : Nat) (df : DataFrame), df.length_ = n → DataFrame.add_column_loop left i df =
      DataFrame.for_columns
        (fun _ col => DataFrame.pad_column_loop n col.get_type (n - col.size) col)
        left i df := by
  induction left with
  | zero => intro i df _; rfl
  | succ k ih =>
    intro i df hn
    unfold DataFrame.add_column_loop DataFrame.for_columns
    simp only [ChunkedArray.size]
    split
    · cases df.columns_.get i with
      | error e => rfl
      | ok oc =>
        cases oc with
        | none => rfl
        | some col =>
          simp only [DataFrame.pad_column, hn]
          cases DataFrame.pad_column_loop n col.get_type (n - col.size) col with
          | error e => rfl
          | ok c => exact ih (i + 1) _ hn
    · rfl

theorem columns_get {columns : Array Column} {cols : List Column}
    (h : Rep columns (cols.map some)) {j : Nat} (hj : j < cols.length) :
    columns.get j = .ok (some (cols.get ⟨j, hj⟩)) := by
  rw [rep_get h, List.getElem?_map, List.getElem?_eq_getElem hj]
  rfl

theorem columns_size {columns : Array Column} {cols : List Column}
    (h : Rep columns (cols.map some)) : columns.size_ = cols.length := by
  rw [h.size_eq]; simp

theorem columns_put {columns : Array Column} {cols : List Column}
    (h : Rep columns (cols.map some)) {j : Nat} (hj : j < cols.length) (c : Column) :
    Rep (setInPlace columns (some c) j) ((cols.set j c).map some) := by
  have := rep_setInPlace h (some c) (by rw [columns_size h]; exact hj)
  rw [List.map_set]
  exact this

/-- The loop over the columns: when it returns, every column from `j` on was modified by
`f`, the others and the rest of the table are as before; when it fails, `f` failed on a
column. -/
theorem for_columns_spec (f : Nat → Column → Except Fault Column) (left : Nat) :
    ∀ (j : Nat) (df : DataFrame) (cols : List Column),
      Rep df.columns_ (cols.map some) → j + left = cols.length →
      (∀ df', DataFrame.for_columns f left j df = .ok df' →
        df'.schema_ = df.schema_ ∧ df'.length_ = df.length_ ∧
        ∃ cols' : List Column, Rep df'.columns_ (cols'.map some) ∧
          cols'.length = cols.length ∧
          (∀ k, k < j → cols'[k]? = cols[k]?) ∧
          (∀ k c, j ≤ k → cols[k]? = some c → ∃ c', cols'[k]? = some c' ∧ f k c = .ok c')) ∧
      (∀ e s, DataFrame.for_columns f left j df = .error (e, s) →
        ∃ k c, j ≤ k ∧ cols[k]? = some c ∧ f k c = .error e) := by
  induction left with
  | zero =>
    intro j df cols hrep hj
    constructor
    · intro df' hok
      cases hok
      refine ⟨rfl, rfl, cols, hrep, rfl, fun _ _ => rfl, ?_⟩
      intro k c hk hc
      have := getElem?_lt_length hc
      omega
    · intro e s herr
      cases herr
  | succ n ih =>
    intro j df cols hrep hj
    have hjl : j < cols.length := by omega
    have hguard : j < df.columns_.size := by
      show j < df.columns_.size_
      rw [columns_size hrep]; exact hjl
    unfold DataFrame.for_columns
    rw [if_pos hguard, columns_get hrep hjl]
    simp only []
    cases hf : f j (cols.get ⟨j, hjl⟩) with
    | error e0 =>
      simp only []
      constructor
      · intro df' hok; cases hok
      · intro e s herr
        cases herr
        exact ⟨j, _, le_refl _, List.getElem?_eq_getElem hjl, hf⟩
    | ok c1 =>
      simp only []
      have hrep1 : Rep (df.put_column j c1).columns_ ((cols.set j c1).map some) :=
        columns_put hrep hjl c1
      obtain ⟨ih1, ih2⟩ := ih (j + 1) (df.put_column j c1) (cols.set j c1) hrep1
        (by simp; omega)
      constructor
      · intro df' hok
        obtain ⟨hs, hl, cols', hr', hlen, hbelow, hfrom⟩ := ih1 df' hok
        refine ⟨hs, hl, cols', hr', by simpa using hlen, ?_, ?_⟩
        · intro k hk
          rw [hbelow k (by omega), List.getElem?_set_ne (by omega)]
        · intro k c hk hc
          by_cases hkj : k = j
          · subst hkj
            rw [List.getElem?_eq_getElem hjl] at hc
            cases hc
            refine ⟨c1, ?_, hf⟩
            rw [hbelow k (by omega), List.getElem?_set_self hjl]
          · apply hfrom k c (by omega)
            rw [List.getElem?_set_ne (by omega)]
            exact hc
      · intro e s herr
        obtain ⟨k, c, hk, hc, hfe⟩ := ih2 e s herr
        refine ⟨k, c, by omega, ?_, hfe⟩
        rw [List.getElem?_set_ne (by omega)] at hc
        exact hc

/-! ## The constructor of the table -/

theorem tag_switch {γ : Type} {t : Int} (ht : IsTag t) (F : Int → γ) (e : γ) :
    (if t = TAG_I then F TAG_I else if t = TAG_B then F TAG_B else if t = TAG_F then F TAG_F
      else if t = TAG_S then F TAG_S else e) = F t := by
  rcases ht with h | h | h | h <;> subst h <;> simp [TAG_I, TAG_B, TAG_F, TAG_S]

theorem ctor_loop_rep (g : Garbage) {types : IntArray} {ts : List Int} (ht : Rep types ts)
    (hts : ∀ t, t ∈ ts → IsTag t) (left : Nat) :
    ∀ (i : Nat) (columns : Array Column),
      Rep columns (((ts.take i).map (Column.ctor g)).map some) → i + left = ts.length →
      ∃ columns', DataFrame.ctor_loop g types left i columns = .ok columns' ∧
        Rep columns' ((ts.map (Column.ctor g)).map some) := by
  induction left with
  | zero =>
    intro i columns hc hi
    refine ⟨columns, rfl, ?_⟩
    rw [List.take_of_length_le (by omega)] at hc
    exact hc
  | succ n ih =>
    intro i columns hc hi
    have hil : i < ts.length := by omega
    have hguard : i < types.size := by
      show i < types.size_
      rw [ht.size_eq]; exact hil
    have htag : IsTag (ts.get ⟨i, hil⟩) := hts _ (List.get_mem ts i hil)
    unfold DataFrame.ctor_loop
    rw [if_pos hguard, rep_get_ok ht hil]
    simp only []
    rw [tag_switch htag (fun t => columns.append (some (Column.ctor g t))) columns]
    apply ih (i + 1) _ _ (by omega)
    have hlist : ((ts.take (i + 1)).map (Column.ctor g)).map some =
        ((ts.take i).map (Column.ctor g)).map some ++
          [some (Column.ctor g (ts.get ⟨i, hil⟩))] := by
      have h1 : ts.take (i + 1) = ts.take i ++ [ts.get ⟨i, hil⟩] := by
        rw [List.take_succ, List.getElem?_eq_getElem hil]
        rfl
      rw [h1]
      simp only [List.map_append, List.map_cons, List.map_nil]
    rw [hlist]
    exact rep_append hc (some (Column.ctor g (ts.get ⟨i, hil⟩)))

/-- The constructor `DataFrame(Schema&)` on a schema of valid tags `ts`: one empty column per
tag, the schema of the argument, no rows. -/
theorem ctor_table (g : Garbage) {schema : Schema} {ts : List Int}
    (ht : Rep schema.types_ ts) (hts : ∀ t, t ∈ ts → IsTag t) :
    ∃ df, DataFrame.ctor g schema = .ok df ∧ df.schema_ = schema ∧
      DataFrame.Table df (ts.map (Column.ctor g)) ts [] := by
  obtain ⟨columns, h1, h2⟩ := ctor_loop_rep g ht hts ts.length 0
    (ChunkedArray.ctor g.columns) (by simpa using rep_ctor g.columns) (by simp)
  have hsz : schema.get_types.size = ts.length := ht.size_eq
  refine ⟨{ columns_ := columns, schema_ := schema, length_ := 0 }, ?_, rfl, ?_⟩
  · unfold DataFrame.ctor
    simp only [hsz]
    rw [show schema.get_types = schema.types_ from rfl, h1]
  · refine ⟨h2, ht, ?_, ?_, ?_, rfl⟩
    · rw [List.map_map]
      apply List.ext_getElem?
      intro k
      rw [List.getElem?_map]
      by_cases hk : k < ts.length
      · rw [List.getElem?_eq_getElem hk]
        simp only [Option.map_some', Function.comp]
        rw [(Column.ctor_holds g _).2 (hts _ (List.getElem_mem hk))]
      · rw [List.getElem?_eq_none (by omega)]
        rfl
    · intro j c hc
      rw [List.getElem?_map] at hc
      cases hj : ts[j]? with
      | none => rw [hj] at hc; cases hc
      | some t =>
        rw [hj] at hc
        cases hc
        exact (Column.ctor_holds g t).1
    · intro r hr
      cases hr

/-- Reading the columns of a table. -/
theorem table_column {df : DataFrame} {cols : List Column} {ts : List Int}
    {rows : List (List Value)} (h : DataFrame.Table df cols ts rows) :
    df.ncols = ts.length ∧ cols.length = ts.length ∧
    ∀ j (hj : j < ts.length), ∃ c, cols[j]? = some c ∧ df.columns_.get j = .ok (some c) ∧
      c.get_type = ts.get ⟨j, hj⟩ ∧
      c.Holds (rows.map (fun r => r.getD j (Value.int 0))) ∧ c.size = df.nrows := by
  have hlen : cols.length = ts.length := by
    have := congrArg List.length h.tags
    simpa using this
  refine ⟨?_, hlen, ?_⟩
  · show df.columns_.size_ = _
    rw [columns_size h.columns, hlen]
  · intro j hj
    have hjc : j < cols.length := by omega
    have hc : cols[j]? = some (cols.get ⟨j, hjc⟩) := List.getElem?_eq_getElem hjc
    have hholds := h.cells j _ hc
    refine ⟨_, hc, columns_get h.columns hjc, ?_, hholds, ?_⟩
    · have h1 : (cols.map Column.get_type)[j]? = ts[j]? := by rw [h.tags]
      rw [List.getElem?_map, hc, List.getElem?_eq_getElem hj] at h1
      simp only [Option.map_some', Option.some.injEq] at h1
      exact h1
    · rw [Column.holds_size hholds]
      simp [DataFrame.nrows, h.length]

/-! ## Claims on the table -/

/-- C15: for a schema whose type tags `ts` are each one of `'I'`, `'B'`, `'F'`, `'S'`,
`DataFrame(schema)` returns a table with `ncols()` the number of tags, whose column `j` has
the type tag `ts[j]` and size 0, and with `nrows() == 0`. -/
theorem DataFrame_ctor_columns (g : Garbage) (schema : Schema) (ts : List Int)
    (hs : Reachable schema.types_ ts) (hts : ∀ t, t ∈ ts → IsTag t) :
    ∃ df, DataFrame.ctor g schema = .ok df ∧ df.ncols = ts.length ∧ df.nrows = 0 ∧
      ∀ j (hj : j < ts.length), ∃ c, df.columns_.get j = .ok (some c) ∧
        c.get_type = ts.get ⟨j, hj⟩ ∧ c.size = 0 := by
  obtain ⟨df, h1, _, h3⟩ := ctor_table g hs.rep hts
  obtain ⟨hn, _, hcol⟩ := table_column h3
  have hrows : df.nrows = 0 := h3.length
  refine ⟨df, h1, hn, hrows, ?_⟩
  intro j hj
  obtain ⟨c, _, hget, htype, _, hsize⟩ := hcol j hj
  exact ⟨c, hget, htype, by rw [hsize, hrows]⟩

theorem isTag_IBFS : ∀ t, t ∈ [TAG_I, TAG_B, TAG_F, TAG_S] → IsTag t := by
  intro t ht
  simp only [List.mem_cons, List.mem_singleton, List.not_mem_nil, or_false] at ht
  exact ht

/-- Witness of C15: the schema `"IBFS"`. -/
theorem DataFrame_ctor_columns_witness :
    ∃ df, DataFrame.ctor Garbage.blank
        (Schema.ctor Garbage.blank [TAG_I, TAG_B, TAG_F, TAG_S]) = .ok df ∧
      df.ncols = 4 ∧ df.nrows = 0 := by
  obtain ⟨df, h1, h2, h3, _⟩ := DataFrame_ctor_columns Garbage.blank
    (Schema.ctor Garbage.blank [TAG_I, TAG_B, TAG_F, TAG_S]) [TAG_I, TAG_B, TAG_F, TAG_S]
    (reachable_of_appends _ _) isTag_IBFS
  exact ⟨df, h1, h2, h3⟩

/-! ## `add_row` and `fill_row` -/

theorem add_row_switch_eq (row : Row) (j : Nat) (c : Column) (v : Value)
    (hv : row.vals_[j]? = some v) (htag : v.tag = c.get_type) :
    DataFrame.add_row_switch row j c c.get_type = c.push_back v := by
  have hget : row.get_typed c.get_type j = .ok v := by
    simp [Row.get_typed, hv, htag]
  unfold DataFrame.add_row_switch
  rcases Column.get_type_isTag c with h | h | h | h <;> rw [h] at hget ⊢ <;>
    simp only [TAG_I, TAG_B, TAG_F, TAG_S] at hget ⊢ <;> simp [hget]

/-- The values of a row of the schema have, slot by slot, the types of the columns. -/
theorem row_slot {cols : List Column} {ts : List Int} {row : Row}
    (htags : cols.map Column.get_type = ts) (hrow : Row.Of ts row) {k : Nat} {c : Column}
    (hc : cols[k]? = some c) : ∃ v, row.vals_[k]? = some v ∧ v.tag = c.get_type := by
  have h1 : (row.vals_.map Value.tag)[k]? = (cols.map Column.get_type)[k]? := by
    rw [hrow.2, htags]
  rw [List.getElem?_map, List.getElem?_map, hc] at h1
  cases hv : row.vals_[k]? with
  | none => rw [hv] at h1; cases h1
  | some v =>
    rw [hv] at h1
    simp only [Option.map_some', Option.some.injEq] at h1
    exact ⟨v, rfl, h1⟩

/-- The method `add_row` with a row of the schema of the table returns, and the table holds
one more row, with the values of the argument. -/
theorem add_row_table {df : DataFrame} {cols : List Column} {ts : List Int}
    {rows : List (List Value)} (h : DataFrame.Table df cols ts rows) {row : Row}
    (hrow : Row.Of ts row) :
    ∃ df' cols', df.add_row row = .ok df' ∧ df'.schema_ = df.schema_ ∧
      DataFrame.Table df' cols' ts (rows ++ [row.vals_]) := by
  have heq : df.schema_.get_types.equals row.get_types = .ok true :=
    equals_of_same h.types hrow.1
  obtain ⟨hn, hlen, _⟩ := table_column h
  have hspec := for_columns_spec
    (fun j col => DataFrame.add_row_switch row j col col.get_type) df.ncols 0 df cols
    h.columns (by rw [hn, hlen]; simp)
  rw [← add_row_loop_eq] at hspec
  obtain ⟨hok, herr⟩ := hspec
  have hbody : ∀ k c, cols[k]? = some c → ∃ c', DataFrame.add_row_switch row k c c.get_type
      = .ok c' ∧ c'.get_type = c.get_type ∧
      c'.Holds ((rows ++ [row.vals_]).map (fun r => r.getD k (Value.int 0))) := by
    intro k c hc
    obtain ⟨v, hv, hvt⟩ := row_slot h.tags hrow hc
    obtain ⟨c', h1, h2, h3⟩ := Column.push_back_holds (h.cells k c hc) v hvt
    refine ⟨c', by rw [add_row_switch_eq row k c v hv hvt, h1], h3, ?_⟩
    have hd : row.vals_.getD k (Value.int 0) = v := by
      rw [List.getD_eq_getElem?_getD, hv]; rfl
    rw [List.map_append, List.map_cons, List.map_nil, hd]
    exact h2
  cases hres : DataFrame.add_row_loop row df.ncols 0 df with
  | error es =>
    obtain ⟨e, s⟩ := es
    obtain ⟨k, c, _, hc, hfail⟩ := herr e s hres
    obtain ⟨c', hc', _⟩ := hbody k c hc
    simp only [] at hfail
    rw [hc'] at hfail
    cases hfail
  | ok df1 =>
    obtain ⟨hs, hl, cols', hr', hlen', _, hfrom⟩ := hok df1 hres
    refine ⟨{ df1 with length_ := df1.length_ + 1 }, cols', ?_, hs, ?_⟩
    · unfold DataFrame.add_row
      rw [heq]
      simp only []
      rw [hres]
    · have hcol : ∀ k c', cols'[k]? = some c' → ∃ c, cols[k]? = some c ∧
          DataFrame.add_row_switch row k c c.get_type = .ok c' := by
        intro k c' hc'
        have hk : k < cols.length := by rw [← hlen']; exact getElem?_lt_length hc'
        obtain ⟨c2, h1, h2⟩ := hfrom k _ (Nat.zero_le _) (List.getElem?_eq_getElem hk)
        rw [hc'] at h1
        cases h1
        exact ⟨_, List.getElem?_eq_getElem hk, h2⟩
      refine ⟨hr', ?_, ?_, ?_, ?_, ?_⟩
      · show Rep df1.schema_.types_ ts
        rw [hs]; exact h.types
      · rw [← h.tags]
        apply List.ext_getElem?
        intro k
        rw [List.getElem?_map, List.getElem?_map]
        by_cases hk : k < cols.length
        · obtain ⟨c2, h1, h2⟩ := hfrom k _ (Nat.zero_le _) (List.getElem?_eq_getElem hk)
          obtain ⟨c3, h3, h4, _⟩ := hbody k _ (List.getElem?_eq_getElem hk)
          simp only [] at h2
          rw [h3] at h2
          cases h2
          rw [h1, List.getElem?_eq_getElem hk]
          simp [h4]
        · rw [List.getElem?_eq_none (by omega), List.getElem?_eq_none (by omega)]
      · intro k c' hc'
        obtain ⟨c, hc, hsw⟩ := hcol k c' hc'
        obtain ⟨c3, h3, _, h5⟩ := hbody k c hc
        rw [h3] at hsw
        cases hsw
        exact h5
      · intro r hr
        rcases List.mem_append.mp hr with h1 | h1
        · exact h.shape r h1
        · simp only [List.mem_singleton] at h1
          subst h1
          exact hrow.2
      · show df1.length_ + 1 = (rows ++ [row.vals_]).length
        rw [hl, h.length]
        simp

/-- A run of `add_row` calls with rows of the schema. -/
theorem add_rows_table (ts : List Int) (rs : List Row) :
    ∀ (df : DataFrame) (cols : List Column) (rows : List (List Value)),
      DataFrame.Table df cols ts rows → (∀ r, r ∈ rs → Row.Of ts r) →
      ∃ df' cols', rs.foldlM DataFrame.add_row df = .ok df' ∧ df'.schema_ = df.schema_ ∧
        DataFrame.Table df' cols' ts (rows ++ rs.map (fun r => r.vals_)) := by
  induction rs with
  | nil =>
    intro df cols rows h _
    exact ⟨df, cols, rfl, rfl, by simpa using h⟩
  | cons r rs ih =>
    intro df cols rows h hrs
    obtain ⟨df1, cols1, h1, hs1, h2⟩ := add_row_table h (hrs r (List.mem_cons_self _ _))
    obtain ⟨df2, cols2, h3, hs2, h4⟩ := ih df1 cols1 _ h2
      (fun x hx => hrs x (List.mem_cons_of_mem _ hx))
    refine ⟨df2, cols2, ?_, by rw [hs2, hs1], by simpa using h4⟩
    rw [List.foldlM_cons, h1]
    exact h3

theorem set_take_drop {γ : Type} (j : Nat) :
    ∀ (A B : List γ) (hA : j < A.length), A.length = B.length →
      (A.take j ++ B.drop j).set j (A.get ⟨j, hA⟩) = A.take (j + 1) ++ B.drop (j + 1) := by
  induction j with
  | zero =>
    intro A B hA hB
    cases A with
    | nil => simp at hA
    | cons a A =>
      cases B with
      | nil => simp at hB
      | cons b B => simp
  | succ j ih =>
    intro A B hA hB
    cases A with
    | nil => simp at hA
    | cons a A =>
      cases B with
      | nil => simp at hB
      | cons b B =>
        have hA2 : j < A.length := by simpa using hA
        have := ih A B hA2 (by simpa using hB)
        simpa using this

theorem getElem?_take_drop {γ : Type} (A B : List γ) (j : Nat) (hA : j ≤ A.length) :
    (A.take j ++ B.drop j)[j]? = B[j]? := by
  rw [List.getElem?_append_right (by simp [hA])]
  simp [List.length_take, Nat.min_eq_left hA]

theorem row_set_ok (row : Row) (j : Nat) (old v : Value) (hold : row.vals_[j]? = some old)
    (h : old.tag = v.tag) : row.set j v = .ok { row with vals_ := row.vals_.set j v } := by
  simp [Row.set, hold, h]

theorem fill_row_switch_eq (idx : Nat) (row : Row) (j : Nat) {c : Column} {l : List Value}
    (h : c.Holds l) {v old : Value} (hv : l[idx]? = some v)
    (hold : row.vals_[j]? = some old) (htag : old.tag = c.get_type) :
    DataFrame.fill_row_switch idx row j c c.get_type =
      .ok { row with vals_ := row.vals_.set j v } := by
  have hvtag : v.tag = c.get_type := Column.holds_tag h v (List.getElem?_mem hv)
  have hset := row_set_ok row j old v hold (by rw [htag, hvtag])
  cases c <;> obtain ⟨li, hr, hl⟩ := h <;> subst hl <;>
    rw [List.getElem?_map] at hv <;>
    (cases hx : li[idx]? with
      | none => rw [hx] at hv; cases hv
      | some x =>
        rw [hx] at hv
        cases hv
        have hget := rep_get hr idx
        rw [hx] at hget
        simp [DataFrame.fill_row_switch, Column.get_type, Column.as_int, Column.as_bool,
          Column.as_float, Column.as_string, hget, hset, TAG_I, TAG_B, TAG_F, TAG_S])

theorem fill_row_loop_table {df : DataFrame} {cols : List Column} {ts : List Int}
    {rows : List (List Value)} (h : DataFrame.Table df cols ts rows) {idx : Nat}
    {target : List Value} (ht : rows[idx]? = some target) (orig : List Value)
    (horig : orig.map Value.tag = ts) (left : Nat) :
    ∀ (j : Nat) (row : Row), j + left = ts.length →
      row.vals_ = target.take j ++ orig.drop j →
      ∃ row', DataFrame.fill_row_loop df idx left j row = .ok row' ∧ row'.vals_ = target ∧
        row'.types_ = row.types_ ∧ row'.idx_ = row.idx_ := by
  have hidx : idx < rows.length := getElem?_lt_length ht
  have htgt : target.map Value.tag = ts := h.shape target (List.getElem?_mem ht)
  have htl : target.length = ts.length := by
    have := congrArg List.length htgt
    simpa using this
  have hol : orig.length = ts.length := by
    have := congrArg List.length horig
    simpa using this
  obtain ⟨hn, hlen, hcol⟩ := table_column h
  induction left with
  | zero =>
    intro j row hj hvals
    refine ⟨row, rfl, ?_, rfl, rfl⟩
    rw [hvals, List.take_of_length_le (by omega), List.drop_of_length_le (by omega)]
    simp
  | succ n ih =>
    intro j row hj hvals
    have hjt : j < ts.length := by omega
    obtain ⟨c, hc, hget, htype, hholds, _⟩ := hcol j hjt
    have hjT : j < target.length := by omega
    have hjO : j < orig.length := by omega
    have hv : (rows.map (fun r => r.getD j (Value.int 0)))[idx]? =
        some (target.get ⟨j, hjT⟩) := by
      rw [List.getElem?_map, ht]
      simp [List.getD_eq_getElem?_getD, List.getElem?_eq_getElem hjT]
    have hold : row.vals_[j]? = some (orig.get ⟨j, hjO⟩) := by
      rw [hvals, getElem?_take_drop _ _ _ (by omega), List.getElem?_eq_getElem hjO]
      rfl
    have holdtag : (orig.get ⟨j, hjO⟩).tag = c.get_type := by
      have h1 : (orig.map Value.tag)[j]? = ts[j]? := by rw [horig]
      rw [List.getElem?_map, List.getElem?_eq_getElem hjO,
        List.getElem?_eq_getElem hjt] at h1
      simp only [Option.map_some', Option.some.injEq] at h1
      rw [htype]
      exact h1
    have hsw := fill_row_switch_eq idx row j hholds hv hold holdtag
    obtain ⟨row', h1, h2, h3, h4⟩ := ih (j + 1)
      { row with vals_ := row.vals_.set j (target.get ⟨j, hjT⟩) } (by omega)
      (by
        show row.vals_.set j _ = _
        rw [hvals]
        exact set_take_drop j target orig hjT (by omega))
    refine ⟨row', ?_, h2, h3, h4⟩
    unfold DataFrame.fill_row_loop
    rw [if_pos (by rw [hn]; exact hjt), hget]
    simp only []
    rw [hsw]
    exact h1

/-- The method `fill_row` on a row index below the number of rows, with a row of the schema
of the table, returns and sets the slots of the row to the values of that row of the
table. -/
theorem fill_row_table {df : DataFrame} {cols : List Column} {ts : List Int}
    {rows : List (List Value)} (h : DataFrame.Table df cols ts rows) {idx : Nat}
    {target : List Value} (ht : rows[idx]? = some target) {row : Row} (hrow : Row.Of ts row) :
    ∃ row', df.fill_row idx row = .ok row' ∧ row'.vals_ = target ∧
      row'.types_ = row.types_ ∧ row'.idx_ = row.idx_ := by
  have heq : df.schema_.get_types.equals row.get_types = .ok true :=
    equals_of_same h.types hrow.1
  obtain ⟨hn, _, _⟩ := table_column h
  obtain ⟨row', h1, h2⟩ := fill_row_loop_table h ht row.vals_ hrow.2 df.ncols 0 row
    (by rw [hn]; simp) (by simp)
  refine ⟨row', ?_, h2⟩
  unfold DataFrame.fill_row
  rw [heq]
  exact h1

/-- C16: for a schema over the four tags and rows `r_0 .. r_{k-1}` of that schema, added in
order with `add_row` to the table that the constructor returns, every call returns,
`nrows()` is `k`, and `fill_row(i, row)` with `i < k` and a row of the schema returns and
leaves in the slots of `row` the values of the slots of `r_i`. -/
theorem add_row_fill_row_roundtrip (g : Garbage) (schema : Schema) (ts : List Int)
    (hs : Reachable schema.types_ ts) (hts : ∀ t, t ∈ ts → IsTag t)
    (rs : List Row) (hrs : ∀ r, r ∈ rs → Row.Of ts r) :
    ∃ df0 df, DataFrame.ctor g schema = .ok df0 ∧
      rs.foldlM DataFrame.add_row df0 = .ok df ∧ df.nrows = rs.length ∧
      ∀ i (hi : i < rs.length) (row : Row), Row.Of ts row →
        ∃ row', df.fill_row i row = .ok row' ∧ row'.vals_ = (rs.get ⟨i, hi⟩).vals_ := by
  obtain ⟨df0, h1, _, h3⟩ := ctor_table g hs.rep hts
  obtain ⟨df, cols, h4, _, h6⟩ := add_rows_table ts rs df0 _ [] h3 hrs
  refine ⟨df0, df, h1, h4, ?_, ?_⟩
  · show df.length_ = rs.length
    rw [h6.length]
    simp
  · intro i hi row hrow
    have ht : ([] ++ rs.map (fun r => r.vals_))[i]? = some (rs.get ⟨i, hi⟩).vals_ := by
      simp [List.getElem?_eq_getElem hi]
    obtain ⟨row', h7, h8, _⟩ := fill_row_table h6 ht hrow
    exact ⟨row', h7, h8⟩

/-- Witness of C16: the schema `"IBFS"` and two rows. -/
theorem add_row_fill_row_roundtrip_witness :
    ∃ df0 df, DataFrame.ctor Garbage.blank
        (Schema.ctor Garbage.blank [TAG_I, TAG_B, TAG_F, TAG_S]) = .ok df0 ∧
      [({ types_ := (Schema.ctor Garbage.blank [TAG_I, TAG_B, TAG_F, TAG_S]).types_
          vals_ := [.int 5, .bool true, .float ⟨7⟩, .string (some "a")]
          idx_ := 0 } : Row),
       ({ types_ := (Schema.ctor Garbage.blank [TAG_I, TAG_B, TAG_F, TAG_S]).types_
          vals_ := [.int (-1), .bool false, .float ⟨9⟩, .string none]
          idx_ := 0 } : Row)].foldlM DataFrame.add_row df0 = .ok df ∧
      df.nrows = 2 ∧
      ∃ row', df.fill_row 1
        { types_ := (Schema.ctor Garbage.blank [TAG_I, TAG_B, TAG_F, TAG_S]).types_
          vals_ := [.int 0, .bool false, .float ⟨0⟩, .string none]
          idx_ := 0 } = .ok row' ∧
        row'.vals_ = [.int (-1), .bool false, .float ⟨9⟩, .string none] := by
  have hty : Rep (Schema.ctor Garbage.blank [TAG_I, TAG_B, TAG_F, TAG_S]).types_
      [TAG_I, TAG_B, TAG_F, TAG_S] := (reachable_of_appends _ _).rep
  obtain ⟨df0, df, h1, h2, h3, h4⟩ := add_row_fill_row_roundtrip Garbage.blank
    (Schema.ctor Garbage.blank [TAG_I, TAG_B, TAG_F, TAG_S]) [TAG_I, TAG_B, TAG_F, TAG_S]
    (reachable_of_appends _ _) isTag_IBFS
    [({ types_ := (Schema.ctor Garbage.blank [TAG_I, TAG_B, TAG_F, TAG_S]).types_
        vals_ := [.int 5, .bool true, .float ⟨7⟩, .string (some "a")]
        idx_ := 0 } : Row),
     ({ types_ := (Schema.ctor Garbage.blank [TAG_I, TAG_B, TAG_F, TAG_S]).types_
        vals_ := [.int (-1), .bool false, .float ⟨9⟩, .string none]
        idx_ := 0 } : Row)]
    (by
      intro r hr
      simp only [List.mem_cons, List.mem_singleton, List.not_mem_nil, or_false] at hr
      rcases hr with h | h <;> subst h <;> exact ⟨hty, rfl⟩)
  obtain ⟨row', h5, h6⟩ := h4 1 (by simp)
    { types_ := (Schema.ctor Garbage.blank [TAG_I, TAG_B, TAG_F, TAG_S]).types_
      vals_ := [.int 0, .bool false, .float ⟨0⟩, .string none]
      idx_ := 0 } ⟨hty, rfl⟩
  exact ⟨df0, df, h1, h2, h3, row', h5, h6⟩

/-! ## `add_column` -/

theorem add_column_store_fields (df : DataFrame) (col : Column) (name : Option String) :
    (df.add_column_store col name).columns_ = df.columns_.append (some col) ∧
    (df.add_column_store col name).length_ = df.length_ ∧
    (df.add_column_store col name).schema_ =
      if (df.columns_.append (some col)).size > df.schema_.width then
        df.schema_.add_column col.get_type name
      else df.schema_ := by
  unfold DataFrame.add_column_store
  split <;> exact ⟨rfl, rfl, rfl⟩

/-- The method `add_column` with a column shorter than the table. -/
theorem add_column_eq_short (df : DataFrame) (col col' : Column) (name : Option String)
    (hlt : col.size < df.length_) (hpad : df.pad_column col = .ok col') :
    df.add_column (some col) name = .ok (df.add_column_store col' name) := by
  unfold DataFrame.add_column DataFrame.add_column_store
  simp only [if_pos hlt, hpad]
  split <;> rfl

/-- The method `add_column` with a column as long as the table. -/
theorem add_column_eq_same (df : DataFrame) (col : Column) (name : Option String)
    (heq : col.size = df.length_) :
    df.add_column (some col) name = .ok (df.add_column_store col name) := by
  unfold DataFrame.add_column DataFrame.add_column_store
  have h1 : ¬ col.size < df.length_ := by omega
  have h2 : ¬ col.size > df.length_ := by omega
  simp only [if_neg h1, if_neg h2]
  split <;> rfl

/-- The method `add_column` with a column longer than the table. -/
theorem add_column_eq_long (df df1 : DataFrame) (col : Column) (name : Option String)
    (hgt : col.size > df.length_)
    (hloop : DataFrame.add_column_loop df.columns_.size 0 { df with length_ := col.size }
      = .ok df1) :
    df.add_column (some col) name = .ok (df1.add_column_store col name) := by
  unfold DataFrame.add_column DataFrame.add_column_store
  have h1 : ¬ col.size < df.length_ := by omega
  simp only [if_neg h1, if_pos hgt, hloop]
  split <;> rfl

/-- The method `add_column` with a column not longer than the table: the columns of the
table are as before, the padded column is stored after them. -/
theorem add_column_short {df : DataFrame} {cols : List Column}
    (hc : Rep df.columns_ (cols.map some)) {col : Column} {l : List Value}
    (hcol : col.Holds l) (name : Option String) (hle : l.length ≤ df.length_) :
    ∃ col', df.add_column (some col) name = .ok (df.add_column_store col' name) ∧
      Rep (df.add_column_store col' name).columns_ ((cols ++ [col']).map some) ∧
      col'.get_type = col.get_type ∧
      col'.Holds (l ++ List.replicate (df.length_ - l.length) (Value.missing col.get_type)) ∧
      (l.length = df.length_ → col' = col) := by
  have hsz := Column.holds_size hcol
  have hrep : ∀ c : Column, Rep (df.add_column_store c name).columns_
      ((cols ++ [c]).map some) := by
    intro c
    rw [(add_column_store_fields df c name).1]
    simpa using rep_append hc (some c)
  by_cases hlt : l.length < df.length_
  · obtain ⟨col', h1, h2, h3⟩ := pad_column_holds df hcol
    exact ⟨col', add_column_eq_short df col col' name (by omega) h1, hrep col', h3, h2,
      fun h => by omega⟩
  · have heq : l.length = df.length_ := by omega
    refine ⟨col, add_column_eq_same df col name (by omega), hrep col, rfl, ?_, fun _ => rfl⟩
    rw [heq]
    simpa using hcol

/-- The method `add_column` with a column longer than the table: every column of the table
is padded to the size of the new column, which is stored after them as it is. -/
theorem add_column_long {df : DataFrame} {cols : List Column}
    (hc : Rep df.columns_ (cols.map some)) (heach : ∀ c, c ∈ cols → ∃ lc, c.Holds lc)
    {col : Column} {l : List Value} (hcol : col.Holds l) (name : Option String)
    (hgt : df.length_ < l.length) :
    ∃ (df1 : DataFrame) (cols' : List Column),
      df.add_column (some col) name = .ok (df1.add_column_store col name) ∧
      df1.schema_ = df.schema_ ∧ df1.length_ = l.length ∧
      Rep df1.columns_ (cols'.map some) ∧
      Rep (df1.add_column_store col name).columns_ ((cols' ++ [col]).map some) ∧
      cols'.length = cols.length ∧
      ∀ (k : Nat) (c : Column) (lc : List Value), cols[k]? = some c → c.Holds lc →
        ∃ c' : Column, cols'[k]? = some c' ∧ c'.get_type = c.get_type ∧
          c'.Holds (lc ++ List.replicate (l.length - lc.length) (Value.missing c.get_type)) := by
  have hsz := Column.holds_size hcol
  have hspec := for_columns_spec
    (fun _ c => DataFrame.pad_column_loop l.length c.get_type (l.length - c.size) c)
    cols.length 0 { df with length_ := l.length } cols hc (by simp)
  rw [← add_column_loop_eq l.length cols.length 0 _ rfl] at hspec
  obtain ⟨hok, herr⟩ := hspec
  have hbody : ∀ (k : Nat) (c : Column) (lc : List Value), cols[k]? = some c → c.Holds lc →
      ∃ c' : Column, DataFrame.pad_column_loop l.length c.get_type (l.length - c.size) c = .ok c' ∧
        c'.get_type = c.get_type ∧
        c'.Holds (lc ++ List.replicate (l.length - lc.length) (Value.missing c.get_type)) := by
    intro k c lc _ hlc
    obtain ⟨c', h1, h2, h3⟩ := pad_column_loop_holds l.length (l.length - c.size) c lc hlc
      (by rw [Column.holds_size hlc])
    exact ⟨c', h1, h3, h2⟩
  have hsize : df.columns_.size = cols.length := columns_size hc
  cases hres : DataFrame.add_column_loop cols.length 0 { df with length_ := l.length } with
  | error es =>
    obtain ⟨e, s⟩ := es
    obtain ⟨k, c, _, hkc, hfail⟩ := herr e s hres
    obtain ⟨lc, hlc⟩ := heach c (List.getElem?_mem hkc)
    obtain ⟨c', h1, _⟩ := hbody k c lc hkc hlc
    simp only [] at hfail
    rw [h1] at hfail
    cases hfail
  | ok df1 =>
    obtain ⟨hs, hl, cols', hr', hlen', _, hfrom⟩ := hok df1 hres
    refine ⟨df1, cols', ?_, hs, hl, hr', ?_, hlen', ?_⟩
    · apply add_column_eq_long df df1 col name (by omega)
      rw [hsize, hsz]
      exact hres
    · rw [(add_column_store_fields df1 col name).1]
      simpa using rep_append hr' (some col)
    · intro k c lc hkc hlc
      obtain ⟨c', h1, h2⟩ := hfrom k c (Nat.zero_le _) hkc
      obtain ⟨c2, h3, h4, h5⟩ := hbody k c lc hkc hlc
      simp only [] at h2
      rw [h3] at h2
      have hcc : c2 = c' := by injection h2
      subst hcc
      exact ⟨c2, h1, h4, h5⟩

theorem columns_get_of {columns : Array Column} {cols : List Column}
    (h : Rep columns (cols.map some)) {j : Nat} {c : Column} (hc : cols[j]? = some c) :
    columns.get j = .ok (some c) := by
  rw [rep_get h, List.getElem?_map, hc]
  rfl

theorem table_holds {df : DataFrame} {cols : List Column} {ts : List Int}
    {rows : List (List Value)} (h : DataFrame.Table df cols ts rows) :
    df.Holds cols ts ∧ ∀ c, c ∈ cols → c.size = df.nrows := by
  have key : ∀ c, c ∈ cols → ∃ l, c.Holds l ∧ l.length = df.length_ := by
    intro c hc
    obtain ⟨k, hk, hkc⟩ := List.getElem_of_mem hc
    have h1 : cols[k]? = some c := by rw [List.getElem?_eq_getElem hk, hkc]
    exact ⟨_, h.cells k c h1, by simp [h.length]⟩
  refine ⟨⟨h.columns, fun c hc => ?_, h.types⟩, fun c hc => ?_⟩
  · obtain ⟨l, hl, _⟩ := key c hc
    exact ⟨l, hl⟩
  · obtain ⟨l, hl, hlen⟩ := key c hc
    rw [Column.holds_size hl, hlen]
    rfl

/-- C18: on a table whose columns all have size `nrows()`, `add_column` with a column longer
than `nrows()` returns; afterwards `nrows()` is the size of the column, every earlier column
has that size, its type and its values at the rows below the old `nrows()`, and the missing
value of its type (0, `false`, 0.0, null) at the rows from the old `nrows()` on; the column
is stored as it is after the earlier ones. -/
theorem add_column_longer_pads {df : DataFrame} {cols : List Column} {ts : List Int}
    (h : df.Holds cols ts) (hsized : ∀ c, c ∈ cols → c.size = df.nrows)
    {col : Column} {l : List Value} (hcol : col.Holds l) (name : Option String)
    (hlong : df.nrows < col.size) :
    Value.missing TAG_I = .int 0 ∧ Value.missing TAG_B = .bool false ∧
    Value.missing TAG_F = .float CFloat.zero ∧ Value.missing TAG_S = .string none ∧
    ∃ df', df.add_column (some col) name = .ok df' ∧ df'.nrows = col.size ∧
      df'.ncols = df.ncols + 1 ∧ df'.columns_.get df.ncols = .ok (some col) ∧
      ∀ j, j < df.ncols → ∃ c c', df.columns_.get j = .ok (some c) ∧
        df'.columns_.get j = .ok (some c') ∧ c'.get_type = c.get_type ∧
        c'.size = col.size ∧
        (∀ r, r < df.nrows → c'.get r = c.get r) ∧
        (∀ r, df.nrows ≤ r → r < col.size →
          c'.get r = .ok (Value.missing c.get_type)) := by
  refine ⟨rfl, rfl, rfl, rfl, ?_⟩
  have hsz := Column.holds_size hcol
  have hncols : df.ncols = cols.length := columns_size h.columns
  obtain ⟨df1, cols', h1, _, h3, _, h5, h6, h7⟩ :=
    add_column_long h.columns h.each hcol name (by rw [← hsz]; exact hlong)
  have hstore := add_column_store_fields df1 col name
  refine ⟨_, h1, ?_, ?_, ?_, ?_⟩
  · show (df1.add_column_store col name).length_ = col.size
    rw [hstore.2.1, h3, hsz]
  · show (df1.add_column_store col name).columns_.size_ = df.ncols + 1
    rw [h5.size_eq, hncols]
    simp [h6]
  · apply columns_get_of h5
    rw [hncols, ← h6, List.getElem?_append_right (le_refl _)]
    simp
  · intro j hj
    have hjc : j < cols.length := by omega
    have hc : cols[j]? = some (cols.get ⟨j, hjc⟩) := List.getElem?_eq_getElem hjc
    obtain ⟨lc, hlc⟩ := h.each _ (List.get_mem cols j hjc)
    have hlclen : lc.length = df.nrows := by
      rw [← Column.holds_size hlc]
      exact hsized _ (List.get_mem cols j hjc)
    obtain ⟨c', hc', ht', hh'⟩ := h7 j _ lc hc hlc
    refine ⟨_, c', columns_get_of h.columns hc, ?_, ht', ?_, ?_, ?_⟩
    · apply columns_get_of h5
      rw [List.getElem?_append_left (by omega)]
      exact hc'
    · rw [Column.holds_size hh', hsz]
      simp
      omega
    · intro r hr
      rw [Column.holds_get hh', Column.holds_get hlc,
        List.getElem?_append_left (by omega)]
    · intro r hr1 hr2
      rw [Column.holds_get hh', List.getElem?_append_right (by omega),
        List.getElem?_replicate_of_lt (by omega)]

/-- C19: on a table, `add_column` with a column shorter than `nrows()` returns; afterwards
`nrows()` and the earlier columns are as before, and the column stored after them has the
type of the argument, size `nrows()`, the values of the argument at the rows below its
original size and the missing value of its type at the later rows. -/
theorem add_column_shorter_padded {df : DataFrame} {cols : List Column} {ts : List Int}
    (h : df.Holds cols ts) {col : Column} {l : List Value} (hcol : col.Holds l)
    (name : Option String) (hshort : col.size < df.nrows) :
    ∃ df' c', df.add_column (some col) name = .ok df' ∧ df'.nrows = df.nrows ∧
      df'.ncols = df.ncols + 1 ∧
      (∀ j, j < df.ncols → df'.columns_.get j = df.columns_.get j) ∧
      df'.columns_.get df.ncols = .ok (some c') ∧ c'.get_type = col.get_type ∧
      c'.size = df.nrows ∧
      (∀ r, r < col.size → c'.get r = col.get r) ∧
      (∀ r, col.size ≤ r → r < df.nrows →
        c'.get r = .ok (Value.missing col.get_type)) := by
  have hsz := Column.holds_size hcol
  have hncols : df.ncols = cols.length := columns_size h.columns
  have hlt : l.length < df.length_ := by rw [← hsz]; exact hshort
  obtain ⟨c', h1, h2, h3, h4, _⟩ := add_column_short h.columns hcol name (by omega)
  have hstore := add_column_store_fields df c' name
  refine ⟨_, c', h1, hstore.2.1, ?_, ?_, ?_, h3, ?_, ?_, ?_⟩
  · show (df.add_column_store c' name).columns_.size_ = df.ncols + 1
    rw [h2.size_eq, hncols]
    simp
  · intro j hj
    have hjc : j < cols.length := by omega
    rw [rep_get h2, rep_get h.columns, List.map_append,
      List.getElem?_append_left (by simpa using hjc)]
  · apply columns_get_of h2
    rw [hncols, List.getElem?_append_right (le_refl _)]
    simp
  · rw [Column.holds_size h4]
    simp [DataFrame.nrows]
    omega
  · intro r hr
    rw [Column.holds_get h4, Column.holds_get hcol, List.getElem?_append_left (by omega)]
  · intro r hr1 hr2
    have hr3 : r < df.length_ := hr2
    rw [Column.holds_get h4, List.getElem?_append_right (by omega),
      List.getElem?_replicate_of_lt (by omega)]

/-- C20: on a table with `ncols()` equal to the width of its schema, `add_column` with a
non-null column returns; afterwards `ncols()` has grown by one, the width of the schema is
`ncols()`, the last type tag of the schema is `col.get_type()` and the earlier type tags
are as before. -/
theorem add_column_extends_schema {df : DataFrame} {cols : List Column} {ts : List Int}
    (h : df.Holds cols ts) {col : Column} {l : List Value} (hcol : col.Holds l)
    (name : Option String) (hw : df.ncols = df.schema_.width) :
    ∃ df', df.add_column (some col) name = .ok df' ∧ df'.ncols = df.ncols + 1 ∧
      df'.schema_.width = df'.ncols ∧
      df'.schema_.get_types.get df.ncols = .ok col.get_type ∧
      ∀ j, j < df.ncols → df'.schema_.get_types.get j = df.schema_.get_types.get j := by
  have hncols : df.ncols = cols.length := columns_size h.columns
  have hwidth : df.schema_.width = ts.length := h.types.size_eq
  have common : ∃ (dfx : DataFrame) (colx : Column) (colsx : List Column),
      df.add_column (some col) name = .ok (dfx.add_column_store colx name) ∧
      dfx.schema_ = df.schema_ ∧
      Rep (dfx.add_column_store colx name).columns_ ((colsx ++ [colx]).map some) ∧
      colsx.length = cols.length ∧ colx.get_type = col.get_type := by
    by_cases hle : l.length ≤ df.length_
    · obtain ⟨c', h1, h2, h3, _⟩ := add_column_short h.columns hcol name hle
      exact ⟨df, c', cols, h1, rfl, h2, rfl, h3⟩
    · obtain ⟨df1, cols', h1, h2, _, _, h5, h6, _⟩ :=
        add_column_long h.columns h.each hcol name (by omega)
      exact ⟨df1, col, cols', h1, h2, h5, h6, rfl⟩
  obtain ⟨dfx, colx, colsx, h1, h2, h3, h4, h5⟩ := common
  have hstore := add_column_store_fields dfx colx name
  have hsize : ((dfx.add_column_store colx name).columns_).size_ = cols.length + 1 := by
    rw [h3.size_eq]
    simp [h4]
  have hschema : (dfx.add_column_store colx name).schema_ =
      df.schema_.add_column col.get_type name := by
    rw [hstore.2.2, h2, h5, if_pos]
    rw [← hstore.1]
    show (dfx.add_column_store colx name).columns_.size_ > df.schema_.width
    rw [hsize, ← hw, hncols]
    omega
  have htypes : Rep (dfx.add_column_store colx name).schema_.types_ (ts ++ [col.get_type]) := by
    rw [hschema]
    exact rep_append h.types _
  have hts : ts.length = cols.length := by omega
  refine ⟨_, h1, ?_, ?_, ?_, ?_⟩
  · show (dfx.add_column_store colx name).columns_.size_ = df.ncols + 1
    rw [hsize, hncols]
  · show (dfx.add_column_store colx name).schema_.types_.size_ =
      (dfx.add_column_store colx name).columns_.size_
    rw [htypes.size_eq, hsize]
    simp [hts]
  · show (dfx.add_column_store colx name).schema_.types_.get df.ncols = _
    rw [rep_get htypes, hncols, ← hts, List.getElem?_append_right (le_refl _)]
    simp
  · intro j hj
    show (dfx.add_column_store colx name).schema_.types_.get j = df.schema_.types_.get j
    rw [rep_get htypes, rep_get h.types, List.getElem?_append_left (by omega)]

theorem int_column_holds (vs : List Int) :
    (Column.int (vs.foldl ChunkedArray.append (ChunkedArray.ctor Garbage.blank.ints))).Holds
      (vs.map Value.int) :=
  ⟨vs, (reachable_of_appends _ vs).rep, rfl⟩

/-- Witness of C18: a column of 3 values added to the empty table of the schema `"IB"`. -/
theorem add_column_longer_pads_witness :
    ∃ df0 df', DataFrame.ctor Garbage.blank (Schema.ctor Garbage.blank [TAG_I, TAG_B])
        = .ok df0 ∧
      df0.add_column (some (Column.int (([1, 2, 3] : List Int).foldl ChunkedArray.append
        (ChunkedArray.ctor Garbage.blank.ints)))) none = .ok df' ∧
      df'.nrows = 3 := by
  have hty : Rep (Schema.ctor Garbage.blank [TAG_I, TAG_B]).types_ [TAG_I, TAG_B] :=
    (reachable_of_appends _ _).rep
  obtain ⟨df0, h1, _, h3⟩ := ctor_table Garbage.blank hty
    (fun t ht => by
      simp only [List.mem_cons, List.not_mem_nil, or_false] at ht
      rcases ht with h | h
      · exact Or.inl h
      · exact Or.inr (Or.inl h))
  have hcol := int_column_holds [1, 2, 3]
  have hsz := Column.holds_size hcol
  have hrows : df0.nrows = 0 := h3.length
  obtain ⟨_, _, _, _, df', h4, h5, _⟩ := add_column_longer_pads (table_holds h3).1
    (table_holds h3).2 hcol none (by rw [hsz, hrows]; decide)
  refine ⟨df0, df', h1, h4, ?_⟩
  rw [h5, hsz]
  rfl

/-- Witness of C19: an empty column added to a table of the schema `"I"` with one row. -/
theorem add_column_shorter_padded_witness :
    ∃ df0 df1 df', DataFrame.ctor Garbage.blank (Schema.ctor Garbage.blank [TAG_I])
        = .ok df0 ∧
      df0.add_row { types_ := (Schema.ctor Garbage.blank [TAG_I]).types_
                    vals_ := [.int 4]
                    idx_ := 0 } = .ok df1 ∧
      df1.add_column (some (Column.ctor Garbage.blank TAG_B)) none = .ok df' ∧
      df'.nrows = 1 := by
  have hty : Rep (Schema.ctor Garbage.blank [TAG_I]).types_ [TAG_I] :=
    (reachable_of_appends _ _).rep
  obtain ⟨df0, h1, _, h3⟩ := ctor_table Garbage.blank hty
    (fun t ht => by
      simp only [List.mem_singleton] at ht
      exact Or.inl ht)
  obtain ⟨df1, cols1, h4, _, h6⟩ := add_row_table h3
    (show Row.Of [TAG_I] { types_ := (Schema.ctor Garbage.blank [TAG_I]).types_
                           vals_ := [.int 4]
                           idx_ := 0 } from ⟨hty, rfl⟩)
  have hrows : df1.nrows = 1 := h6.length
  have hcol := (Column.ctor_holds Garbage.blank TAG_B).1
  obtain ⟨df', _, h7, h8, _⟩ := add_column_shorter_padded (table_holds h6).1 hcol none
    (by rw [Column.holds_size hcol, hrows]; decide)
  exact ⟨df0, df1, df', h1, h4, h7, by rw [h8, hrows]⟩

/-- Witness of C20: a `bool` column added to the empty table of the schema `"I"`. -/
theorem add_column_extends_schema_witness :
    ∃ df0 df', DataFrame.ctor Garbage.blank (Schema.ctor Garbage.blank [TAG_I]) = .ok df0 ∧
      df0.add_column (some (Column.ctor Garbage.blank TAG_B)) none = .ok df' ∧
      df'.schema_.get_types.get 1 = .ok TAG_B := by
  have hty : Rep (Schema.ctor Garbage.blank [TAG_I]).types_ [TAG_I] :=
    (reachable_of_appends _ _).rep
  obtain ⟨df0, h1, h2, h3⟩ := ctor_table Garbage.blank hty
    (fun t ht => by
      simp only [List.mem_singleton] at ht
      exact Or.inl ht)
  have hn : df0.ncols = 1 := (table_column h3).1
  have hw : df0.schema_.width = 1 := h3.types.size_eq
  obtain ⟨df', h4, _, _, h7, _⟩ := add_column_extends_schema (table_holds h3).1
    (Column.ctor_holds Garbage.blank TAG_B).1 none (by rw [hn, hw])
  refine ⟨df0, df', h1, h4, ?_⟩
  rw [hn] at h7
  exact h7

/-! ## Writes in range and the columns of a table -/

theorem set_in_range_rep {α : Type} {a : ChunkedArray α} {li : List α} (h : Rep a li)
    (v : α) {row : Nat} (hrow : row < li.length) :
    a.set v row = .ok (setInPlace a v row) ∧ Rep (setInPlace a v row) (li.set row v) := by
  have hsz : row < a.size_ := by rw [h.size_eq]; exact hrow
  refine ⟨?_, rep_setInPlace h v hsz⟩
  rw [set_eq, if_neg (by omega), if_neg (by omega)]

theorem add_row_switch_ok {row : Row} {j : Nat} {c c' : Column} {t : Int}
    (h : DataFrame.add_row_switch row j c t = .ok c') : ∃ v, c.push_back v = .ok c' := by
  unfold DataFrame.add_row_switch at h
  split at h
  · cases hg : row.get_typed TAG_I j with
    | error e => rw [hg] at h; cases h
    | ok v => rw [hg] at h; exact ⟨v, h⟩
  · split at h
    · cases hg : row.get_typed TAG_B j with
      | error e => rw [hg] at h; cases h
      | ok v => rw [hg] at h; exact ⟨v, h⟩
    · split at h
      · cases hg : row.get_typed TAG_F j with
        | error e => rw [hg] at h; cases h
        | ok v => rw [hg] at h; exact ⟨v, h⟩
      · split at h
        · cases hg : row.get_typed TAG_S j with
          | error e => rw [hg] at h; cases h
          | ok v => rw [hg] at h; exact ⟨v, h⟩
        · cases h

theorem holds_sized {df : DataFrame} {cols : List Column} {ts : List Int}
    (h : df.Holds cols ts) (hs : ∀ c, c ∈ cols → c.size = df.nrows) :
    ∀ c, c ∈ cols → ∃ l, c.Holds l ∧ l.length = df.length_ := by
  intro c hc
  obtain ⟨l, hl⟩ := h.each c hc
  refine ⟨l, hl, ?_⟩
  rw [← Column.holds_size hl]
  exact hs c hc

/-! ## Claims on failures of the table methods -/

/-- The method `add_column` returns on a table and a column in states of their classes. -/
theorem add_column_returns {df : DataFrame} {cols : List Column} {ts : List Int}
    (h : df.Holds cols ts) {col : Column} {l : List Value} (hcol : col.Holds l)
    (name : Option String) : ∃ df', df.add_column (some col) name = .ok df' := by
  by_cases hle : l.length ≤ df.length_
  · obtain ⟨c', h1, _⟩ := add_column_short h.columns hcol name hle
    exact ⟨_, h1⟩
  · obtain ⟨df1, cols', h1, _⟩ := add_column_long h.columns h.each hcol name (by omega)
    exact ⟨_, h1⟩

/-- C21: `add_column` with a null column fails in `exit_if_not`, with the table as it was
before the call; `add_column` with a column object, on a table in a state of its class,
returns. -/
theorem add_column_null_fails (t : DataFrame) (name : Option String)
    {df : DataFrame} {cols : List Column} {ts : List Int}
    (h : df.Holds cols ts) {col : Column} {l : List Value} (hcol : col.Holds l) :
    t.add_column none name = .error (.exit "Undefined column provided.", t) ∧
    ∃ df', df.add_column (some col) name = .ok df' :=
  ⟨rfl, add_column_returns h hcol name⟩

/-- Witness of C21: a `bool` column added to the empty table of the schema `"I"`. -/
theorem add_column_null_fails_witness :
    ∃ df0 df', DataFrame.ctor Garbage.blank (Schema.ctor Garbage.blank [TAG_I]) = .ok df0 ∧
      df0.add_column none none = .error (.exit "Undefined column provided.", df0) ∧
      df0.add_column (some (Column.ctor Garbage.blank TAG_B)) none = .ok df' := by
  have hty : Rep (Schema.ctor Garbage.blank [TAG_I]).types_ [TAG_I] :=
    (reachable_of_appends _ _).rep
  obtain ⟨df0, h1, _, h3⟩ := ctor_table Garbage.blank hty
    (fun t ht => by
      simp only [List.mem_singleton] at ht
      exact Or.inl ht)
  obtain ⟨h4, df', h5⟩ := add_column_null_fails df0 none (table_holds h3).1
    (Column.ctor_holds Garbage.blank TAG_B).1
  exact ⟨df0, df', h1, h4, h5⟩

theorem get_typed_of_column {df : DataFrame} {c : Nat} {column : Column}
    (hget : df.columns_.get c = .ok (some column)) {l : List Value} (hl : column.Holds l)
    (r : Nat) {tag : Int} (htag : IsTag tag) :
    (column.get_type ≠ tag → df.get_typed tag c r =
      .error (.exit "Column index corresponds to the wrong type.")) ∧
    (column.get_type = tag → df.get_typed tag c r = column.get r) := by
  unfold DataFrame.get_typed
  rw [hget]
  simp only []
  rcases htag with h | h | h | h <;> subst h <;> cases column <;>
    simp [Column.get_type, Column.as_int, Column.as_bool, Column.as_float, Column.as_string,
      Column.get, TAG_I, TAG_B, TAG_F, TAG_S]

/-- C23: evaluation of `add_row` and `fill_row` on the empty table of the schema `"I"` with
a row of the schema `"IB"`, whose tag sequence is longer than the one of the table and
starts with it: `add_row` returns, with the first value of the row appended to the column
and `nrows()` at 1, and `fill_row` returns on the table so obtained. -/
theorem add_row_accepts_longer_row :
    ∃ df0 df1 c row',
      DataFrame.ctor Garbage.blank (Schema.ctor Garbage.blank [TAG_I]) = .ok df0 ∧
      df0.add_row { types_ := (Schema.ctor Garbage.blank [TAG_I, TAG_B]).types_
                    vals_ := [.int 5, .bool true]
                    idx_ := 0 } = .ok df1 ∧
      df1.nrows = 1 ∧ df1.columns_.get 0 = .ok (some c) ∧ c.get 0 = .ok (.int 5) ∧
      df1.fill_row 0 { types_ := (Schema.ctor Garbage.blank [TAG_I, TAG_B]).types_
                       vals_ := [.int 0, .bool false]
                       idx_ := 0 } = .ok row' ∧
      row'.vals_ = [.int 5, .bool false] :=
  ⟨_, _, _, _, rfl, rfl, rfl, rfl, rfl, rfl, rfl⟩

/-! ## `pad_column` -/

/-- More iterations than `length_ - col->size()` do not change the result of the loop of
`pad_column`: it ends by its guard. -/
theorem pad_column_loop_fuel (n : Nat) (left : Nat) :
    ∀ (c : Column) (l : List Value), c.Holds l → n - l.length ≤ left →
      DataFrame.pad_column_loop n c.get_type left c =
        DataFrame.pad_column_loop n c.get_type (n - l.length) c := by
  induction left with
  | zero =>
    intro c l _ hle
    have : n - l.length = 0 := by omega
    rw [this]
  | succ k ih =>
    intro c l h hle
    by_cases hlt : l.length < n
    · obtain ⟨h1, h2⟩ := Column.append_missing_holds h
      have hsz : c.size < n := by rw [Column.holds_size h]; exact hlt
      have hm : n - l.length = (n - (l ++ [Value.missing c.get_type]).length) + 1 := by
        simp; omega
      have hih := ih c.append_missing _ h1 (by simp; omega)
      rw [h2] at hih
      rw [hm]
      unfold DataFrame.pad_column_loop
      simp only [if_pos hsz]
      rw [nested_tag_if (Column.get_type_isTag c), nested_tag_if (Column.get_type_isTag c)]
      exact hih
    · have hsz : ¬ c.size < n := by rw [Column.holds_size h]; exact hlt
      have : n - l.length = 0 := by omega
      rw [this]
      unfold DataFrame.pad_column_loop
      rw [if_neg hsz]

/-- C29: `pad_column(col)`, for a column in a state of its class, ends by the guard of its
loop, whatever the number of iterations allowed beyond `nrows() - col.size()`; afterwards
the size of the column is the larger of its old size and `nrows()`, the values below the
old size are as before, every appended value is the missing value of the type of the
column, and the column is as before when its size was at least `nrows()`. -/
theorem pad_column_pads (df : DataFrame) {col : Column} {l : List Value}
    (hcol : col.Holds l) :
    ∃ col', df.pad_column col = .ok col' ∧
      (∀ extra, DataFrame.pad_column_loop df.length_ col.get_type
        (df.length_ - col.size + extra) col = .ok col') ∧
      ¬ col'.size < df.nrows ∧
      col'.size = max col.size df.nrows ∧ col'.get_type = col.get_type ∧
      (∀ r, r < col.size → col'.get r = col.get r) ∧
      (∀ r, col.size ≤ r → r < col'.size → col'.get r = .ok (Value.missing col.get_type)) ∧
      (df.nrows ≤ col.size → col' = col) := by
  have hsz := Column.holds_size hcol
  obtain ⟨col', h1, h2, h3⟩ := pad_column_holds df hcol
  have hsz' := Column.holds_size h2
  simp only [List.length_append, List.length_replicate] at hsz'
  have hn : df.nrows = df.length_ := rfl
  refine ⟨col', h1, ?_, ?_, ?_, h3, ?_, ?_, ?_⟩
  · intro extra
    rw [pad_column_loop_fuel df.length_ _ col l hcol (by rw [hsz]; omega), ← hsz]
    exact h1
  · rw [hsz', hn]; omega
  · rw [hsz', hsz, hn]; omega
  · intro r hr
    rw [Column.holds_get h2, Column.holds_get hcol, List.getElem?_append_left (by omega)]
  · intro r hr1 hr2
    rw [Column.holds_get h2, List.getElem?_append_right (by omega),
      List.getElem?_replicate_of_lt (by omega)]
  · intro hge
    have h0 : df.length_ - col.size = 0 := by rw [hn] at hge; omega
    unfold DataFrame.pad_column at h1
    simp only [h0] at h1
    cases h1
    rfl

/-- Witness of C29: an `int` column of 2 values padded in a table of the schema `"I"` that
has no rows: the column is as before. -/
theorem pad_column_pads_witness :
    ∃ df0, DataFrame.ctor Garbage.blank (Schema.ctor Garbage.blank [TAG_I]) = .ok df0 ∧
      df0.pad_column (Column.int (([1, 2] : List Int).foldl ChunkedArray.append
        (ChunkedArray.ctor Garbage.blank.ints))) =
      .ok (Column.int (([1, 2] : List Int).foldl ChunkedArray.append
        (ChunkedArray.ctor Garbage.blank.ints))) := by
  have hty : Rep (Schema.ctor Garbage.blank [TAG_I]).types_ [TAG_I] :=
    (reachable_of_appends _ _).rep
  obtain ⟨df0, h1, _, h3⟩ := ctor_table Garbage.blank hty
    (fun t ht => by
      simp only [List.mem_singleton] at ht
      exact Or.inl ht)
  have hrows : df0.nrows = 0 := h3.length
  obtain ⟨col', h4, _, _, _, _, _, _, h5⟩ := pad_column_pads df0 (int_column_holds [1, 2])
  rw [h5 (by rw [hrows]; exact Nat.zero_le _)] at h4
  exact ⟨df0, h1, h4⟩

/-! ## The copy constructor -/

/-- C30: the copy constructor `DataFrame(other)` returns a table with as many columns as
`other`, whose column `j` is the clone of the column `j` of `other`, of the same type tag,
the same size and the same values, with `nrows()` of `other`, the type tags and the column
names of the schema of `other` and no row names; `other`, passed by value, is as before. -/
theorem copy_shape (g : Garbage) {other : DataFrame} {cols : List Column} {ts : List Int}
    (h : other.Holds cols ts) :
    ∃ df, DataFrame.copy g other = .ok df ∧ df.Holds (cols.map Column.clone) ts ∧
      df.ncols = other.ncols ∧ df.nrows = other.nrows ∧
      (∀ j, j < other.ncols → ∃ c, other.columns_.get j = .ok (some c) ∧
        df.columns_.get j = .ok (some c.clone) ∧ c.clone.get_type = c.get_type ∧
        c.clone.size = c.size ∧ ∀ r, c.clone.get r = c.get r) ∧
      df.schema_.get_types = other.schema_.get_types ∧
      df.schema_.col_names_ = other.schema_.col_names_ ∧ df.schema_.row_names_ = [] := by
  obtain ⟨columns, h1, h2⟩ := append_all_obj_rep Column.clone (rep_ctor g.columns) h.columns
  have h3 : Rep columns ((cols.map Column.clone).map some) := by
    simpa [List.map_map, Function.comp_def] using h2
  have hn : other.ncols = cols.length := columns_size h.columns
  refine ⟨{ columns_ := columns, schema_ := other.schema_.clear_row_names,
            length_ := other.nrows }, ?_, ⟨h3, ?_, h.types⟩, ?_, rfl, ?_, rfl, rfl, rfl⟩
  · unfold DataFrame.copy
    rw [h1]
  · intro c hc
    obtain ⟨c0, hc0, rfl⟩ := List.mem_map.mp hc
    exact h.each c0 hc0
  · show columns.size_ = _
    rw [columns_size h3, hn, List.length_map]
  · intro j hj
    have hj2 : j < cols.length := by rw [← hn]; exact hj
    refine ⟨cols.get ⟨j, hj2⟩, columns_get h.columns hj2, ?_, rfl, rfl, fun _ => rfl⟩
    exact columns_get_of h3 (by simp [List.getElem?_eq_getElem hj2])

/-- Witness of C30: the copy of the table of the schema `"I"` with one row. -/
theorem copy_shape_witness :
    ∃ df0 df1 df, DataFrame.ctor Garbage.blank (Schema.ctor Garbage.blank [TAG_I])
        = .ok df0 ∧
      df0.add_row { types_ := (Schema.ctor Garbage.blank [TAG_I]).types_
                    vals_ := [.int 4]
                    idx_ := 0 } = .ok df1 ∧
      DataFrame.copy Garbage.blank df1 = .ok df ∧ df.ncols = df1.ncols ∧
      df.nrows = df1.nrows ∧ df.schema_.row_names_ = [] := by
  have hty : Rep (Schema.ctor Garbage.blank [TAG_I]).types_ [TAG_I] :=
    (reachable_of_appends _ _).rep
  obtain ⟨df0, h1, _, h3⟩ := ctor_table Garbage.blank hty
    (fun t ht => by
      simp only [List.mem_singleton] at ht
      exact Or.inl ht)
  obtain ⟨df1, cols1, h4, _, h6⟩ := add_row_table h3
    (show Row.Of [TAG_I] { types_ := (Schema.ctor Garbage.blank [TAG_I]).types_
                           vals_ := [.int 4]
                           idx_ := 0 } from ⟨hty, rfl⟩)
  obtain ⟨df, h7, _, h8, h9, _, _, _, h10⟩ := copy_shape Garbage.blank (table_holds h6).1
  exact ⟨df0, df1, df, h1, h4, h7, h8, h9, h10⟩

/-! ## The traversals `map`, `map_x`, `pmap`, `filter` -/

theorem missing_tag {t : Int} (ht : IsTag t) : (Value.missing t).tag = t := by
  rcases ht with h | h | h | h <;> subst h <;> rfl

/-- The type tags of a table are tags of the four types. -/
theorem table_tags {df : DataFrame} {cols : List Column} {ts : List Int}
    {rows : List (List Value)} (h : DataFrame.Table df cols ts rows) :
    ∀ t, t ∈ ts → IsTag t := by
  intro t ht
  rw [← h.tags] at ht
  obtain ⟨c, _, hc⟩ := List.mem_map.mp ht
  rw [← hc]
  exact Column.get_type_isTag c

/-- The row that the constructor `Row(schema)` returns is a row of the schema. -/
theorem row_ctor_of {schema : Schema} {ts : List Int} (ht : Rep schema.types_ ts)
    (hts : ∀ t, t ∈ ts → IsTag t) : Row.Of ts (Row.ctor schema) := by
  refine ⟨ht, ?_⟩
  have hw : schema.width = ts.length := ht.size_eq
  apply List.ext_getElem?
  intro k
  simp only [Row.ctor, List.getElem?_map, hw]
  by_cases hk : k < ts.length
  · rw [List.getElem?_range hk, List.getElem?_eq_getElem hk]
    simp only [Option.map_some']
    rw [show schema.get_types = schema.types_ from rfl, rep_get_ok ht hk]
    exact congrArg some (missing_tag (hts _ (List.get_mem _ _ _)))
  · rw [List.getElem?_eq_none (by simpa using hk), List.getElem?_eq_none (by omega)]
    rfl

theorem accept_rows_nil {ρ : Type} (R : Rower ρ) (types : IntArray)
    (rows : List (List Value)) (r : ρ) : accept_rows R types rows [] r = .ok r := rfl

theorem accept_rows_cons {ρ : Type} (R : Rower ρ) (types : IntArray)
    (rows : List (List Value)) (k : Nat) (ks : List Nat) (r : ρ) :
    accept_rows R types rows (k :: ks) r =
      match R.accept r (row_at types rows k) with
      | .error e => .error e
      | .ok (_, r) => accept_rows R types rows ks r := by
  unfold accept_rows
  rw [List.foldlM_cons]
  cases R.accept r (row_at types rows k) with
  | error e => rfl
  | ok p => rfl

theorem accept_rows_append {ρ : Type} (R : Rower ρ) (types : IntArray)
    (rows : List (List Value)) (ks ks' : List Nat) (r : ρ) :
    accept_rows R types rows (ks ++ ks') r =
      match accept_rows R types rows ks r with
      | .error e => .error e
      | .ok r => accept_rows R types rows ks' r := by
  induction ks generalizing r with
  | nil => rfl
  | cons k ks ih =>
    rw [List.cons_append, accept_rows_cons, accept_rows_cons]
    cases R.accept r (row_at types rows k) with
    | error e => rfl
    | ok p => exact ih p.2

/-- The loop of `map_x` over the rows `i .. stop - 1` of a table is the sequence of the calls
of `accept` for these rows, in ascending order. -/
theorem map_x_loop_eq {ρ : Type} (R : Rower ρ) {df : DataFrame} {cols : List Column}
    {ts : List Int} {rows : List (List Value)} (h : DataFrame.Table df cols ts rows)
    {stop : Nat} (hstop : stop ≤ rows.length) (left : Nat) :
    ∀ (i : Nat) (row : Row) (r : ρ), Row.Of ts row → row.types_ = df.schema_.types_ →
      i + left = stop →
      DataFrame.map_x_loop R df stop left i row r =
        accept_rows R df.schema_.types_ rows (List.range' i left) r := by
  induction left with
  | zero =>
    intro i row r _ _ _
    rfl
  | succ n ih =>
    intro i row r hrow hty hil
    have hi : i < stop := by omega
    have hir : i < rows.length := by omega
    have htarget : rows[i]? = some (rows.get ⟨i, hir⟩) := List.getElem?_eq_getElem hir
    have hrow2 : Row.Of ts (row.set_idx i) := hrow
    obtain ⟨row', h1, h2, h3, h4⟩ := fill_row_table h htarget hrow2
    have hrow' : row' = row_at df.schema_.types_ rows i := by
      cases row'
      simp only at h2 h3 h4
      subst h2
      rw [h3, h4]
      simp [row_at, Row.set_idx, hty, List.getD_eq_getElem?_getD, htarget]
    have hof : Row.Of ts row' :=
      ⟨by rw [h3]; exact hrow.1, by rw [h2]; exact h.shape _ (List.getElem?_mem htarget)⟩
    have hty' : row'.types_ = df.schema_.types_ := by rw [h3]; exact hty
    rw [List.range'_succ, accept_rows_cons, ← hrow']
    simp only [DataFrame.map_x_loop, if_pos hi, h1]
    cases hacc : R.accept r row' with
    | error e => rfl
    | ok p => exact ih (i + 1) row' p.2 hof hty' (by omega)

theorem map_loop_eq {ρ : Type} (R : Rower ρ) (df : DataFrame) (left : Nat) :
    ∀ (i : Nat) (row : Row) (r : ρ),
      DataFrame.map_loop R df left i row r = DataFrame.map_x_loop R df df.length_ left i row r := by
  induction left with
  | zero =>
    intro i row r
    rfl
  | succ n ih =>
    intro i row r
    simp only [DataFrame.map_loop, DataFrame.map_x_loop, ih]

/-- The calls of `accept` of the rower that records its rows. -/
theorem accept_rows_log (types : IntArray) (rows : List (List Value)) (ks : List Nat) :
    ∀ l : List Row, accept_rows Rower.log types rows ks l =
      .ok (l ++ ks.map (row_at types rows)) := by
  induction ks with
  | nil =>
    intro l
    simp [accept_rows_nil]
  | cons k ks ih =>
    intro l
    rw [accept_rows_cons]
    show accept_rows Rower.log types rows ks (l ++ [row_at types rows k]) = _
    rw [ih]
    simp

/-- The slot `j` of the row `k` of a table is what column `j` holds at index `k`. -/
theorem table_cell {df : DataFrame} {cols : List Column} {ts : List Int}
    {rows : List (List Value)} (h : DataFrame.Table df cols ts rows) {k j : Nat}
    (hk : k < rows.length) (hj : j < ts.length) :
    ∃ c v, df.columns_.get j = .ok (some c) ∧ c.get k = .ok v ∧
      (rows.getD k [])[j]? = some v := by
  obtain ⟨_, _, hcol⟩ := table_column h
  obtain ⟨c, _, hc2, _, hc4, _⟩ := hcol j hj
  have hshape := h.shape _ (List.getElem_mem hk)
  have hlen : (rows[k]).length = ts.length := by
    have := congrArg List.length hshape
    simpa using this
  have hjr : j < (rows[k]).length := by omega
  refine ⟨c, (rows[k])[j], hc2, ?_, ?_⟩
  · rw [Column.holds_get hc4, List.getElem?_map, List.getElem?_eq_getElem hk]
    simp [List.getD_eq_getElem?_getD, List.getElem?_eq_getElem hjr]
  · simp [List.getD_eq_getElem?_getD, List.getElem?_eq_getElem hk,
      List.getElem?_eq_getElem hjr]

/-- The method `map_x` on a table: the worker 1 is the sequence of the calls of `accept` for
the rows `0 .. n/2 - 1` on the rower `r_`, any other worker the one for the rows
`n/2 .. n - 1` on the rower `r2_`. -/
theorem map_x_eq {ρ : Type} (R : Rower ρ) {df : DataFrame} {cols : List Column}
    {ts : List Int} {rows : List (List Value)} (h : DataFrame.Table df cols ts rows)
    (r_ r2_ : ρ) :
    df.map_x R 1 r_ r2_ =
      (match accept_rows R df.schema_.types_ rows (List.range' 0 (df.length_ / 2)) r_ with
        | .error e => .error e
        | .ok r => .ok (r, r2_)) ∧
    df.map_x R 2 r_ r2_ =
      (match accept_rows R df.schema_.types_ rows
          (List.range' (df.length_ / 2) (df.length_ - df.length_ / 2)) r2_ with
        | .error e => .error e
        | .ok r => .ok (r_, r)) := by
  have hrow := @row_ctor_of df.schema_ ts h.types (table_tags h)
  have hn : df.length_ = rows.length := h.length
  constructor
  · unfold DataFrame.map_x
    simp only [if_pos]
    rw [map_x_loop_eq R h (by omega) (df.length_ / 2 - 0) 0 _ r_ hrow rfl (by omega)]
    rfl
  · unfold DataFrame.map_x
    simp only [show ¬ ((2 : Int) = 1) by decide, if_false]
    rw [map_x_loop_eq R h (Nat.le_of_eq hn) (df.length_ - df.length_ / 2) (df.length_ / 2) _
      r2_ hrow rfl (by omega)]

/-- The method `pmap` on a table, when `clone` returns `r2`: the calls of `accept` for the
rows `0 .. n/2 - 1` on the rower, those for the rows `n/2 .. n - 1` on its clone, then
`join_delete`. -/
theorem pmap_eq {ρ : Type} (R : Rower ρ) {df : DataFrame} {cols : List Column}
    {ts : List Int} {rows : List (List Value)} (h : DataFrame.Table df cols ts rows)
    (r r2 : ρ) (hc : R.clone r = .ok r2) :
    df.pmap R r =
      (match accept_rows R df.schema_.types_ rows (List.range' 0 (df.length_ / 2)) r with
        | .error e => .error e
        | .ok a =>
          match accept_rows R df.schema_.types_ rows
              (List.range' (df.length_ / 2) (df.length_ - df.length_ / 2)) r2 with
          | .error e => .error e
          | .ok b => R.join_delete a b) := by
  unfold DataFrame.pmap
  simp only []
  rw [hc]
  simp only []
  rw [(map_x_eq R h _ _).1]
  cases accept_rows R df.schema_.types_ rows (List.range' 0 (df.length_ / 2)) r with
  | error e => rfl
  | ok a =>
    simp only []
    rw [(map_x_eq R h _ _).2]
    cases accept_rows R df.schema_.types_ rows
        (List.range' (df.length_ / 2) (df.length_ - df.length_ / 2)) r2 with
    | error e => rfl
    | ok b => rfl

/-- C26: on a table with `n = nrows()` rows, `map_x(1)` is the sequence of the calls of
`accept` for the row indices `0 .. n/2 - 1` in ascending order, on the rower `r_`, and
`map_x(2)` the one for `n/2 .. n - 1`, on the rower `r2_`; the first range has `n / 2`
indices, the second `n - n / 2`, an index is in the first when it is below `n / 2` and in
the second when it is from `n / 2` and below `n`, and the first range followed by the second
is `0 .. n - 1`, every index once. -/
theorem map_x_ranges {ρ : Type} (R : Rower ρ) {df : DataFrame} {cols : List Column}
    {ts : List Int} {rows : List (List Value)} (h : DataFrame.Table df cols ts rows)
    (r_ r2_ : ρ) :
    df.map_x R 1 r_ r2_ =
      (match accept_rows R df.schema_.get_types rows (List.range' 0 (df.nrows / 2)) r_ with
        | .error e => .error e
        | .ok r => .ok (r, r2_)) ∧
    df.map_x R 2 r_ r2_ =
      (match accept_rows R df.schema_.get_types rows
          (List.range' (df.nrows / 2) (df.nrows - df.nrows / 2)) r2_ with
        | .error e => .error e
        | .ok r => .ok (r_, r)) ∧
    df.map_x Rower.log 1 [] [] =
      .ok ((List.range' 0 (df.nrows / 2)).map (row_at df.schema_.get_types rows), []) ∧
    df.map_x Rower.log 2 [] [] =
      .ok ([], (List.range' (df.nrows / 2) (df.nrows - df.nrows / 2)).map
        (row_at df.schema_.get_types rows)) ∧
    (List.range' 0 (df.nrows / 2)).length = df.nrows / 2 ∧
    (List.range' (df.nrows / 2) (df.nrows - df.nrows / 2)).length
      = df.nrows - df.nrows / 2 ∧
    (∀ k, k ∈ List.range' 0 (df.nrows / 2) ↔ k < df.nrows / 2) ∧
    (∀ k, k ∈ List.range' (df.nrows / 2) (df.nrows - df.nrows / 2) ↔
      df.nrows / 2 ≤ k ∧ k < df.nrows) ∧
    List.range' 0 (df.nrows / 2) ++ List.range' (df.nrows / 2) (df.nrows - df.nrows / 2)
      = List.range df.nrows ∧
    (List.range df.nrows).Nodup := by
  refine ⟨(map_x_eq R h r_ r2_).1, (map_x_eq R h r_ r2_).2, ?_, ?_, by simp, by simp, ?_, ?_,
    ?_, List.nodup_range _⟩
  · rw [(map_x_eq Rower.log h [] []).1]
    rw [accept_rows_log]
    rfl
  · rw [(map_x_eq Rower.log h [] []).2]
    rw [accept_rows_log]
    rfl
  · intro k
    rw [List.mem_range'_1]
    omega
  · intro k
    rw [List.mem_range'_1]
    omega
  · have := List.range'_append_1 0 (df.nrows / 2) (df.nrows - df.nrows / 2)
    rw [Nat.zero_add] at this
    rw [this, List.range_eq_range']
    congr 1
    omega

/-- Witness of C26: the table of the schema `"I"` with one row: the worker 1 has no row,
the worker 2 has the row 0. -/
theorem map_x_ranges_witness :
    ∃ df0 df1, DataFrame.ctor Garbage.blank (Schema.ctor Garbage.blank [TAG_I])
        = .ok df0 ∧
      df0.add_row { types_ := (Schema.ctor Garbage.blank [TAG_I]).types_
                    vals_ := [.int 4]
                    idx_ := 0 } = .ok df1 ∧
      df1.map_x Rower.log 2 [] [] =
        .ok ([], (List.range' (df1.nrows / 2) (df1.nrows - df1.nrows / 2)).map
          (row_at df1.schema_.get_types [[.int 4]])) ∧
      List.range' 0 (df1.nrows / 2) ++
        List.range' (df1.nrows / 2) (df1.nrows - df1.nrows / 2) = List.range df1.nrows := by
  have hty : Rep (Schema.ctor Garbage.blank [TAG_I]).types_ [TAG_I] :=
    (reachable_of_appends _ _).rep
  obtain ⟨df0, h1, _, h3⟩ := ctor_table Garbage.blank hty
    (fun t ht => by
      simp only [List.mem_singleton] at ht
      exact Or.inl ht)
  obtain ⟨df1, cols1, h4, _, h6⟩ := add_row_table h3
    (show Row.Of [TAG_I] { types_ := (Schema.ctor Garbage.blank [TAG_I]).types_
                           vals_ := [.int 4]
                           idx_ := 0 } from ⟨hty, rfl⟩)
  obtain ⟨_, _, _, h7, _, _, _, _, h8, _⟩ := map_x_ranges SumRower.rower h6
    SumRower.ctor SumRower.ctor
  exact ⟨df0, df1, h1, h4, h7, h8⟩

/-! ## `SumRower` under `map` and `pmap` -/

theorem wrap32_wrap32 (x : Int) : wrap32 (wrap32 x) = wrap32 x := Int.bmod_bmod

theorem wrap32_add_left (a b : Int) : wrap32 (wrap32 a + b) = wrap32 (a + b) :=
  Int.bmod_add_bmod_congr

theorem wrap32_add_right (a b : Int) : wrap32 (a + wrap32 b) = wrap32 (a + b) :=
  Int.add_bmod_bmod

theorem wrap32_join {a b A B : Int} (ha : wrap32 a = wrap32 A) (hb : wrap32 b = wrap32 B) :
    wrap32 (a + b) = wrap32 (A + B) := by
  rw [← wrap32_add_left, ha, wrap32_add_left, ← wrap32_add_right, hb, wrap32_add_right]

theorem row_int_sum_cons (v : Value) (vs : List Value) :
    row_int_sum (v :: vs) = (match v with
      | .int i => i
      | _ => 0) + row_int_sum vs := by
  simp [row_int_sum]

/-- The calls of `accept` of a `SumFielder` on the values of a row add the integers of the
row to `total_`, with wrap-around. -/
theorem sum_fielder_fold (vals : List Value) :
    ∀ s : SumFielder, ∃ t, vals.foldlM SumFielder.fielder.accept s = .ok { total_ := t } ∧
      wrap32 t = wrap32 (s.total_ + row_int_sum vals) ∧
      (wrap32 s.total_ = s.total_ → wrap32 t = t) := by
  induction vals with
  | nil =>
    intro s
    exact ⟨s.total_, rfl, by simp [row_int_sum], fun hs => hs⟩
  | cons v vs ih =>
    intro s
    rw [List.foldlM_cons, row_int_sum_cons]
    cases v with
    | int i =>
      obtain ⟨t, h1, h2, h3⟩ := ih { total_ := wrap32 (s.total_ + i) }
      refine ⟨t, h1, ?_, fun _ => h3 (wrap32_wrap32 _)⟩
      rw [h2, wrap32_add_left, Int.add_assoc]
    | bool b =>
      obtain ⟨t, h1, h2, h3⟩ := ih s
      exact ⟨t, h1, by rw [h2]; simp, h3⟩
    | float f =>
      obtain ⟨t, h1, h2, h3⟩ := ih s
      exact ⟨t, h1, by rw [h2]; simp, h3⟩
    | string x =>
      obtain ⟨t, h1, h2, h3⟩ := ih s
      exact ⟨t, h1, by rw [h2]; simp, h3⟩

/-- A call of `SumRower::accept` adds the integers of the row to `total_`, with
wrap-around. -/
theorem sum_rower_accept (s : SumRower) (row : Row) :
    ∃ s', SumRower.accept s row = .ok (false, s') ∧
      s'.total_ = wrap32 (s.total_ + row_int_sum row.vals_) := by
  obtain ⟨t, h1, h2, h3⟩ := sum_fielder_fold row.vals_ { total_ := 0 }
  have ht : t = wrap32 (row_int_sum row.vals_) := by
    rw [← h3 rfl, h2]
    simp
  refine ⟨{ sf_ := { total_ := t }, total_ := wrap32 (s.total_ + t) }, ?_, ?_⟩
  · unfold SumRower.accept Row.visit
    simp only [SumFielder.fielder] at h1 ⊢
    rw [h1]
    rfl
  · show wrap32 (s.total_ + t) = _
    rw [ht, wrap32_add_right]

/-- The calls of `SumRower::accept` for the rows of the indices `ks` add the integers of
these rows to `total_`, with wrap-around. -/
theorem sum_accept_rows (types : IntArray) (rows : List (List Value)) (ks : List Nat) :
    ∀ s : SumRower, ∃ s', accept_rows SumRower.rower types rows ks s = .ok s' ∧
      wrap32 s'.total_ =
        wrap32 (s.total_ + (ks.map (fun k => row_int_sum (rows.getD k []))).sum) ∧
      (wrap32 s.total_ = s.total_ → wrap32 s'.total_ = s'.total_) := by
  induction ks with
  | nil =>
    intro s
    exact ⟨s, rfl, by simp, fun hs => hs⟩
  | cons k ks ih =>
    intro s
    obtain ⟨s1, h1, h2⟩ := sum_rower_accept s (row_at types rows k)
    obtain ⟨s', h3, h4, h5⟩ := ih s1
    refine ⟨s', ?_, ?_, fun _ => h5 (by rw [h2, wrap32_wrap32])⟩
    · have hacc : SumRower.rower.accept s (row_at types rows k) = .ok (false, s1) := h1
      rw [accept_rows_cons, hacc]
      exact h3
    · rw [h4, h2, wrap32_add_left, List.map_cons, List.sum_cons, Int.add_assoc]
      rfl

theorem map_range_getD {β : Type} (f : List Value → β) (rows : List (List Value)) :
    (List.range rows.length).map (fun k => f (rows.getD k [])) = rows.map f := by
  apply List.ext_getElem
  · simp
  · intro i h1 h2
    have hi : i < rows.length := by simpa using h2
    simp [List.getD_eq_getElem?_getD, List.getElem?_eq_getElem hi]

/-- The method `map` on a table is the sequence of the calls of `accept` for the rows
`0 .. n - 1`. -/
theorem map_eq {ρ : Type} (R : Rower ρ) {df : DataFrame} {cols : List Column}
    {ts : List Int} {rows : List (List Value)} (h : DataFrame.Table df cols ts rows) (r : ρ) :
    df.map R r = accept_rows R df.schema_.types_ rows (List.range rows.length) r := by
  unfold DataFrame.map
  simp only []
  rw [map_loop_eq, map_x_loop_eq R h (Nat.le_of_eq h.length) df.length_ 0 _ r
    (row_ctor_of h.types (table_tags h)) rfl (by simp), List.range_eq_range', h.length]

/-- C27: on every table, the total of a fresh `SumRower` after `pmap` (the first half of
the rows on the rower, the second half on its clone, then `join_delete`) is the total of a
fresh `SumRower` after `map`, and both are the sum of all integer cells of the table wrapped
to 32 bits. -/
theorem sum_pmap_eq_map {df : DataFrame} {cols : List Column} {ts : List Int}
    {rows : List (List Value)} (h : DataFrame.Table df cols ts rows) :
    ∃ s1 s2, df.map SumRower.rower SumRower.ctor = .ok s1 ∧
      df.pmap SumRower.rower SumRower.ctor = .ok s2 ∧
      s2.get_total = s1.get_total ∧ s1.get_total = wrap32 (table_int_sum rows) := by
  have hn : df.length_ = rows.length := h.length
  have hz : wrap32 SumRower.ctor.total_ = SumRower.ctor.total_ := rfl
  -- `map`
  obtain ⟨s1, h1, h2, h3⟩ := sum_accept_rows df.schema_.types_ rows
    (List.range rows.length) SumRower.ctor
  rw [map_range_getD row_int_sum rows] at h2
  have ht1 : s1.total_ = wrap32 (table_int_sum rows) := by
    rw [← h3 hz, h2]
    show wrap32 (0 + _) = _
    rw [Int.zero_add]
    rfl
  -- `pmap`
  obtain ⟨a, ha1, ha2, _⟩ := sum_accept_rows df.schema_.types_ rows
    (List.range' 0 (df.length_ / 2)) SumRower.ctor
  obtain ⟨b, hb1, hb2, _⟩ := sum_accept_rows df.schema_.types_ rows
    (List.range' (df.length_ / 2) (df.length_ - df.length_ / 2)) SumRower.ctor
  have hsplit : List.range' 0 (df.length_ / 2) ++
      List.range' (df.length_ / 2) (df.length_ - df.length_ / 2) = List.range rows.length := by
    have := List.range'_append_1 0 (df.length_ / 2) (df.length_ - df.length_ / 2)
    rw [Nat.zero_add] at this
    rw [this, List.range_eq_range']
    congr 1
    omega
  have hsum := wrap32_join ha2 hb2
  have hz0 : SumRower.ctor.total_ = 0 := rfl
  rw [hz0, Int.zero_add, Int.zero_add, ← List.sum_append, ← List.map_append, hsplit,
    map_range_getD row_int_sum rows] at hsum
  refine ⟨s1, { a with total_ := wrap32 (a.total_ + b.total_) }, ?_, ?_, ?_, ht1⟩
  · rw [map_eq SumRower.rower h, h1]
  · rw [pmap_eq SumRower.rower h SumRower.ctor SumRower.ctor rfl, ha1]
    simp only []
    rw [hb1]
    rfl
  · show wrap32 (a.total_ + b.total_) = s1.total_
    rw [ht1, hsum]
    rfl

theorem table_int_sum_singletons (l : List Nat) :
    table_int_sum (l.map (fun i : Nat => [Value.int (i : Int)])) =
      (l.map (fun i : Nat => (i : Int))).sum := by
  induction l with
  | nil => rfl
  | cons i l ih =>
    rw [List.map_cons, List.map_cons, List.sum_cons, ← ih]
    simp [table_int_sum, row_int_sum]

theorem gauss_sum (n : Nat) :
    2 * ((List.range n).map (fun i : Nat => (i : Int))).sum = (n : Int) * (n - 1) := by
  induction n with
  | zero => simp
  | succ k ih =>
    rw [List.range_succ, List.map_append, List.sum_append, List.map_cons, List.map_nil,
      List.sum_cons, List.sum_nil]
    generalize ((List.range k).map (fun i : Nat => (i : Int))).sum = S at ih ⊢
    push_cast
    linear_combination ih

/-- The sum of the integer cells of the rows `[0], [1], .., [n - 1]`. -/
theorem int_rows_sum (types : IntArray) (n : Nat) :
    2 * table_int_sum ([] ++ ((List.range n).map (fun i : Nat =>
      ({ types_ := types, vals_ := [.int (i : Int)], idx_ := 0 } : Row))).map
        (fun r => r.vals_)) = (n : Int) * (n - 1) := by
  rw [List.nil_append, List.map_map, ← gauss_sum n, ← table_int_sum_singletons]
  rfl

/-- Witness of C27: the table of the schema `"I"` with the 10000 rows `0, 1, .., 9999`:
both totals are 49995000. -/
theorem sum_pmap_eq_map_witness :
    ∃ df0 df s1 s2, DataFrame.ctor Garbage.blank (Schema.ctor Garbage.blank [TAG_I])
        = .ok df0 ∧
      ((List.range 10000).map (fun i : Nat =>
        ({ types_ := (Schema.ctor Garbage.blank [TAG_I]).types_
           vals_ := [.int (i : Int)]
           idx_ := 0 } : Row))).foldlM DataFrame.add_row df0 = .ok df ∧
      df.map SumRower.rower SumRower.ctor = .ok s1 ∧
      df.pmap SumRower.rower SumRower.ctor = .ok s2 ∧
      s1.get_total = 49995000 ∧ s2.get_total = 49995000 := by
  have hty : Rep (Schema.ctor Garbage.blank [TAG_I]).types_ [TAG_I] :=
    (reachable_of_appends _ _).rep
  obtain ⟨df0, h1, _, h3⟩ := ctor_table Garbage.blank hty
    (fun t ht => by
      simp only [List.mem_singleton] at ht
      exact Or.inl ht)
  obtain ⟨df, cols, h4, _, h6⟩ := add_rows_table [TAG_I] ((List.range 10000).map (fun i : Nat =>
      ({ types_ := (Schema.ctor Garbage.blank [TAG_I]).types_
         vals_ := [.int (i : Int)]
         idx_ := 0 } : Row))) df0 _ [] h3
    (by
      intro r hr
      obtain ⟨i, _, hi⟩ := List.mem_map.mp hr
      subst hi
      exact ⟨hty, rfl⟩)
  obtain ⟨s1, s2, h7, h8, h9, h10⟩ := sum_pmap_eq_map h6
  have hsum := int_rows_sum (Schema.ctor Garbage.blank [TAG_I]).types_ 10000
  have ht : s1.get_total = 49995000 := by
    rw [h10]
    generalize table_int_sum _ = T at hsum ⊢
    have hT : T = 49995000 := by
      push_cast at hsum
      omega
    rw [hT]
    decide
  exact ⟨df0, df, s1, s2, h1, h4, h7, h8, ht, by rw [h9, ht]⟩

/-! ## The growth of the outer array and of the number of blocks -/

/-- The fields `size_`, `outer_capacity_` and `array_count_` after `append`. -/
theorem append_fields {α : Type} (a : ChunkedArray α) (val : α) :
    (a.append val).size_ = a.size_ + 1 ∧
    (a.append val).outer_capacity_ =
      (if a.size_ + 1 > a.outer_capacity_ * INNER_CAPACITY then
        a.outer_capacity_ + INITIAL_OUTER_CAPACITY else a.outer_capacity_) ∧
    (a.append val).array_count_ =
      (if a.size_ + 1 > a.array_count_ * INNER_CAPACITY then a.array_count_ + 1
        else a.array_count_) := by
  unfold ChunkedArray.append
  simp only []
  split <;> split <;> simp_all [ChunkedArray.reallocate_]
  split <;> omega

/-- A run of `append` calls from a state with `n` elements, `max 1 ⌈n / 8⌉` blocks and an
outer array of `16 * max 1 ⌈n / 128⌉` slots leaves a state of that kind. -/
theorem growth_foldl {α : Type} (vs : List α) :
    ∀ (a : ChunkedArray α) (n : Nat), a.size_ = n →
      a.array_count_ = max 1 ((n + 7) / 8) →
      a.outer_capacity_ = 16 * max 1 ((n + 127) / 128) →
      (vs.foldl ChunkedArray.append a).size_ = n + vs.length ∧
      (vs.foldl ChunkedArray.append a).array_count_ = max 1 ((n + vs.length + 7) / 8) ∧
      (vs.foldl ChunkedArray.append a).outer_capacity_ =
        16 * max 1 ((n + vs.length + 127) / 128) := by
  induction vs with
  | nil =>
    intro a n h1 h2 h3
    exact ⟨h1, h2, h3⟩
  | cons v vs ih =>
    intro a n h1 h2 h3
    obtain ⟨k1, k2, k3⟩ := append_fields a v
    have := ih (a.append v) (n + 1) (by rw [k1, h1])
      (by
        rw [k3]
        simp only [INNER_CAPACITY]
        split <;> omega)
      (by
        rw [k2]
        simp only [INNER_CAPACITY, INITIAL_OUTER_CAPACITY]
        split <;> omega)
    simp only [List.foldl_cons, List.length_cons]
    have e : n + 1 + vs.length = n + (vs.length + 1) := by omega
    rw [e] at this
    exact this

/-- C31: after `N` appends to a freshly constructed container, `array_count_` is
`max(1, ⌈N / 8⌉)` and `outer_capacity_` is `16 * max(1, ⌈N / 128⌉)` (the ceilings written
`(N + 7) / 8` and `(N + 127) / 128`); the next `append` raises `outer_capacity_` exactly
when `size_ == outer_capacity_ * 8`, by 16, and leaves it as it is otherwise, and it
allocates a new inner block, `array_count_` growing by one, exactly when
`size_ == array_count_ * 8`. -/
theorem growth_policy {α : Type} (fresh : Nat → Nat → α) (vs : List α) (v : α) :
    (vs.foldl ChunkedArray.append (ChunkedArray.ctor fresh)).size_ = vs.length ∧
    (vs.foldl ChunkedArray.append (ChunkedArray.ctor fresh)).array_count_
      = max 1 ((vs.length + 7) / 8) ∧
    (vs.foldl ChunkedArray.append (ChunkedArray.ctor fresh)).outer_capacity_
      = 16 * max 1 ((vs.length + 127) / 128) ∧
    ((vs.foldl ChunkedArray.append (ChunkedArray.ctor fresh)).append v).outer_capacity_ =
      (if (vs.foldl ChunkedArray.append (ChunkedArray.ctor fresh)).size_ =
          (vs.foldl ChunkedArray.append (ChunkedArray.ctor fresh)).outer_capacity_ * 8
        then (vs.foldl ChunkedArray.append (ChunkedArray.ctor fresh)).outer_capacity_ + 16
        else (vs.foldl ChunkedArray.append (ChunkedArray.ctor fresh)).outer_capacity_) ∧
    ((vs.foldl ChunkedArray.append (ChunkedArray.ctor fresh)).append v).array_count_ =
      (if (vs.foldl ChunkedArray.append (ChunkedArray.ctor fresh)).size_ =
          (vs.foldl ChunkedArray.append (ChunkedArray.ctor fresh)).array_count_ * 8
        then (vs.foldl ChunkedArray.append (ChunkedArray.ctor fresh)).array_count_ + 1
        else (vs.foldl ChunkedArray.append (ChunkedArray.ctor fresh)).array_count_) := by
  obtain ⟨h1, h2, h3⟩ := growth_foldl vs (ChunkedArray.ctor fresh) 0 rfl rfl rfl
  rw [Nat.zero_add] at h1 h2 h3
  obtain ⟨_, k2, k3⟩ := append_fields (vs.foldl ChunkedArray.append (ChunkedArray.ctor fresh)) v
  refine ⟨h1, h2, h3, ?_, ?_⟩
  · rw [k2]
    generalize vs.foldl ChunkedArray.append (ChunkedArray.ctor fresh) = a at h1 h2 h3
    simp only [INNER_CAPACITY, INITIAL_OUTER_CAPACITY]
    split <;> split <;> omega
  · rw [k3]
    generalize vs.foldl ChunkedArray.append (ChunkedArray.ctor fresh) = a at h1 h2 h3
    simp only [INNER_CAPACITY]
    split <;> split <;> omega

/-! ## `index_of` of the primitive classes on full blocks -/

/-- The inner loop of the primitive `index_of` on a full block `i` from offset `j`, when
none of the elements from there to the end of the block is `val`. -/
theorem prim_index_of_inner_pass {α : Type} [DecidableEq α] {a : ChunkedArray α}
    {l : List α} (h : Rep a l) (val : α) (i count : Nat) (hcount : count < a.size_)
    (hfull : (i + 1) * INNER_CAPACITY ≤ l.length) (left : Nat) :
    ∀ j, j + left = INNER_CAPACITY →
      (∀ q, i * INNER_CAPACITY + j ≤ q → q < (i + 1) * INNER_CAPACITY → l[q]? ≠ some val) →
      a.index_of_inner val i count left j = .ok (.next count) := by
  induction left with
  | zero => intro j _ _; rfl
  | succ n ih =>
    intro j hj hno
    have hj8 : j < INNER_CAPACITY := by omega
    have hlt : i * INNER_CAPACITY + j < l.length := by
      simp only [INNER_CAPACITY] at *
      omega
    unfold ChunkedArray.index_of_inner
    rw [if_pos ⟨hj8, hcount⟩, load_elem h hj8 rfl hlt]
    simp only []
    have hne : ¬ l.get ⟨i * INNER_CAPACITY + j, hlt⟩ = val := by
      intro he
      apply hno (i * INNER_CAPACITY + j) (Nat.le_refl _)
        (by simp only [INNER_CAPACITY] at *; omega)
      rw [List.getElem?_eq_getElem hlt]
      exact congrArg some he
    rw [if_neg hne]
    exact ih (j + 1) (by omega) (fun q hq1 hq2 => hno q (by omega) hq2)

/-- The inner loop of the primitive `index_of` on the block `i` that holds the first
occurrence of `val`, at index `p`. -/
theorem prim_index_of_inner_hit {α : Type} [DecidableEq α] {a : ChunkedArray α}
    {l : List α} (h : Rep a l) (val : α) (i count : Nat) (hcount : count < a.size_)
    {p : Nat} (hp : l[p]? = some val) (hpi : p < (i + 1) * INNER_CAPACITY) (left : Nat) :
    ∀ j, j + left = INNER_CAPACITY → i * INNER_CAPACITY + j ≤ p →
      (∀ q, i * INNER_CAPACITY + j ≤ q → q < p → l[q]? ≠ some val) →
      a.index_of_inner val i count left j = .ok (.ret count) := by
  have hpl : p < l.length := by
    by_contra hc
    rw [List.getElem?_eq_none (by omega)] at hp
    cases hp
  induction left with
  | zero =>
    intro j hj hle _
    simp only [INNER_CAPACITY] at *
    omega
  | succ n ih =>
    intro j hj hle hno
    have hj8 : j < INNER_CAPACITY := by omega
    have hlt : i * INNER_CAPACITY + j < l.length := by omega
    unfold ChunkedArray.index_of_inner
    rw [if_pos ⟨hj8, hcount⟩, load_elem h hj8 rfl hlt]
    simp only []
    by_cases hjp : i * INNER_CAPACITY + j = p
    · have he : l.get ⟨i * INNER_CAPACITY + j, hlt⟩ = val := by
        have h1 : l[i * INNER_CAPACITY + j]? = some val := by rw [hjp]; exact hp
        rw [List.getElem?_eq_getElem hlt] at h1
        exact Option.some.inj h1
      rw [if_pos he]
    · have hne : ¬ l.get ⟨i * INNER_CAPACITY + j, hlt⟩ = val := by
        intro he
        apply hno (i * INNER_CAPACITY + j) (Nat.le_refl _) (by omega)
        rw [List.getElem?_eq_getElem hlt]
        exact congrArg some he
      rw [if_neg hne]
      exact ih (j + 1) (by omega) (by omega) (fun q hq1 hq2 => hno q (by omega) hq2)

/-- The outer loop of the primitive `index_of` on full blocks when `val` is first at index
`p`: the result is the number of blocks passed, `p / 8`. -/
theorem prim_index_of_outer_hit {α : Type} [DecidableEq α] {a : ChunkedArray α}
    {l : List α} (h : Rep a l) (hcnt : a.array_count_ * INNER_CAPACITY = l.length) (val : α)
    {p : Nat} (hp : l[p]? = some val) (hfirst : ∀ q, q < p → l[q]? ≠ some val)
    (left : Nat) :
    ∀ i, i + left = a.array_count_ → i ≤ p / INNER_CAPACITY →
      a.index_of_outer val left i i = .ok (p / INNER_CAPACITY) := by
  have hpl : p < l.length := by
    by_contra hc
    rw [List.getElem?_eq_none (by omega)] at hp
    cases hp
  have hsz := h.size_eq
  induction left with
  | zero =>
    intro i hi hle
    simp only [INNER_CAPACITY] at *
    omega
  | succ n ih =>
    intro i hi hle
    have hi1 : i < a.array_count_ := by omega
    have hi2 : i < a.size_ := by
      simp only [INNER_CAPACITY] at *
      omega
    unfold ChunkedArray.index_of_outer
    rw [if_pos ⟨hi1, hi2⟩]
    by_cases hip : i = p / INNER_CAPACITY
    · rw [prim_index_of_inner_hit h val i i hi2 hp
        (by simp only [INNER_CAPACITY] at *; omega) INNER_CAPACITY 0 (by simp)
        (by simp only [INNER_CAPACITY] at *; omega)
        (fun q _ hq2 => hfirst q hq2)]
      simp only []
      rw [hip]
    · rw [prim_index_of_inner_pass h val i i hi2
        (by simp only [INNER_CAPACITY] at *; omega) INNER_CAPACITY 0 (by simp)
        (fun q _ hq2 => hfirst q (by simp only [INNER_CAPACITY] at *; omega))]
      simp only []
      exact ih (i + 1) (by omega) (by omega)

/-- The outer loop of the primitive `index_of` on full blocks that do not hold `val`. -/
theorem prim_index_of_outer_miss {α : Type} [DecidableEq α] {a : ChunkedArray α}
    {l : List α} (h : Rep a l) (hcnt : a.array_count_ * INNER_CAPACITY = l.length) (val : α)
    (hno : ∀ q : Nat, l[q]? ≠ some val) (left : Nat) :
    ∀ i, i + left = a.array_count_ → a.index_of_outer val left i i = .ok SIZE_MAX := by
  have hsz := h.size_eq
  induction left with
  | zero => intro i _; rfl
  | succ n ih =>
    intro i hi
    have hi1 : i < a.array_count_ := by omega
    have hi2 : i < a.size_ := by
      simp only [INNER_CAPACITY] at *
      omega
    unfold ChunkedArray.index_of_outer
    rw [if_pos ⟨hi1, hi2⟩, prim_index_of_inner_pass h val i i hi2
      (by simp only [INNER_CAPACITY] at *; omega) INNER_CAPACITY 0 (by simp)
      (fun q _ _ => hno q)]
    simp only []
    exact ih (i + 1) (by omega)

/-- C36: on an array built by appending `8 * m` values, `m ≥ 1`, to a fresh array (all inner
blocks full), `index_of(v)` returns `p / 8` when `p` is the least index that holds `v`, the
index of the first inner block that holds `v`, which is `p` itself only when `p` is 0, and
returns `(size_t)-1` when `v` is not stored. -/
theorem index_of_full_blocks {α : Type} [DecidableEq α] (fresh : Nat → Nat → α)
    (vs : List α) (m : Nat) (hm : 1 ≤ m) (hlen : vs.length = 8 * m) (v : α) :
    (∀ p, vs[p]? = some v → (∀ q, q < p → vs[q]? ≠ some v) →
      (vs.foldl ChunkedArray.append (ChunkedArray.ctor fresh)).index_of v = .ok (p / 8) ∧
      (vs.foldl ChunkedArray.append (ChunkedArray.ctor fresh)).get p = .ok v ∧
      (p / 8 = p ↔ p = 0)) ∧
    (v ∉ vs →
      (vs.foldl ChunkedArray.append (ChunkedArray.ctor fresh)).index_of v = .ok SIZE_MAX) := by
  have hrep := (reachable_of_appends fresh vs).rep
  obtain ⟨_, h2, _⟩ := growth_foldl vs (ChunkedArray.ctor fresh) 0 rfl rfl rfl
  have hcnt : (vs.foldl ChunkedArray.append (ChunkedArray.ctor fresh)).array_count_ *
      INNER_CAPACITY = vs.length := by
    rw [h2]
    simp only [INNER_CAPACITY]
    omega
  constructor
  · intro p hp hfirst
    refine ⟨?_, ?_, by omega⟩
    · unfold ChunkedArray.index_of
      exact prim_index_of_outer_hit hrep hcnt v hp hfirst _ 0 (by simp) (Nat.zero_le _)
    · rw [rep_get hrep, hp]
  · intro hv
    unfold ChunkedArray.index_of
    apply prim_index_of_outer_miss hrep hcnt v _ _ 0 (by simp)
    intro q hq
    exact hv (List.getElem?_mem hq)

/-- Witness of C36: sixteen values in two full blocks; 9 is first at index 8, in block 1. -/
theorem index_of_full_blocks_witness :
    (([1, 2, 3, 4, 5, 6, 7, 8, 9, 9, 9, 9, 9, 9, 9, 9] : List Int).foldl ChunkedArray.append
      (ChunkedArray.ctor (fun _ _ => (0 : Int)))).index_of 9 = .ok (8 / 8) :=
  ((index_of_full_blocks (fun _ _ => (0 : Int))
    [1, 2, 3, 4, 5, 6, 7, 8, 9, 9, 9, 9, 9, 9, 9, 9] 2 (by decide) rfl 9).1 8 rfl
    (by decide)).1

/-! ## `equals` of the primitive classes on arrays of different sizes -/

/-- The inner loop of `equals` on a block whose elements the argument holds too. -/
theorem equals_inner_agree {α : Type} [DecidableEq α] {a b : ChunkedArray α}
    {la lb : List α} (ha : Rep a la) (hb : Rep b lb) {p : Nat} (hpl : p ≤ la.length)
    (hagree : ∀ q, q < p → lb[q]? = la[q]?) (i : Nat) (left : Nat) :
    ∀ j count, j + left = INNER_CAPACITY → count = i * INNER_CAPACITY + j →
      count + left ≤ p →
      a.equals_inner b i left j count = .ok (.next (count + left)) := by
  induction left with
  | zero => intro j count _ _ _; rfl
  | succ n ih =>
    intro j count hj hc hle
    have hj8 : j < INNER_CAPACITY := by omega
    have hl : count < la.length := by omega
    have hlt : count < a.size_ := by rw [ha.size_eq]; exact hl
    have hbget : b.get count = .ok (la.get ⟨count, hl⟩) := by
      rw [rep_get hb, hagree count (by omega), List.getElem?_eq_getElem hl]
      rfl
    unfold ChunkedArray.equals_inner
    rw [if_pos ⟨hj8, hlt⟩]
    simp only []
    rw [load_elem ha hj8 hc hl, hbget]
    simp only [not_true_eq_false, if_false]
    rw [ih (j + 1) (count + 1) (by omega) (by omega) (by omega)]
    congr 2
    omega

/-- The inner loop of `equals` on the block of the first index `p` at which the argument
does not hold the element of the receiver: the bounds assertion of `get` fails when the
argument has no element of index `p`, and the result is `false` otherwise. -/
theorem equals_inner_stop {α : Type} [DecidableEq α] {a b : ChunkedArray α}
    {la lb : List α} (ha : Rep a la) (hb : Rep b lb) {p : Nat} (hpl : p < la.length)
    (hagree : ∀ q, q < p → lb[q]? = la[q]?) (hdiff : lb[p]? ≠ la[p]?) (i : Nat)
    (hpi : p < (i + 1) * INNER_CAPACITY) (left : Nat) :
    ∀ j count, j + left = INNER_CAPACITY → count = i * INNER_CAPACITY + j → count ≤ p →
      a.equals_inner b i left j count =
        (match lb[p]? with
          | none => .error .assertion
          | some _ => .ok (.ret false)) := by
  induction left with
  | zero =>
    intro j count hj hc hle
    simp only [INNER_CAPACITY] at *
    omega
  | succ n ih =>
    intro j count hj hc hle
    have hj8 : j < INNER_CAPACITY := by omega
    have hl : count < la.length := by omega
    have hlt : count < a.size_ := by rw [ha.size_eq]; exact hl
    unfold ChunkedArray.equals_inner
    rw [if_pos ⟨hj8, hlt⟩]
    simp only []
    rw [load_elem ha hj8 hc hl, rep_get hb]
    by_cases hcp : count = p
    · subst hcp
      cases hy : lb[count]? with
      | none => rfl
      | some y =>
        have hne : ¬ la.get ⟨count, hl⟩ = y := by
          intro he
          apply hdiff
          rw [hy, List.getElem?_eq_getElem hl]
          exact congrArg some he.symm
        simp only [hne, not_false_eq_true, if_true]
    · rw [hagree count (by omega), List.getElem?_eq_getElem hl]
      simp only [List.get_eq_getElem, not_true_eq_false, if_false]
      exact ih (j + 1) (count + 1) (by omega) (by omega) (by omega)

/-- The outer loop of `equals` when `p` is the first index at which the argument does not
hold the element of the receiver. -/
theorem equals_outer_stop {α : Type} [DecidableEq α] {a b : ChunkedArray α}
    {la lb : List α} (ha : Rep a la) (hb : Rep b lb) {p : Nat} (hpl : p < la.length)
    (hagree : ∀ q, q < p → lb[q]? = la[q]?) (hdiff : lb[p]? ≠ la[p]?) (left : Nat) :
    ∀ i count, i + left = a.array_count_ → count = i * INNER_CAPACITY → count ≤ p →
      a.equals_outer b left i count =
        (match lb[p]? with
          | none => .error .assertion
          | some _ => .ok false) := by
  have hsz := ha.size_eq
  have hsl := ha.size_le
  induction left with
  | zero =>
    intro i count hi hc hle
    simp only [INNER_CAPACITY] at *
    omega
  | succ n ih =>
    intro i count hi hc hle
    have hlt : count < a.size_ := by omega
    unfold ChunkedArray.equals_outer
    rw [if_pos ⟨by omega, hlt⟩]
    by_cases hpi : p < (i + 1) * INNER_CAPACITY
    · rw [equals_inner_stop ha hb hpl hagree hdiff i hpi INNER_CAPACITY 0 count (by simp)
        (by omega) hle]
      cases lb[p]? <;> rfl
    · rw [equals_inner_agree ha hb (Nat.le_of_lt hpl) hagree i INNER_CAPACITY 0 count
        (by simp) (by omega) (by simp only [INNER_CAPACITY] at *; omega)]
      simp only []
      exact ih (i + 1) (count + INNER_CAPACITY) (by omega)
        (by simp only [INNER_CAPACITY] at *; omega)
        (by simp only [INNER_CAPACITY] at *; omega)

/-- The method `equals` when `p` is the first index at which the argument does not hold the
element of the receiver. -/
theorem equals_of_first_diff {α : Type} [DecidableEq α] {a b : ChunkedArray α}
    {la lb : List α} (ha : Rep a la) (hb : Rep b lb) {p : Nat} (hpl : p < la.length)
    (hagree : ∀ q, q < p → lb[q]? = la[q]?) (hdiff : lb[p]? ≠ la[p]?) :
    a.equals b = (match lb[p]? with
      | none => .error .assertion
      | some _ => .ok false) := by
  unfold ChunkedArray.equals
  have h0 : ¬ a.size_ = 0 := by rw [ha.size_eq]; omega
  rw [if_neg h0]
  exact equals_outer_stop ha hb hpl hagree hdiff a.array_count_ 0 0 (by simp) (by simp)
    (Nat.zero_le _)

/-- C37: for arrays `a`, `b` of a primitive class with `1 <= a.size() <= b.size()`,
`a.equals(b)` returns, and returns `true` exactly when `a.get(i) == b.get(i)` for every
`i < a.size()`, whatever `b` holds from `a.size()` on; when `a.size() > b.size()` and the
first `b.size()` elements agree, `a.equals(b)` fails the bounds assertion of
`b.get(b.size())`. -/
theorem equals_prefix_semantics {α : Type} [DecidableEq α] {a b : ChunkedArray α}
    {la lb : List α} (ha : Rep a la) (hb : Rep b lb) :
    (1 ≤ a.size → a.size ≤ b.size →
      ∃ r, a.equals b = .ok r ∧ (r = true ↔ ∀ i, i < a.size → a.get i = b.get i)) ∧
    (b.size < a.size → (∀ i, i < b.size → a.get i = b.get i) →
      a.equals b = .error .assertion ∧ b.get b.size = .error .assertion) := by
  have hsa : a.size = la.length := ha.size_eq
  have hsb : b.size = lb.length := hb.size_eq
  have hget : ∀ i, i < la.length → i < lb.length →
      (a.get i = b.get i ↔ lb[i]? = la[i]?) := by
    intro i h1 h2
    rw [rep_get ha, rep_get hb, List.getElem?_eq_getElem h1, List.getElem?_eq_getElem h2]
    constructor
    · intro h
      injection h with h
      rw [h]
    · intro h
      injection h with h
      rw [h]
  constructor
  · intro h1 h2
    rw [hsa] at h1
    rw [hsa, hsb] at h2
    by_cases hall : ∀ i, i < la.length → lb[i]? = la[i]?
    · have hpre : la <+: lb := by
        have : la = lb.take la.length := by
          apply List.ext_getElem?
          intro i
          by_cases hi : i < la.length
          · rw [List.getElem?_take_of_lt hi, hall i hi]
          · rw [List.getElem?_eq_none (by omega), List.getElem?_eq_none (by simp; omega)]
        rw [this]
        exact List.take_prefix _ _
      refine ⟨true, equals_of_prefix ha hb hpre ?_, ?_⟩
      · intro hnil
        rw [hnil] at h1
        simp at h1
      · refine ⟨fun _ i hi => ?_, fun _ => rfl⟩
        rw [hsa] at hi
        exact (hget i hi (by omega)).2 (hall i hi)
    · have hex : ∃ i, i < la.length ∧ lb[i]? ≠ la[i]? := by
        by_contra hc
        apply hall
        intro i hi
        by_contra hne
        exact hc ⟨i, hi, hne⟩
      classical
      have hp := Nat.find_spec hex
      have hmin : ∀ q, q < Nat.find hex → lb[q]? = la[q]? := by
        intro q hq
        by_contra hne
        exact Nat.find_min hex hq ⟨by omega, hne⟩
      have heq := equals_of_first_diff ha hb hp.1 hmin hp.2
      rw [List.getElem?_eq_getElem (show Nat.find hex < lb.length by omega)] at heq
      refine ⟨false, heq, ?_⟩
      constructor
      · intro h
        cases h
      · intro h
        exact absurd ((hget _ hp.1 (by omega)).1 (h _ (by rw [hsa]; exact hp.1))) hp.2
  · intro h1 h2
    rw [hsa, hsb] at h1
    have hagree : ∀ q, q < lb.length → lb[q]? = la[q]? := by
      intro q hq
      exact (hget q (by omega) hq).1 (h2 q (by rw [hsb]; exact hq))
    have hdiff : lb[lb.length]? ≠ la[lb.length]? := by
      rw [List.getElem?_eq_none (Nat.le_refl _), List.getElem?_eq_getElem h1]
      intro h
      cases h
    have heq := equals_of_first_diff ha hb h1 hagree hdiff
    rw [List.getElem?_eq_none (Nat.le_refl _)] at heq
    refine ⟨heq, ?_⟩
    rw [rep_get hb, hsb, List.getElem?_eq_none (Nat.le_refl _)]

/-- Witness of C37: `a` holds 1, 2 and `b` holds 1, 2, 3. -/
theorem equals_prefix_semantics_witness :
    ∃ r, (([1, 2] : List Int).foldl ChunkedArray.append
        (ChunkedArray.ctor (fun _ _ => (0 : Int)))).equals
      (([1, 2, 3] : List Int).foldl ChunkedArray.append
        (ChunkedArray.ctor (fun _ _ => (0 : Int)))) = .ok r ∧
      (r = true ↔ ∀ i, i < (([1, 2] : List Int).foldl ChunkedArray.append
          (ChunkedArray.ctor (fun _ _ => (0 : Int)))).size →
        (([1, 2] : List Int).foldl ChunkedArray.append
          (ChunkedArray.ctor (fun _ _ => (0 : Int)))).get i =
        (([1, 2, 3] : List Int).foldl ChunkedArray.append
          (ChunkedArray.ctor (fun _ _ => (0 : Int)))).get i) :=
  (equals_prefix_semantics (reachable_of_appends _ [1, 2]).rep
    (reachable_of_appends _ [1, 2, 3]).rep).1 (by decide) (by decide)

/-! ## Accesses out of the bounds of the table -/

/-- C32, counterexample: on the table of the schema `"B"` with no rows, whose column has
size `nrows()`, the call `get_int(0, 0)` has `r >= nrows()`; it does not fail the bounds
assertion but ends in `exit_if_not` with the wrong-type message, the type of the column
being tested before the row index is used. -/
theorem get_int_type_test_first :
    ∃ df c, DataFrame.ctor Garbage.blank (Schema.ctor Garbage.blank [TAG_B]) = .ok df ∧
      df.columns_.get 0 = .ok (some c) ∧ c.size = df.nrows ∧ df.nrows ≤ 0 ∧
      df.get_int 0 0 = .error (.exit "Column index corresponds to the wrong type.") ∧
      df.get_int 0 0 ≠ .error .assertion :=
  ⟨_, _, rfl, rfl, rfl, Nat.le_refl _, rfl, by
    intro h
    injection h with h
    cases h⟩

/-- The typed read of a column at an index that is not below its size fails the bounds
assertion. -/
theorem column_get_out_of_bounds {c : Column} {l : List Value} (h : c.Holds l) {r : Nat}
    (hr : l.length ≤ r) : c.get r = .error .assertion := by
  rw [Column.holds_get h, List.getElem?_eq_none hr]

theorem fill_row_switch_out_of_bounds {c : Column} {l : List Value} (h : c.Holds l)
    {idx : Nat} (hr : l.length ≤ idx) (row : Row) (j : Nat) :
    DataFrame.fill_row_switch idx row j c c.get_type = .error .assertion := by
  cases c <;> obtain ⟨li, hrep, hl⟩ := h <;> subst hl <;>
    (have hlen : li.length ≤ idx := by simpa using hr
     have hget := rep_get hrep idx
     rw [List.getElem?_eq_none hlen] at hget
     simp [DataFrame.fill_row_switch, Column.get_type, Column.as_int, Column.as_bool,
       Column.as_float, Column.as_string, hget, TAG_I, TAG_B, TAG_F, TAG_S])

/-- C32, amended: on a table whose columns all have size `nrows()`, a typed
`get_int/get_bool/get_float/get_string(c, r)` fails whenever `c >= ncols()` or
`r >= nrows()`: with the bounds assertion when `c >= ncols()`, and when `c < ncols()`,
column `c` has the type of the method and `r >= nrows()`; with the wrong-type message when
`c < ncols()` and column `c` has another type; `fill_row(r, row)` with a row of the schema
fails the bounds assertion, the row as it was, whenever `r >= nrows()` and
`ncols() >= 1`. -/
theorem bounds_failures {df : DataFrame} {cols : List Column} {ts : List Int}
    (h : df.Holds cols ts) (hs : ∀ c, c ∈ cols → c.size = df.nrows) (c r : Nat) :
    (∀ tag, IsTag tag →
      (df.ncols ≤ c → df.get_typed tag c r = .error .assertion) ∧
      (c < df.ncols → ∃ column, df.columns_.get c = .ok (some column) ∧
        (column.get_type ≠ tag → df.get_typed tag c r =
          .error (.exit "Column index corresponds to the wrong type.")) ∧
        (column.get_type = tag → df.nrows ≤ r →
          df.get_typed tag c r = .error .assertion)) ∧
      (df.ncols ≤ c ∨ df.nrows ≤ r → ∃ e, df.get_typed tag c r = .error e)) ∧
    df.get_int c r = df.get_typed TAG_I c r ∧ df.get_bool c r = df.get_typed TAG_B c r ∧
    df.get_float c r = df.get_typed TAG_F c r ∧
    df.get_string c r = df.get_typed TAG_S c r ∧
    (∀ row, Row.Of ts row → df.nrows ≤ r → 1 ≤ df.ncols →
      df.fill_row r row = .error (.assertion, row)) := by
  have hn : df.ncols = cols.length := columns_size h.columns
  have hcase1 : ∀ tag, df.ncols ≤ c → df.get_typed tag c r = .error .assertion := by
    intro tag hc
    unfold DataFrame.get_typed
    rw [rep_get h.columns, List.getElem?_eq_none (by simpa [hn] using hc)]
  have hcase2 : ∀ tag, IsTag tag → c < df.ncols →
      ∃ column, df.columns_.get c = .ok (some column) ∧
        (column.get_type ≠ tag → df.get_typed tag c r =
          .error (.exit "Column index corresponds to the wrong type.")) ∧
        (column.get_type = tag → df.nrows ≤ r →
          df.get_typed tag c r = .error .assertion) := by
    intro tag htag hc
    have hc2 : c < cols.length := by rw [← hn]; exact hc
    have hget := columns_get h.columns hc2
    obtain ⟨l, hl, hlen⟩ := holds_sized h hs _ (List.get_mem cols c hc2)
    obtain ⟨k1, k2⟩ := get_typed_of_column hget hl r htag
    refine ⟨_, hget, k1, fun ht hr => ?_⟩
    rw [k2 ht]
    exact column_get_out_of_bounds hl (by rw [hlen]; exact hr)
  refine ⟨fun tag htag => ⟨hcase1 tag, hcase2 tag htag, ?_⟩, rfl, rfl, rfl, rfl, ?_⟩
  · intro hor
    by_cases hc : c < df.ncols
    · obtain ⟨column, _, k1, k2⟩ := hcase2 tag htag hc
      have hr : df.nrows ≤ r := by
        rcases hor with h1 | h1
        · omega
        · exact h1
      by_cases ht : column.get_type = tag
      · exact ⟨_, k2 ht hr⟩
      · exact ⟨_, k1 ht⟩
    · exact ⟨_, hcase1 tag (by omega)⟩
  · intro row hrow hr hc
    have heq : df.schema_.get_types.equals row.get_types = .ok true :=
      equals_of_same h.types hrow.1
    have hc2 : 0 < cols.length := by rw [← hn]; exact hc
    have hget := columns_get h.columns hc2
    obtain ⟨l, hl, hlen⟩ := holds_sized h hs _ (List.get_mem cols 0 hc2)
    have hsw := fill_row_switch_out_of_bounds hl (show l.length ≤ r by rw [hlen]; exact hr)
      row 0
    have hnc : df.ncols = (df.ncols - 1) + 1 := by omega
    unfold DataFrame.fill_row
    rw [heq]
    simp only []
    rw [hnc]
    unfold DataFrame.fill_row_loop
    rw [if_pos (by omega), hget]
    simp only []
    rw [hsw]

/-- Witness of C32, amended: the table of the schema `"I"` with no rows, read at column 0,
row 0. -/
theorem bounds_failures_witness :
    ∃ df, DataFrame.ctor Garbage.blank (Schema.ctor Garbage.blank [TAG_I]) = .ok df ∧
      df.get_typed TAG_I 1 0 = .error .assertion ∧
      df.fill_row 0 (Row.ctor (Schema.ctor Garbage.blank [TAG_I])) =
        .error (.assertion, Row.ctor (Schema.ctor Garbage.blank [TAG_I])) := by
  have hty : Rep (Schema.ctor Garbage.blank [TAG_I]).types_ [TAG_I] :=
    (reachable_of_appends _ _).rep
  have htags : ∀ t, t ∈ [TAG_I] → IsTag t := fun t ht => by
    simp only [List.mem_singleton] at ht
    exact Or.inl ht
  obtain ⟨df, h1, _, h3⟩ := ctor_table Garbage.blank hty htags
  have hn : df.ncols = 1 := (table_column h3).1
  have hr : df.nrows = 0 := h3.length
  obtain ⟨k1, _, _, _, _, k2⟩ := bounds_failures (table_holds h3).1
    (table_holds h3).2 1 0
  obtain ⟨_, _, _, _, _, k3⟩ := @bounds_failures df _ _ (table_holds h3).1
    (table_holds h3).2 0 0
  exact ⟨df, h1, (k1 TAG_I (Or.inl rfl)).1 (by rw [hn]),
    k3 _ (row_ctor_of hty htags) (by rw [hr]) (by rw [hn])⟩

/-! ## The rows of a copy -/

/-- C34: evaluation of the copy constructor on the table of the schema `"I"` with the one
row 4: the copy has `nrows()` 1, not 0, and its column 0 holds the value 4 at index 0; its
schema has no row names. -/
theorem copy_keeps_rows :
    ∃ df0 df1 df c,
      DataFrame.ctor Garbage.blank (Schema.ctor Garbage.blank [TAG_I]) = .ok df0 ∧
      df0.add_row { types_ := (Schema.ctor Garbage.blank [TAG_I]).types_
                    vals_ := [.int 4]
                    idx_ := 0 } = .ok df1 ∧
      df1.nrows = 1 ∧ DataFrame.copy Garbage.blank df1 = .ok df ∧ df.nrows = 1 ∧
      df.columns_.get 0 = .ok (some c) ∧ c.size = 1 ∧ c.get 0 = .ok (.int 4) ∧
      df.get_int 0 0 = .ok (.int 4) ∧ df.schema_.row_names_ = [] :=
  ⟨_, _, _, _, rfl, rfl, rfl, rfl, rfl, rfl, rfl, rfl, rfl, rfl⟩

/-! ## `SumRower` with a total that is not 0 -/

/-- The two ranges of `map_x` together are the row indices of the table. -/
theorem halves_append (n : Nat) :
    List.range' 0 (n / 2) ++ List.range' (n / 2) (n - n / 2) = List.range n := by
  have := List.range'_append_1 0 (n / 2) (n - n / 2)
  rw [Nat.zero_add] at this
  rw [this, List.range_eq_range']
  congr 1
  omega

/-- C38: on every table, for a `SumRower` whose `total_` is the `int` `t0` before the call,
`pmap` and `map` both leave its total at `t0` plus the sum of all integer cells of the
table, wrapped to 32 bits; `clone` gives a rower whose total is 0, and a call of `accept`
adds the sum of the `int` fields of the row. -/
theorem sum_pmap_from_total {df : DataFrame} {cols : List Column} {ts : List Int}
    {rows : List (List Value)} (h : DataFrame.Table df cols ts rows) (s : SumRower)
    (ht0 : wrap32 s.get_total = s.get_total) :
    ∃ s1 s2, df.map SumRower.rower s = .ok s1 ∧ df.pmap SumRower.rower s = .ok s2 ∧
      s1.get_total = wrap32 (s.get_total + table_int_sum rows) ∧
      s2.get_total = wrap32 (s.get_total + table_int_sum rows) ∧
      (∃ c, SumRower.rower.clone s = .ok c ∧ c.get_total = 0) ∧
      (∀ (r : SumRower) (row : Row), ∃ r', SumRower.rower.accept r row = .ok (false, r') ∧
        r'.get_total = wrap32 (r.get_total + row_int_sum row.vals_)) := by
  have hn : df.length_ = rows.length := h.length
  obtain ⟨s1, h1, h2, h3⟩ := sum_accept_rows df.schema_.types_ rows
    (List.range rows.length) s
  rw [map_range_getD row_int_sum rows] at h2
  have ht1 : s1.total_ = wrap32 (s.total_ + table_int_sum rows) := by
    rw [← h3 ht0, h2]
    rfl
  obtain ⟨a, ha1, ha2, _⟩ := sum_accept_rows df.schema_.types_ rows
    (List.range' 0 (df.length_ / 2)) s
  obtain ⟨b, hb1, hb2, _⟩ := sum_accept_rows df.schema_.types_ rows
    (List.range' (df.length_ / 2) (df.length_ - df.length_ / 2)) SumRower.ctor
  have hsum := wrap32_join ha2 hb2
  have hz0 : SumRower.ctor.total_ = 0 := rfl
  rw [hz0, Int.zero_add, Int.add_assoc, ← List.sum_append, ← List.map_append,
    halves_append, hn, map_range_getD row_int_sum rows] at hsum
  refine ⟨s1, { a with total_ := wrap32 (a.total_ + b.total_) }, ?_, ?_, ht1, hsum,
    ⟨SumRower.ctor, rfl, rfl⟩, fun r row => sum_rower_accept r row⟩
  · rw [map_eq SumRower.rower h, h1]
  · rw [pmap_eq SumRower.rower h s SumRower.ctor rfl, ha1]
    simp only []
    rw [hb1]
    rfl

/-- Witness of C38: the table of the schema `"I"` with the rows 4 and 5 and a `SumRower`
whose total is 7: `map` and `pmap` leave 16. -/
theorem sum_pmap_from_total_witness :
    ∃ df0 df s1 s2, DataFrame.ctor Garbage.blank (Schema.ctor Garbage.blank [TAG_I])
        = .ok df0 ∧
      [({ types_ := (Schema.ctor Garbage.blank [TAG_I]).types_
          vals_ := [.int 4]
          idx_ := 0 } : Row),
       ({ types_ := (Schema.ctor Garbage.blank [TAG_I]).types_
          vals_ := [.int 5]
          idx_ := 0 } : Row)].foldlM DataFrame.add_row df0 = .ok df ∧
      df.map SumRower.rower { sf_ := { total_ := 0 }, total_ := 7 } = .ok s1 ∧
      df.pmap SumRower.rower { sf_ := { total_ := 0 }, total_ := 7 } = .ok s2 ∧
      s1.get_total = 16 ∧ s2.get_total = 16 := by
  have hty : Rep (Schema.ctor Garbage.blank [TAG_I]).types_ [TAG_I] :=
    (reachable_of_appends _ _).rep
  obtain ⟨df0, h1, _, h3⟩ := ctor_table Garbage.blank hty
    (fun t ht => by
      simp only [List.mem_singleton] at ht
      exact Or.inl ht)
  obtain ⟨df, cols, h4, _, h6⟩ := add_rows_table [TAG_I]
    [({ types_ := (Schema.ctor Garbage.blank [TAG_I]).types_
        vals_ := [.int 4]
        idx_ := 0 } : Row),
     ({ types_ := (Schema.ctor Garbage.blank [TAG_I]).types_
        vals_ := [.int 5]
        idx_ := 0 } : Row)] df0 _ [] h3
    (by
      intro r hr
      simp only [List.mem_cons, List.mem_singleton, List.not_mem_nil, or_false] at hr
      rcases hr with h | h <;> subst h <;> exact ⟨hty, rfl⟩)
  obtain ⟨s1, s2, k1, k2, k3, k4, _, _⟩ := sum_pmap_from_total h6
    { sf_ := { total_ := 0 }, total_ := 7 } (by decide)
  exact ⟨df0, df, s1, s2, h1, h4, k1, k2, by rw [k3]; decide, by rw [k4]; decide⟩

/-! ## `IncrementRower` under `map` and `pmap` -/

/-- C35: evaluation of `map` with an `IncrementRower` on the table of the schema `"SI"` with
the one row `("a", 3)`: the overload of `accept` for a string does not advance
`col_index_`, so the overload for `int` writes 4 to slot 0 of the new row, a slot of a
string, and the call fails; no new table with the int cell 4 is produced. -/
theorem increment_string_column_fails (fadd1 : CFloat → CFloat) :
    ∃ df0 df1 r,
      DataFrame.ctor Garbage.blank (Schema.ctor Garbage.blank [TAG_S, TAG_I]) = .ok df0 ∧
      df0.add_row { types_ := (Schema.ctor Garbage.blank [TAG_S, TAG_I]).types_
                    vals_ := [.string (some "a"), .int 3]
                    idx_ := 0 } = .ok df1 ∧
      IncrementRower.ctor Garbage.blank 0 df1 = .ok r ∧
      (∀ s : IncrementFielder,
        (IncrementFielder.accept fadd1 s (.string (some "a"))) = .ok s) ∧
      df1.map (IncrementRower.rower Garbage.blank 0 fadd1) r =
        .error (.exit "wrong type of the row slot") :=
  ⟨_, _, _, rfl, rfl, rfl, fun _ => rfl, rfl⟩

theorem increment_value_tag (fadd1 : CFloat → CFloat) (v : Value) :
    (increment_value fadd1 v).tag = v.tag := by
  cases v <;> rfl

/-- The calls of `accept` of an `IncrementFielder` for values `suf` that are not strings,
when the slots of the new row from `col_index_` on have the types of `suf`: these slots
receive the incremented values. -/
theorem increment_fold (fadd1 : CFloat → CFloat) (suf : List Value) :
    ∀ (pre rest : List Value) (s : IncrementFielder) (nr : Row),
      s.new_row_ = some nr → nr.vals_ = pre ++ rest → s.col_index_ = pre.length →
      rest.map Value.tag = suf.map Value.tag → (∀ v, v ∈ suf → v.tag ≠ TAG_S) →
      ∃ nr', suf.foldlM (IncrementFielder.accept fadd1) s =
          .ok { s with new_row_ := some nr', col_index_ := pre.length + suf.length } ∧
        nr'.vals_ = pre ++ suf.map (increment_value fadd1) ∧ nr'.types_ = nr.types_ ∧
        nr'.idx_ = nr.idx_ := by
  induction suf with
  | nil =>
    intro pre rest s nr h1 h2 h3 h4 _
    have hrest : rest = [] := by
      cases rest with
      | nil => rfl
      | cons x xs => simp at h4
    refine ⟨nr, ?_, by simpa [hrest] using h2, rfl, rfl⟩
    cases s
    simp only at h1 h3
    subst h1
    subst h3
    rfl
  | cons v suf ih =>
    intro pre rest s nr h1 h2 h3 h4 h5
    cases rest with
    | nil => simp at h4
    | cons old rest =>
      simp only [List.map_cons, List.cons.injEq] at h4
      have hold : nr.vals_[s.col_index_]? = some old := by
        rw [h2, h3, List.getElem?_append_right (Nat.le_refl _), Nat.sub_self,
          List.getElem?_cons_zero]
      have hv : v.tag ≠ TAG_S := h5 v (List.mem_cons_self _ _)
      have hset : nr.set s.col_index_ (increment_value fadd1 v) =
          .ok { nr with vals_ := pre ++ increment_value fadd1 v :: rest } := by
        rw [row_set_ok nr _ old _ hold (by rw [increment_value_tag, h4.1])]
        congr 2
        rw [h2, h3]
        simp
      have hput : s.put (increment_value fadd1 v) =
          .ok { s with new_row_ := some { nr with
                         vals_ := pre ++ increment_value fadd1 v :: rest }
                       col_index_ := s.col_index_ + 1 } := by
        unfold IncrementFielder.put
        rw [h1]
        simp only []
        rw [hset]
      have hstep : IncrementFielder.accept fadd1 s v =
          .ok { s with new_row_ := some { nr with
                         vals_ := pre ++ increment_value fadd1 v :: rest }
                       col_index_ := s.col_index_ + 1 } := by
        cases v with
        | string x => exact absurd rfl hv
        | int i => exact hput
        | bool b => exact hput
        | float f => exact hput
      obtain ⟨nr', k1, k2, k3, k4⟩ := ih (pre ++ [increment_value fadd1 v]) rest
        { s with new_row_ := some { nr with
                   vals_ := pre ++ increment_value fadd1 v :: rest }
                 col_index_ := s.col_index_ + 1 }
        { nr with vals_ := pre ++ increment_value fadd1 v :: rest } rfl (by simp)
        (by simp [h3]) h4.2 (fun x hx => h5 x (List.mem_cons_of_mem _ hx))
      refine ⟨nr', ?_, by simpa using k2, k3, k4⟩
      rw [List.foldlM_cons, hstep]
      show suf.foldlM (IncrementFielder.accept fadd1) _ = _
      rw [k1]
      simp only [List.length_append, List.length_cons, List.length_nil]
      congr 2
      omega

/-- A call of `IncrementRower::accept` with the row `k` of a table without string columns,
by a rower built on the table whose new table holds `acc`: the new table receives the
incremented values of the row. -/
theorem increment_accept (fadd1 : CFloat → CFloat) {df : DataFrame} {cols : List Column}
    {ts : List Int} {rows : List (List Value)} (h : DataFrame.Table df cols ts rows)
    (hns : ∀ t, t ∈ ts → t ≠ TAG_S) {k : Nat} (hk : k < rows.length) (s : IncrementRower)
    (hdf : s.if_.df_ = df) {cols2 : List Column} {acc : List (List Value)}
    (h2 : DataFrame.Table s.if_.new_df_ cols2 ts acc) :
    ∃ (s' : IncrementRower) (cols2' : List Column),
      IncrementRower.accept fadd1 s (row_at df.schema_.types_ rows k) = .ok (false, s') ∧
      s'.if_.df_ = df ∧ s'.df_ = s.df_ ∧
      DataFrame.Table s'.if_.new_df_ cols2' ts
        (acc ++ [(rows.getD k []).map (increment_value fadd1)]) := by
  have htarget : rows[k]? = some rows[k] := List.getElem?_eq_getElem hk
  have hgetD : rows.getD k [] = rows[k] := by
    simp [List.getD_eq_getElem?_getD, htarget]
  have hshape : (rows[k]).map Value.tag = ts := h.shape _ (List.getElem_mem hk)
  have hrow0 : Row.Of ts (Row.ctor df.schema_) := row_ctor_of h.types (table_tags h)
  obtain ⟨row_, f1, _, _, _⟩ := fill_row_table h htarget hrow0
  obtain ⟨s0, hstart, hs0a, hs0b, hs0c, hs0d⟩ : ∃ s0 : IncrementFielder,
      IncrementFielder.start s.if_ k = .ok s0 ∧ s0.new_row_ = some (Row.ctor df.schema_) ∧
      s0.col_index_ = 0 ∧ s0.new_df_ = s.if_.new_df_ ∧ s0.df_ = df := by
    refine ⟨{ s.if_ with row_ := some row_, col_index_ := 0,
                         new_row_ := some (Row.ctor df.schema_) }, ?_, ?_, ?_, ?_, ?_⟩
    · unfold IncrementFielder.start
      simp only [hdf, f1]
    · rfl
    · rfl
    · rfl
    · exact hdf
  obtain ⟨nr', k1, k2, k3, _⟩ := increment_fold fadd1 (rows[k]) []
    (Row.ctor df.schema_).vals_ s0 (Row.ctor df.schema_) hs0a (by simp) hs0b
    (by rw [hrow0.2, hshape])
    (by
      intro v hv
      apply hns
      rw [← hshape]
      exact List.mem_map_of_mem _ hv)
  have hof : Row.Of ts nr' := by
    refine ⟨by rw [k3]; exact hrow0.1, ?_⟩
    rw [k2, List.nil_append, List.map_map]
    rw [← hshape]
    apply List.map_congr_left
    intro v _
    exact increment_value_tag fadd1 v
  obtain ⟨df3, cols3, a1, _, a3⟩ := add_row_table h2 hof
  rw [k2, List.nil_append] at a3
  obtain ⟨s1, hfold, hs1a, hs1b, hs1c⟩ : ∃ s1 : IncrementFielder,
      (rows[k]).foldlM (IncrementFielder.accept fadd1) s0 = .ok s1 ∧
      s1.new_row_ = some nr' ∧ s1.new_df_ = s.if_.new_df_ ∧ s1.df_ = df :=
    ⟨_, k1, rfl, hs0c, hs0d⟩
  obtain ⟨s2, hdone, hs2a, hs2b⟩ : ∃ s2 : IncrementFielder,
      IncrementFielder.done s1 = .ok s2 ∧ s2.new_df_ = df3 ∧ s2.df_ = df := by
    refine ⟨{ s1 with new_df_ := df3, row_ := none, new_row_ := none }, ?_, ?_, ?_⟩
    · unfold IncrementFielder.done
      simp only [hs1a, hs1b, a1]
    · rfl
    · exact hs1c
  refine ⟨{ s with if_ := s2 }, cols3, ?_, hs2b, rfl, ?_⟩
  · unfold IncrementRower.accept Row.visit
    simp only [IncrementFielder.fielder, row_at, Row.get_idx, hgetD, hstart, hfold, hdone]
  · show DataFrame.Table s2.new_df_ cols3 ts _
    rw [hs2a, hgetD]
    exact a3

/-- The calls of `IncrementRower::accept` for the rows of the indices `ks` of a table
without string columns: the new table receives the incremented rows, in the order of
`ks`. -/
theorem increment_accept_rows (g : Garbage) (junk : Nat) (fadd1 : CFloat → CFloat)
    {df : DataFrame} {cols : List Column} {ts : List Int} {rows : List (List Value)}
    (h : DataFrame.Table df cols ts rows) (hns : ∀ t, t ∈ ts → t ≠ TAG_S) (ks : List Nat) :
    ∀ (s : IncrementRower) (cols2 : List Column) (acc : List (List Value)),
      (∀ k, k ∈ ks → k < rows.length) → s.if_.df_ = df →
      DataFrame.Table s.if_.new_df_ cols2 ts acc →
      ∃ (s' : IncrementRower) (cols2' : List Column),
        accept_rows (IncrementRower.rower g junk fadd1) df.schema_.types_ rows ks s
          = .ok s' ∧
        s'.if_.df_ = df ∧ s'.df_ = s.df_ ∧
        DataFrame.Table s'.if_.new_df_ cols2' ts
          (acc ++ ks.map (fun k => (rows.getD k []).map (increment_value fadd1))) := by
  induction ks with
  | nil =>
    intro s cols2 acc _ hdf h2
    exact ⟨s, cols2, rfl, hdf, rfl, by simpa using h2⟩
  | cons k ks ih =>
    intro s cols2 acc hks hdf h2
    obtain ⟨s1, cols3, a1, a2, a3, a4⟩ := increment_accept fadd1 h hns
      (hks k (List.mem_cons_self _ _)) s hdf h2
    obtain ⟨s', cols4, b1, b2, b3, b4⟩ := ih s1 cols3 _
      (fun x hx => hks x (List.mem_cons_of_mem _ hx)) a2 a4
    have hacc : (IncrementRower.rower g junk fadd1).accept s
        (row_at df.schema_.types_ rows k) = .ok (false, s1) := a1
    refine ⟨s', cols4, ?_, b2, by rw [b3, a3], by simpa using b4⟩
    rw [accept_rows_cons, hacc]
    exact b1

/-- The loop of `IncrementRower::join_delete`: the rows of the table of the other rower
from index `i` on are added to the new table. -/
theorem join_delete_loop_table {o_df : DataFrame} {ocols : List Column} {ts : List Int}
    {orows : List (List Value)} (ho : DataFrame.Table o_df ocols ts orows) (left : Nat) :
    ∀ (i : Nat) (new_df : DataFrame) (cols2 : List Column) (acc : List (List Value)),
      DataFrame.Table new_df cols2 ts acc → i + left = orows.length →
      ∃ (new_df' : DataFrame) (cols2' : List Column),
        IncrementRower.join_delete_loop o_df left i new_df = .ok new_df' ∧
        DataFrame.Table new_df' cols2' ts (acc ++ orows.drop i) := by
  induction left with
  | zero =>
    intro i new_df cols2 acc h2 hi
    refine ⟨new_df, cols2, rfl, ?_⟩
    rw [List.drop_of_length_le (by omega)]
    simpa using h2
  | succ n ih =>
    intro i new_df cols2 acc h2 hi
    have hil : i < orows.length := by omega
    have hguard : i < o_df.nrows := by
      show i < o_df.length_
      rw [ho.length]
      exact hil
    have htarget : orows[i]? = some orows[i] := List.getElem?_eq_getElem hil
    have hrow0 : Row.Of ts (Row.ctor new_df.schema_) := row_ctor_of h2.types (table_tags h2)
    obtain ⟨row', f1, f2, f3, _⟩ := fill_row_table ho htarget hrow0
    have hof : Row.Of ts row' :=
      ⟨by rw [f3]; exact hrow0.1, by rw [f2]; exact ho.shape _ (List.getElem_mem hil)⟩
    obtain ⟨df3, cols3, a1, _, a3⟩ := add_row_table h2 hof
    rw [f2] at a3
    obtain ⟨new_df', cols4, b1, b2⟩ := ih (i + 1) df3 cols3 _ a3 (by omega)
    refine ⟨new_df', cols4, ?_, ?_⟩
    · unfold IncrementRower.join_delete_loop
      simp only [if_pos hguard, f1, a1]
      exact b1
    · rw [List.drop_eq_getElem_cons hil]
      simpa using b2

/-- C39: on a table whose schema has no string column, `pmap` with a fresh `IncrementRower`
(the first half of the rows on the rower, the second half on its clone, then `join_delete`,
which adds the rows of the table of the clone after those of the rower) and `map` with a
fresh `IncrementRower` both return, and the two new tables hold the same rows in the same
order, the rows of the table with every `int` and `float` plus 1 and every `bool` negated:
`fill_row` gives the same row on both at every index. -/
theorem increment_pmap_eq_map (g : Garbage) (junk : Nat) (fadd1 : CFloat → CFloat)
    {df : DataFrame} {cols : List Column} {ts : List Int} {rows : List (List Value)}
    (h : DataFrame.Table df cols ts rows) (hns : ∀ t, t ∈ ts → t ≠ TAG_S) :
    ∃ (r s1 s2 : IncrementRower) (cols1 cols2 : List Column),
      IncrementRower.ctor g junk df = .ok r ∧
      df.map (IncrementRower.rower g junk fadd1) r = .ok s1 ∧
      df.pmap (IncrementRower.rower g junk fadd1) r = .ok s2 ∧
      DataFrame.Table s1.get_new_df cols1 ts
        (rows.map (List.map (increment_value fadd1))) ∧
      DataFrame.Table s2.get_new_df cols2 ts
        (rows.map (List.map (increment_value fadd1))) ∧
      s1.get_new_df.nrows = df.nrows ∧ s2.get_new_df.nrows = df.nrows ∧
      ∀ i row, i < df.nrows → Row.Of ts row →
        ∃ row', s1.get_new_df.fill_row i row = .ok row' ∧
          s2.get_new_df.fill_row i row = .ok row' := by
  have hn : df.length_ = rows.length := h.length
  obtain ⟨df0, c1, _, c3⟩ := ctor_table g h.types (table_tags h)
  have hctor : IncrementRower.ctor g junk df =
      .ok { if_ := { df_ := df, new_df_ := df0, row_ := none, new_row_ := none,
                     col_index_ := junk }, df_ := df } := by
    unfold IncrementRower.ctor IncrementFielder.ctor
    simp only [c1]
  obtain ⟨r, hctor, hrdf, hrdf2, hrt⟩ : ∃ r : IncrementRower,
      IncrementRower.ctor g junk df = .ok r ∧ r.if_.df_ = df ∧ r.df_ = df ∧
      DataFrame.Table r.if_.new_df_ (ts.map (Column.ctor g)) ts [] :=
    ⟨_, hctor, rfl, rfl, c3⟩
  have hclone : (IncrementRower.rower g junk fadd1).clone r = .ok r := by
    show IncrementRower.ctor g junk r.df_ = _
    rw [hrdf2]
    exact hctor
  -- `map`
  obtain ⟨s1, cols1, m1, _, _, m4⟩ := increment_accept_rows g junk fadd1 h hns
    (List.range rows.length) r _ [] (fun k hk => List.mem_range.mp hk) hrdf hrt
  rw [List.nil_append, map_range_getD (List.map (increment_value fadd1)) rows] at m4
  -- `pmap`
  obtain ⟨a, colsa, a1, _, _, a4⟩ := increment_accept_rows g junk fadd1 h hns
    (List.range' 0 (df.length_ / 2)) r _ []
    (fun k hk => by
      rw [List.mem_range'_1] at hk
      omega) hrdf hrt
  obtain ⟨b, colsb, b1, _, _, b4⟩ := increment_accept_rows g junk fadd1 h hns
    (List.range' (df.length_ / 2) (df.length_ - df.length_ / 2)) r _ []
    (fun k hk => by
      rw [List.mem_range'_1] at hk
      omega) hrdf hrt
  obtain ⟨new_df, cols2, j1, j2⟩ := join_delete_loop_table b4 b.if_.new_df_.nrows 0
    a.if_.new_df_ colsa _ a4 (by
      show 0 + b.if_.new_df_.length_ = _
      rw [b4.length]
      simp)
  rw [List.drop_zero, List.nil_append, List.nil_append, ← List.map_append, halves_append,
    hn, map_range_getD (List.map (increment_value fadd1)) rows] at j2
  have hjoin : (IncrementRower.rower g junk fadd1).join_delete a b =
      .ok { a with if_ := { a.if_ with new_df_ := new_df } } := by
    show IncrementRower.join_delete a b = _
    unfold IncrementRower.join_delete
    simp only [IncrementRower.get_new_df, IncrementFielder.get_new_df, j1]
  refine ⟨r, s1, { a with if_ := { a.if_ with new_df_ := new_df } }, cols1, cols2, hctor,
    ?_, ?_, m4, j2, ?_, ?_, ?_⟩
  · rw [map_eq (IncrementRower.rower g junk fadd1) h, m1]
  · rw [pmap_eq (IncrementRower.rower g junk fadd1) h r r hclone, a1]
    simp only []
    rw [b1]
    exact hjoin
  · show s1.if_.new_df_.length_ = df.length_
    rw [m4.length, hn, List.length_map]
  · show new_df.length_ = df.length_
    rw [j2.length, hn, List.length_map]
  · intro i row hi hrow
    have hil : i < (rows.map (List.map (increment_value fadd1))).length := by
      rw [List.length_map, ← hn]
      exact hi
    have htarget := List.getElem?_eq_getElem hil
    obtain ⟨r1, p1, p2, p3, p4⟩ := fill_row_table m4 htarget hrow
    obtain ⟨r2, q1, q2, q3, q4⟩ := fill_row_table j2 htarget hrow
    have heq : r2 = r1 := by
      cases r1
      cases r2
      simp only at p2 p3 p4 q2 q3 q4
      rw [p2, p3, p4, q2, q3, q4]
    refine ⟨r1, p1, ?_⟩
    rw [← heq]
    exact q1

/-- Witness of C39: the table of the schema `"IB"` with the rows `(4, true)` and
`(5, false)`; `f + 1` on floats is not called. -/
theorem increment_pmap_eq_map_witness :
    ∃ (df0 df : DataFrame) (r s1 s2 : IncrementRower) (cols1 cols2 : List Column),
      DataFrame.ctor Garbage.blank (Schema.ctor Garbage.blank [TAG_I, TAG_B]) = .ok df0 ∧
      [({ types_ := (Schema.ctor Garbage.blank [TAG_I, TAG_B]).types_
          vals_ := [.int 4, .bool true]
          idx_ := 0 } : Row),
       ({ types_ := (Schema.ctor Garbage.blank [TAG_I, TAG_B]).types_
          vals_ := [.int 5, .bool false]
          idx_ := 0 } : Row)].foldlM DataFrame.add_row df0 = .ok df ∧
      IncrementRower.ctor Garbage.blank 0 df = .ok r ∧
      df.map (IncrementRower.rower Garbage.blank 0 (fun f => f)) r = .ok s1 ∧
      df.pmap (IncrementRower.rower Garbage.blank 0 (fun f => f)) r = .ok s2 ∧
      DataFrame.Table s1.get_new_df cols1 [TAG_I, TAG_B]
        [[.int 5, .bool false], [.int 6, .bool true]] ∧
      DataFrame.Table s2.get_new_df cols2 [TAG_I, TAG_B]
        [[.int 5, .bool false], [.int 6, .bool true]] := by
  have hty : Rep (Schema.ctor Garbage.blank [TAG_I, TAG_B]).types_ [TAG_I, TAG_B] :=
    (reachable_of_appends _ _).rep
  have htags : ∀ t, t ∈ [TAG_I, TAG_B] → IsTag t := fun t ht => by
    simp only [List.mem_cons, List.mem_singleton, List.not_mem_nil, or_false] at ht
    rcases ht with h | h
    · exact Or.inl h
    · exact Or.inr (Or.inl h)
  obtain ⟨df0, h1, _, h3⟩ := ctor_table Garbage.blank hty htags
  obtain ⟨df, cols, h4, _, h6⟩ := add_rows_table [TAG_I, TAG_B]
    [({ types_ := (Schema.ctor Garbage.blank [TAG_I, TAG_B]).types_
        vals_ := [.int 4, .bool true]
        idx_ := 0 } : Row),
     ({ types_ := (Schema.ctor Garbage.blank [TAG_I, TAG_B]).types_
        vals_ := [.int 5, .bool false]
        idx_ := 0 } : Row)] df0 _ [] h3
    (by
      intro r hr
      simp only [List.mem_cons, List.mem_singleton, List.not_mem_nil, or_false] at hr
      rcases hr with h | h <;> subst h <;> exact ⟨hty, rfl⟩)
  obtain ⟨r, s1, s2, cols1, cols2, k1, k2, k3, k4, k5, _⟩ := increment_pmap_eq_map
    Garbage.blank 0 (fun f => f) h6
    (by
      intro t ht
      simp only [List.mem_cons, List.mem_singleton, List.not_mem_nil, or_false] at ht
      rcases ht with h | h <;> subst h <;> decide)
  exact ⟨df0, df, r, s1, s2, cols1, cols2, h1, h4, k1, k2, k3, k4, k5⟩

/-! ## The slot of a received address -/

/-- Every address received is written to slot 0: `ip_arr_idx` is 0 and stays 0. -/
theorem receive_ips_slot_zero (msgs : List String) :
    ∀ s : Server, s.ip_arr_idx = 0 →
      (Server.receive_ips msgs s).1 = List.replicate msgs.length 0 ∧
      (Server.receive_ips msgs s).2.ip_arr_idx = 0 := by
  induction msgs with
  | nil =>
    intro s hs
    exact ⟨rfl, hs⟩
  | cons msg rest ih =>
    intro s hs
    have h1 : (s.receive_ip msg).1 = 0 := by
      simp [Server.receive_ip, hs, BACKLOG]
    have h2 : (s.receive_ip msg).2.ip_arr_idx = 0 := by
      simp [Server.receive_ip, hs, BACKLOG]
    obtain ⟨k1, k2⟩ := ih (s.receive_ip msg).2 h2
    constructor
    · show (s.receive_ip msg).1 :: (Server.receive_ips rest (s.receive_ip msg).2).1 = _
      rw [h1, k1]
      rfl
    · exact k2

/-- C40: evaluation of the recording of the addresses in `register_clients`: whatever the
messages, every one is written to slot 0, `ip_arr_idx` never being incremented; after the
two messages `"10.0.0.1"`, `"10.0.0.2"` the slots written are 0 and 0, slot 0 points to the
buffer, which holds the second message, and slot 1 was not written. -/
theorem register_clients_always_slot_zero (garbage : String) :
    (∀ msgs : List String,
      (Server.receive_ips msgs (Server.listening garbage)).1 =
        List.replicate msgs.length 0) ∧
    Server.receive_ips ["10.0.0.1", "10.0.0.2"] (Server.listening garbage) =
      ([0, 0],
       { buffer_ := "10.0.0.2"
         client_ips_ := [.buffer, .unwritten, .unwritten, .unwritten, .unwritten]
         ip_arr_idx := 0 }) ∧
    (1 : Int) % BACKLOG = 1 :=
  ⟨fun msgs => (receive_ips_slot_zero msgs (Server.listening garbage) rfl).1, rfl, rfl⟩

/-! ## `map` with a rower that may write the row and the table -/

theorem accept_rows_mut_nil {ρ : Type} (R : MutRower ρ) (df : DataFrame) (types : IntArray)
    (rows : List (List Value)) (r : ρ) : accept_rows_mut R df types rows [] r = .ok r := rfl

theorem accept_rows_mut_cons {ρ : Type} (R : MutRower ρ) (df : DataFrame) (types : IntArray)
    (rows : List (List Value)) (k : Nat) (ks : List Nat) (r : ρ) :
    accept_rows_mut R df types rows (k :: ks) r =
      match R.accept r (row_at types rows k) df with
      | .error e => .error e
      | .ok (_, r, _, _) => accept_rows_mut R df types rows ks r := by
  unfold accept_rows_mut
  rw [List.foldlM_cons]
  cases R.accept r (row_at types rows k) df with
  | error e => rfl
  | ok p => rfl

/-- The calls of `accept` of the rower that records its rows. -/
theorem accept_rows_mut_log (df : DataFrame) (types : IntArray) (rows : List (List Value))
    (ks : List Nat) :
    ∀ l : List Row, accept_rows_mut MutRower.log df types rows ks l =
      .ok (l ++ ks.map (row_at types rows)) := by
  induction ks with
  | nil =>
    intro l
    simp [accept_rows_mut_nil]
  | cons k ks ih =>
    intro l
    rw [accept_rows_mut_cons]
    show accept_rows_mut MutRower.log df types rows ks (l ++ [row_at types rows k]) = _
    rw [ih]
    simp

/-- The calls of `accept` of a rower that only reads, seen as a `MutRower`. -/
theorem accept_rows_mut_toMut {ρ : Type} (R : Rower ρ) (df : DataFrame) (types : IntArray)
    (rows : List (List Value)) (ks : List Nat) :
    ∀ r : ρ, accept_rows_mut R.toMut df types rows ks r = accept_rows R types rows ks r := by
  induction ks with
  | nil =>
    intro r
    rfl
  | cons k ks ih =>
    intro r
    rw [accept_rows_mut_cons, accept_rows_cons]
    simp only [Rower.toMut]
    cases R.accept r (row_at types rows k) with
    | error e => rfl
    | ok p => exact ih p.2

/-- The loop of `map` from the row `i` on, on a table that the calls of `accept` leave as it
is: with more iterations allowed than rows left, it is the sequence of the calls of `accept`
for the rows from `i` on, in ascending order, and the table comes back as it was. -/
theorem map_mut_loop_eq {ρ : Type} (R : MutRower ρ) {df : DataFrame} {cols : List Column}
    {ts : List Int} {rows : List (List Value)} (h : DataFrame.Table df cols ts rows)
    (hR : ∀ s row b s' row' df', R.accept s row df = .ok (b, s', row', df') → df' = df)
    (extra left : Nat) :
    ∀ (i : Nat) (row : Row) (r : ρ), Row.Of ts row → row.types_ = df.schema_.types_ →
      i + left = rows.length →
      DataFrame.map_mut_loop R (left + 1 + extra) i row r df =
        match accept_rows_mut R df df.schema_.types_ rows (List.range' i left) r with
        | .error e => .error e
        | .ok r' => .ok (some (r', df)) := by
  induction left with
  | zero =>
    intro i row r _ _ hil
    have hfuel : 0 + 1 + extra = extra + 1 := by omega
    have hi : ¬ i < df.length_ := by rw [h.length]; omega
    rw [hfuel]
    simp only [DataFrame.map_mut_loop, if_neg hi]
    rfl
  | succ n ih =>
    intro i row r hrow hty hil
    have hfuel : n + 1 + 1 + extra = (n + 1 + extra) + 1 := by omega
    have hir : i < rows.length := by omega
    have hi : i < df.length_ := by rw [h.length]; exact hir
    have htarget : rows[i]? = some (rows.get ⟨i, hir⟩) := List.getElem?_eq_getElem hir
    have hrow2 : Row.Of ts (row.set_idx i) := hrow
    obtain ⟨row', h1, h2, h3, h4⟩ := fill_row_table h htarget hrow2
    have hrow' : row' = row_at df.schema_.types_ rows i := by
      cases row'
      simp only at h2 h3 h4
      subst h2
      rw [h3, h4]
      simp [row_at, Row.set_idx, hty, List.getD_eq_getElem?_getD, htarget]
    have hof : Row.Of ts row' :=
      ⟨by rw [h3]; exact hrow.1, by rw [h2]; exact h.shape _ (List.getElem?_mem htarget)⟩
    have hty' : row'.types_ = df.schema_.types_ := by rw [h3]; exact hty
    rw [List.range'_succ, accept_rows_mut_cons, ← hrow', hfuel]
    simp only [DataFrame.map_mut_loop, if_pos hi, h1]
    cases hacc : R.accept r row' df with
    | error e => rfl
    | ok p =>
      obtain ⟨b, s', row'', df'⟩ := p
      have hdf : df' = df := hR r row' b s' row'' df' hacc
      obtain ⟨k1, k2⟩ := R.slots_kept r row' df b s' row'' df' hacc
      subst hdf
      exact ih (i + 1) row'' s' ⟨by rw [k1]; exact hof.1, by rw [k2]; exact hof.2⟩
        (by rw [k1]; exact hty') (by omega)

/-- C24, counterexample: on the table of the schema `"I"` with the one row 4, where
`nrows()` is 1, `map` with a rower whose first call of `accept` adds the row to the table
calls `accept` twice, and leaves the table with two rows. -/
theorem map_calls_accept_for_added_rows :
    ∃ df0 df1 df2, DataFrame.ctor Garbage.blank (Schema.ctor Garbage.blank [TAG_I])
        = .ok df0 ∧
      df0.add_row { types_ := (Schema.ctor Garbage.blank [TAG_I]).types_
                    vals_ := [.int 4]
                    idx_ := 0 } = .ok df1 ∧
      df1.nrows = 1 ∧
      df1.map_mut 5 MutRower.add_row_once 0 = .ok (some (2, df2)) ∧ df2.nrows = 2 :=
  ⟨_, _, _, rfl, rfl, rfl, rfl, rfl⟩

/-- C24, amended: on a table with `n = nrows()` rows, for every rower whose `accept` does not
modify the table, `map(rower)` returns as soon as it is allowed more than `n` iterations and
is the sequence of `n` calls of `accept`, the call `k` (from 0) with a row whose cursor is
`k` and whose slot `j` holds the value of column `j` at index `k`; the table is left as it
was, and the rower that records its rows ends with the `n` rows of the indices `0 .. n - 1`
in ascending order. -/
theorem map_visits_rows_of_kept_table {ρ : Type} (R : MutRower ρ) {df : DataFrame}
    {cols : List Column} {ts : List Int} {rows : List (List Value)}
    (h : DataFrame.Table df cols ts rows)
    (hR : ∀ s row b s' row' df', R.accept s row df = .ok (b, s', row', df') → df' = df)
    (r : ρ) (extra : Nat) :
    (df.map_mut (df.nrows + 1 + extra) R r =
      match accept_rows_mut R df df.schema_.get_types rows (List.range df.nrows) r with
      | .error e => .error e
      | .ok r' => .ok (some (r', df))) ∧
    df.map_mut (df.nrows + 1 + extra) MutRower.log [] =
      .ok (some ((List.range df.nrows).map (row_at df.schema_.get_types rows), df)) ∧
    ((List.range df.nrows).map (row_at df.schema_.get_types rows)).length = df.nrows ∧
    ∀ k, k < df.nrows → (row_at df.schema_.get_types rows k).get_idx = k ∧
      ∀ j, j < df.ncols → ∃ c v, df.columns_.get j = .ok (some c) ∧ c.get k = .ok v ∧
        (row_at df.schema_.get_types rows k).vals_[j]? = some v := by
  have hn : df.nrows = rows.length := h.length
  have key : ∀ {σ : Type} (S : MutRower σ)
      (_ : ∀ s row b s' row' df', S.accept s row df = .ok (b, s', row', df') → df' = df)
      (s : σ), df.map_mut (df.nrows + 1 + extra) S s =
        match accept_rows_mut S df df.schema_.get_types rows (List.range df.nrows) s with
        | .error e => .error e
        | .ok r' => .ok (some (r', df)) := by
    intro σ S hS s
    unfold DataFrame.map_mut
    simp only []
    rw [map_mut_loop_eq S h hS extra df.nrows 0 _ s
      (row_ctor_of h.types (table_tags h)) rfl (by rw [hn]; simp), List.range_eq_range']
    rfl
  refine ⟨key R hR r, ?_, by simp, ?_⟩
  · rw [key MutRower.log (fun s row b s' row' df' hacc => by
      cases hacc
      rfl), accept_rows_mut_log]
    rfl
  · intro k hk
    refine ⟨rfl, ?_⟩
    intro j hj
    exact table_cell h (by omega) (by rw [← (table_column h).1]; exact hj)

/-- Witness of C24: the table of the schema `"I"` with one row, and the rower that records
its rows. -/
theorem map_visits_rows_of_kept_table_witness :
    ∃ df0 df1, DataFrame.ctor Garbage.blank (Schema.ctor Garbage.blank [TAG_I])
        = .ok df0 ∧
      df0.add_row { types_ := (Schema.ctor Garbage.blank [TAG_I]).types_
                    vals_ := [.int 4]
                    idx_ := 0 } = .ok df1 ∧
      df1.map_mut (df1.nrows + 1 + 0) MutRower.log [] =
        .ok (some ((List.range df1.nrows).map (row_at df1.schema_.get_types [[.int 4]]),
          df1)) := by
  have hty : Rep (Schema.ctor Garbage.blank [TAG_I]).types_ [TAG_I] :=
    (reachable_of_appends _ _).rep
  obtain ⟨df0, h1, _, h3⟩ := ctor_table Garbage.blank hty
    (fun t ht => by
      simp only [List.mem_singleton] at ht
      exact Or.inl ht)
  obtain ⟨df1, cols1, h4, _, h6⟩ := add_row_table h3
    (show Row.Of [TAG_I] { types_ := (Schema.ctor Garbage.blank [TAG_I]).types_
                           vals_ := [.int 4]
                           idx_ := 0 } from ⟨hty, rfl⟩)
  exact ⟨df0, df1, h1, h4, (map_visits_rows_of_kept_table MutRower.log h6
    (fun s row b s' row' df' hacc => by
      cases hacc
      rfl) [] 0).2.1⟩

/-- The method `map` with a rower that only reads is the `map` of the general rower: it
returns within `nrows() + 1` iterations, with the table as it was. -/
theorem map_mut_toMut {ρ : Type} (R : Rower ρ) {df : DataFrame} {cols : List Column}
    {ts : List Int} {rows : List (List Value)} (h : DataFrame.Table df cols ts rows) (r : ρ)
    (extra : Nat) :
    df.map_mut (df.nrows + 1 + extra) R.toMut r =
      match df.map R r with
      | .error e => .error e
      | .ok r' => .ok (some (r', df)) := by
  have hn : df.nrows = rows.length := h.length
  unfold DataFrame.map_mut
  simp only []
  rw [map_mut_loop_eq R.toMut h (fun s row b s' row' df' hacc => by
      have hacc' : (match R.accept s row with
          | .error e => .error e
          | .ok (b, r) => .ok (b, r, row, df)) = Except.ok (b, s', row', df') := hacc
      cases hq : R.accept s row with
      | error e =>
        rw [hq] at hacc'
        cases hacc'
      | ok p =>
        rw [hq] at hacc'
        cases hacc'
        rfl) extra df.nrows 0 _ r
    (row_ctor_of h.types (table_tags h)) rfl (by rw [hn]; simp), accept_rows_mut_toMut,
    map_eq R h r, List.range_eq_range', hn]

/-! ## `filter` -/

theorem select_rows_cons {ρ : Type} (R : MutRower ρ) (df : DataFrame) (types : IntArray)
    (vals : List Value) (rest : List (List Value)) (r : ρ) :
    select_rows R df types (vals :: rest) r =
      match R.accept r { types_ := types, vals_ := vals, idx_ := 0 } df with
      | .error e => .error e
      | .ok (b, r, _, _) =>
        match select_rows R df types rest r with
        | .error e => .error e
        | .ok (sel, r) => .ok (if b then vals :: sel else sel, r) := rfl

/-- The rows that `select_rows` keeps are rows of the argument, in their order. -/
theorem select_rows_sublist {ρ : Type} (R : MutRower ρ) (df : DataFrame) (types : IntArray)
    (rows : List (List Value)) :
    ∀ (r : ρ) (sel : List (List Value)) (r' : ρ),
      select_rows R df types rows r = .ok (sel, r') → sel.Sublist rows := by
  induction rows with
  | nil =>
    intro r sel r' h
    cases h
    exact List.Sublist.refl _
  | cons vals rest ih =>
    intro r sel r' h
    rw [select_rows_cons] at h
    cases hacc : R.accept r { types_ := types, vals_ := vals, idx_ := 0 } df with
    | error e =>
      rw [hacc] at h
      cases h
    | ok p =>
      obtain ⟨b, r1, row1, df1⟩ := p
      rw [hacc] at h
      simp only [] at h
      cases hsel : select_rows R df types rest r1 with
      | error e =>
        rw [hsel] at h
        cases h
      | ok q =>
        obtain ⟨sel1, r2⟩ := q
        rw [hsel] at h
        simp only [] at h
        have hsub := ih r1 sel1 r2 hsel
        injection h with h
        injection h with h1 h2
        subst h1
        cases b
        · exact List.Sublist.cons _ hsub
        · exact List.Sublist.cons₂ _ hsub

/-- The loop of `filter` from the row `i` on, with the table `df2` that holds the rows `acc`
kept so far, for a rower whose `accept` leaves the row and the table as they are: with more
iterations allowed than rows left, it fails when a call of `accept` fails, and otherwise
returns the table that holds `acc` followed by the rows kept among the rows from `i` on. -/
theorem filter_loop_eq {ρ : Type} (R : MutRower ρ) {df : DataFrame} {cols : List Column}
    {ts : List Int} {rows : List (List Value)} (h : DataFrame.Table df cols ts rows)
    (hR : ∀ s row b s' row' df', R.accept s row df = .ok (b, s', row', df') →
      row' = row ∧ df' = df)
    (extra left : Nat) :
    ∀ (i : Nat) (df2 : DataFrame) (cols2 : List Column) (acc : List (List Value)) (r : ρ),
      DataFrame.Table df2 cols2 ts acc → i + left = rows.length →
      (∀ e, select_rows R df df.schema_.types_ (rows.drop i) r = .error e →
        DataFrame.filter_loop R (left + 1 + extra) i df df2 r = .error e) ∧
      (∀ sel r', select_rows R df df.schema_.types_ (rows.drop i) r = .ok (sel, r') →
        ∃ df2' cols2', DataFrame.filter_loop R (left + 1 + extra) i df df2 r
            = .ok (some (df2', r', df)) ∧
          DataFrame.Table df2' cols2' ts (acc ++ sel) ∧ df2'.schema_ = df2.schema_) := by
  induction left with
  | zero =>
    intro i df2 cols2 acc r h2 hil
    have hfuel : 0 + 1 + extra = extra + 1 := by omega
    have hi : ¬ i < df.length_ := by rw [h.length]; omega
    have hloop : DataFrame.filter_loop R (extra + 1) i df df2 r = .ok (some (df2, r, df)) := by
      simp only [DataFrame.filter_loop, if_neg hi]
    rw [List.drop_of_length_le (by omega), hfuel, hloop]
    refine ⟨fun e he => (by cases he), fun sel r' hs => ?_⟩
    cases hs
    exact ⟨df2, cols2, rfl, by simpa using h2, rfl⟩
  | succ n ih =>
    intro i df2 cols2 acc r h2 hil
    have hfuel : n + 1 + 1 + extra = (n + 1 + extra) + 1 := by omega
    have hir : i < rows.length := by omega
    have hi : i < df.length_ := by rw [h.length]; exact hir
    have htarget : rows[i]? = some rows[i] := List.getElem?_eq_getElem hir
    have hrow0 : Row.Of ts (Row.ctor df.schema_) := row_ctor_of h.types (table_tags h)
    obtain ⟨row', h1, h3, h4, h5⟩ := fill_row_table h htarget hrow0
    have hrow' : row' = { types_ := df.schema_.types_, vals_ := rows[i], idx_ := 0 } := by
      cases row'
      simp only at h3 h4 h5
      subst h3
      rw [h4, h5]
      rfl
    have hof : Row.Of ts row' :=
      ⟨by rw [h4]; exact hrow0.1, by rw [h3]; exact h.shape _ (List.getElem?_mem htarget)⟩
    have hloop : DataFrame.filter_loop R ((n + 1 + extra) + 1) i df df2 r =
        match R.accept r row' df with
        | .error e => .error e
        | .ok (true, r, row, df) =>
          match df2.add_row row with
          | .error e => .error e.1
          | .ok df2 => DataFrame.filter_loop R (n + 1 + extra) (i + 1) df df2 r
        | .ok (false, r, _, df) =>
          DataFrame.filter_loop R (n + 1 + extra) (i + 1) df df2 r := by
      simp only [DataFrame.filter_loop, if_pos hi, h1]
    rw [List.drop_eq_getElem_cons hir, select_rows_cons, ← hrow', hfuel, hloop]
    cases hacc : R.accept r row' df with
    | error e =>
      refine ⟨fun e' he => ?_, fun sel r' hs => by cases hs⟩
      injection he with he
      rw [he]
    | ok p =>
      obtain ⟨b, r1, row1, df1⟩ := p
      obtain ⟨hrow1, hdf1⟩ := hR r row' b r1 row1 df1 hacc
      subst hrow1
      subst hdf1
      simp only []
      cases b with
      | false =>
        obtain ⟨ih1, ih2⟩ := ih (i + 1) df2 cols2 acc r1 h2 (by omega)
        cases hsel : select_rows R df1 df1.schema_.types_ (rows.drop (i + 1)) r1 with
        | error e =>
          refine ⟨fun e' he => ?_, fun sel r' hs => by cases hs⟩
          injection he with he
          rw [← he]
          exact ih1 e hsel
        | ok q =>
          obtain ⟨sel1, r2⟩ := q
          refine ⟨fun e' he => (by cases he), fun sel r' hs => ?_⟩
          injection hs with hs
          injection hs with hs1 hs2
          subst hs1
          subst hs2
          exact ih2 sel1 r2 hsel
      | true =>
        obtain ⟨df3, cols3, h6, h7, h8⟩ := add_row_table h2 hof
        simp only []
        rw [h6]
        simp only []
        rw [h3] at h8
        obtain ⟨ih1, ih2⟩ := ih (i + 1) df3 cols3 (acc ++ [rows[i]]) r1 h8 (by omega)
        cases hsel : select_rows R df1 df1.schema_.types_ (rows.drop (i + 1)) r1 with
        | error e =>
          refine ⟨fun e' he => ?_, fun sel r' hs => by cases hs⟩
          injection he with he
          rw [← he]
          exact ih1 e hsel
        | ok q =>
          obtain ⟨sel1, r2⟩ := q
          refine ⟨fun e' he => (by cases he), fun sel r' hs => ?_⟩
          injection hs with hs
          injection hs with hs1 hs2
          subst hs1
          subst hs2
          obtain ⟨df4, cols4, h9, h10, h11⟩ := ih2 sel1 r2 hsel
          refine ⟨df4, cols4, h9, ?_, by rw [h11, h7]⟩
          simpa using h10

/-- C25, counterexample: on the table of the schema `"I"` with the one row 4, `filter` with
a rower whose `accept` leaves the table alone, writes 99 to the slot 0 of the row that it is
passed and returns `true`, returns a table with the one row 99, which is no row of the
table, where cell (0, 0) still holds 4. -/
theorem filter_adds_row_as_accept_left_it :
    ∃ df0 df1 df2, DataFrame.ctor Garbage.blank (Schema.ctor Garbage.blank [TAG_I])
        = .ok df0 ∧
      df0.add_row { types_ := (Schema.ctor Garbage.blank [TAG_I]).types_
                    vals_ := [.int 4]
                    idx_ := 0 } = .ok df1 ∧
      df1.filter Garbage.blank 5 MutRower.write_row () = .ok (some (df2, (), df1)) ∧
      df2.nrows = 1 ∧ df2.get_int 0 0 = .ok (.int 99) ∧ df1.get_int 0 0 = .ok (.int 4) :=
  ⟨_, _, _, rfl, rfl, rfl, rfl, rfl, rfl⟩

/-- C25, amended: on a table with `n = nrows()` rows, for every rower whose `accept` modifies
neither the table nor the row that it is passed, `filter(rower)`, as soon as it is allowed
more than `n` iterations, calls `accept` once for each row, in ascending order; it fails when
a call fails, and otherwise returns a table with the type tags of the schema of the table
that holds the rows for which `accept` returned `true`, in their order in the table, with
`nrows()` the number of these rows; the table is left as it was. -/
theorem filter_selects_of_kept_row {ρ : Type} (g : Garbage) (R : MutRower ρ)
    {df : DataFrame} {cols : List Column} {ts : List Int} {rows : List (List Value)}
    (h : DataFrame.Table df cols ts rows)
    (hR : ∀ s row b s' row' df', R.accept s row df = .ok (b, s', row', df') →
      row' = row ∧ df' = df)
    (r : ρ) (extra : Nat) :
    (∀ e, select_rows R df df.schema_.get_types rows r = .error e →
      df.filter g (df.nrows + 1 + extra) R r = .error e) ∧
    (∀ sel r', select_rows R df df.schema_.get_types rows r = .ok (sel, r') →
      ∃ df2 cols2, df.filter g (df.nrows + 1 + extra) R r = .ok (some (df2, r', df)) ∧
        DataFrame.Table df2 cols2 ts sel ∧
        df2.schema_.get_types = df.schema_.get_types ∧ df2.ncols = df.ncols ∧
        df2.nrows = sel.length ∧ sel.Sublist rows) := by
  obtain ⟨df0, h1, h2, h3⟩ := ctor_table g h.types (table_tags h)
  have hn : df.nrows = rows.length := h.length
  obtain ⟨k1, k2⟩ := filter_loop_eq R h hR extra df.nrows 0 df0 _ [] r h3
    (by rw [hn]; simp)
  rw [List.drop_zero] at k1 k2
  have hf : df.filter g (df.nrows + 1 + extra) R r
      = DataFrame.filter_loop R (df.nrows + 1 + extra) 0 df df0 r := by
    unfold DataFrame.filter
    rw [h1]
  rw [hf]
  refine ⟨k1, fun sel r' hs => ?_⟩
  obtain ⟨df2, cols2, h4, h5, h6⟩ := k2 sel r' hs
  rw [List.nil_append] at h5
  refine ⟨df2, cols2, h4, h5, by rw [h6, h2], ?_, h5.length,
    select_rows_sublist R df _ rows r sel r' hs⟩
  rw [(table_column h5).1, (table_column h).1]

/-- Witness of C25: the table of the schema `"I"` with the rows 4 and 5, and a rower that
counts its calls and returns `true` on the rows that hold 5: the result has the row 5. -/
theorem filter_selects_of_kept_row_witness :
    ∃ df0 df1 df2 cols2, DataFrame.ctor Garbage.blank (Schema.ctor Garbage.blank [TAG_I])
        = .ok df0 ∧
      [({ types_ := (Schema.ctor Garbage.blank [TAG_I]).types_
          vals_ := [.int 4]
          idx_ := 0 } : Row),
       ({ types_ := (Schema.ctor Garbage.blank [TAG_I]).types_
          vals_ := [.int 5]
          idx_ := 0 } : Row)].foldlM DataFrame.add_row df0 = .ok df1 ∧
      df1.filter Garbage.blank (df1.nrows + 1 + 0) MutRower.count_fives 0
        = .ok (some (df2, 2, df1)) ∧
      DataFrame.Table df2 cols2 [TAG_I] [[.int 5]] ∧ df2.nrows = 1 := by
  have hty : Rep (Schema.ctor Garbage.blank [TAG_I]).types_ [TAG_I] :=
    (reachable_of_appends _ _).rep
  obtain ⟨df0, h1, _, h3⟩ := ctor_table Garbage.blank hty
    (fun t ht => by
      simp only [List.mem_singleton] at ht
      exact Or.inl ht)
  obtain ⟨df1, cols1, h4, _, h6⟩ := add_rows_table [TAG_I]
    [({ types_ := (Schema.ctor Garbage.blank [TAG_I]).types_
        vals_ := [.int 4]
        idx_ := 0 } : Row),
     ({ types_ := (Schema.ctor Garbage.blank [TAG_I]).types_
        vals_ := [.int 5]
        idx_ := 0 } : Row)] df0 _ [] h3
    (by
      intro r hr
      simp only [List.mem_cons, List.mem_singleton, List.not_mem_nil, or_false] at hr
      rcases hr with h | h <;> subst h <;> exact ⟨hty, rfl⟩)
  obtain ⟨df2, cols2, h7, h8, _, _, h9, _⟩ := (filter_selects_of_kept_row Garbage.blank
    MutRower.count_fives h6
    (fun s row b s' row' df' hacc => by
      cases hacc
      exact ⟨rfl, rfl⟩) 0 0).2 [[.int 5]] 2 rfl
  exact ⟨df0, df1, df2, cols2, h1, h4, h7, h8, h9⟩

/-! ## The table with its column objects in memory -/

/-- The slot `j` of `columns_` when the slots hold the addresses `ptrs`. -/
theorem mem_slot_get {columns : Array Nat} {ptrs : List Nat}
    (h : Rep columns (ptrs.map some)) (j : Nat) :
    columns.get j = match ptrs[j]? with
      | some p => .ok (some p)
      | none => .error .assertion := by
  rw [rep_get h, List.getElem?_map]
  cases ptrs[j]? <;> rfl

theorem mem_slot_of_get {columns : Array Nat} {ptrs : List Nat}
    (h : Rep columns (ptrs.map some)) {j p : Nat} (hget : columns.get j = .ok (some p)) :
    ptrs[j]? = some p := by
  rw [mem_slot_get h] at hget
  cases hs : ptrs[j]? with
  | none =>
    rw [hs] at hget
    cases hget
  | some q =>
    rw [hs] at hget
    cases hget
    rfl

/-- An address that is in no two slots is in one slot at most. -/
theorem mem_nodup_slots {ptrs : List Nat} (hnd : ptrs.Nodup) {j k p : Nat}
    (hj : ptrs[j]? = some p) (hk : ptrs[k]? = some p) : j = k := by
  obtain ⟨h1, e1⟩ := List.getElem?_eq_some.mp hj
  obtain ⟨h2, e2⟩ := List.getElem?_eq_some.mp hk
  exact (List.Nodup.getElem_inj_iff hnd).mp (e1.trans e2.symm)

theorem mem_store_lt {store : Mem.Store} {p : Nat} {c : Column} (h : store[p]? = some c) :
    p < store.length := (List.getElem?_eq_some.mp h).1

theorem mem_get_typed_of_column {store : Mem.Store} {df : Mem.DataFrame} {c p : Nat}
    {column : Column} (hget : df.columns_.get c = .ok (some p))
    (hp : store[p]? = some column) (r : Nat) {tag : Int} (htag : IsTag tag) :
    (column.get_type ≠ tag → Mem.DataFrame.get_typed store df tag c r =
      .error (.exit "Column index corresponds to the wrong type.")) ∧
    (column.get_type = tag → Mem.DataFrame.get_typed store df tag c r = column.get r) := by
  unfold Mem.DataFrame.get_typed
  rw [hget]
  simp only []
  rw [hp]
  simp only []
  rcases htag with h | h | h | h <;> subst h <;> cases column <;>
    simp [Column.get_type, Column.as_int, Column.as_bool, Column.as_float, Column.as_string,
      Column.get, TAG_I, TAG_B, TAG_F, TAG_S]

/-- The call `set(c, r, val)` with `r` below the size of the column object of slot `c`: the
object is written in place when it has the type of `val`, and the call fails in
`exit_if_not` otherwise. -/
theorem mem_set_in_column {store : Mem.Store} {df : Mem.DataFrame} {c p : Nat}
    {column : Column} (hget : df.columns_.get c = .ok (some p))
    (hp : store[p]? = some column) {l : List Value} (hl : column.Holds l)
    {r : Nat} (hr : r < l.length) (val : Value) :
    (column.get_type = val.tag →
      ∃ column', Mem.DataFrame.set store df c r val = .ok (store.set p column', df) ∧
        column'.Holds (l.set r val) ∧ column'.get_type = column.get_type) ∧
    (column.get_type ≠ val.tag → Mem.DataFrame.set store df c r val =
      .error (.exit "Column index corresponds to the wrong type.")) := by
  unfold Mem.DataFrame.set
  rw [hget]
  simp only []
  rw [hp]
  simp only []
  cases val <;> cases column <;>
    simp only [Column.as_int, Column.as_bool, Column.as_float, Column.as_string,
      Column.get_type, Value.tag] <;>
    first
    | (obtain ⟨li, hrep, hli⟩ := hl
       subst hli
       have hrl : r < li.length := by simpa using hr
       refine ⟨fun _ => ?_, fun hc => absurd rfl hc⟩
       rw [(set_in_range_rep hrep _ hrl).1]
       exact ⟨_, rfl, ⟨_, (set_in_range_rep hrep _ hrl).2, by rw [List.map_set]⟩, rfl⟩)
    | (refine ⟨fun hc => ?_, fun _ => trivial⟩
       revert hc
       simp [TAG_I, TAG_B, TAG_F, TAG_S])

/-- C33, counterexample: the table of the schema `"I"` with the one row 1, to which
`add_column(c)` is called twice with the same column object `c`, which holds 7: cell (2, 0)
reads 7, and after `set(1, 0, 9)` cell (2, 0) reads 9. -/
theorem set_writes_other_slot_of_shared_column :
    ∃ c store0 df0 store1 df1 store2 df2 store3 df3 store4,
      (Column.ctor Garbage.blank TAG_I).push_back (.int 7) = .ok c ∧
      Mem.DataFrame.ctor Garbage.blank (fun _ _ => none) []
        (Schema.ctor Garbage.blank [TAG_I]) = .ok (store0, df0) ∧
      Mem.DataFrame.add_row store0 df0
        { types_ := (Schema.ctor Garbage.blank [TAG_I]).types_
          vals_ := [.int 1]
          idx_ := 0 } = .ok (store1, df1) ∧
      Mem.DataFrame.add_column (store1 ++ [c]) df1 (some store1.length) none
        = .ok (store2, df2) ∧
      Mem.DataFrame.add_column store2 df2 (some store1.length) none = .ok (store3, df3) ∧
      df3.ncols = 3 ∧ df3.nrows = 1 ∧
      Mem.DataFrame.get_int store3 df3 2 0 = .ok (.int 7) ∧
      Mem.DataFrame.set store3 df3 1 0 (.int 9) = .ok (store4, df3) ∧
      Mem.DataFrame.get_int store4 df3 2 0 = .ok (.int 9) :=
  ⟨_, _, _, _, _, _, _, _, _, _, rfl, rfl, rfl, rfl, rfl, rfl, rfl, rfl, rfl, rfl⟩

/-- C33, amended: on a table in which no column object is in two slots and whose columns have
at least `nrows()` values, for a column `c < ncols()` of the type of `val` and a row
`r < nrows()`, `set(c, r, val)` returns; afterwards the typed read of `(c, r)` returns `val`,
every typed read at another column or another row gives what it gave before, and the table
object, with `nrows()`, `ncols()` and the schema, is as before. -/
theorem set_then_get_unshared {store : Mem.Store} {df : Mem.DataFrame} {ptrs : List Nat}
    (hc : Rep df.columns_ (ptrs.map some)) (hnd : ptrs.Nodup)
    (hs : ∀ p, p ∈ ptrs → ∃ col l, store[p]? = some col ∧ col.Holds l ∧ df.nrows ≤ l.length)
    {c r : Nat} (hr : r < df.nrows) {p : Nat} {column : Column}
    (hget : df.columns_.get c = .ok (some p)) (hp : store[p]? = some column)
    (val : Value) (htag : column.get_type = val.tag) :
    ∃ store', Mem.DataFrame.set store df c r val = .ok (store', df) ∧
      Mem.DataFrame.get_typed store' df val.tag c r = .ok val ∧
      (∀ tag c' r', IsTag tag → (c' ≠ c ∨ r' ≠ r) →
        Mem.DataFrame.get_typed store' df tag c' r'
          = Mem.DataFrame.get_typed store df tag c' r') ∧
      store'.length = store.length := by
  have hslot : ptrs[c]? = some p := mem_slot_of_get hc hget
  have hmem : p ∈ ptrs := List.getElem?_mem hslot
  obtain ⟨col, l, h1, hl, hlen⟩ := hs p hmem
  rw [hp] at h1
  cases h1
  have hrl : r < l.length := Nat.lt_of_lt_of_le hr hlen
  obtain ⟨column', k1, k2, k3⟩ := (mem_set_in_column hget hp hl hrl val).1 htag
  have hpl : p < store.length := mem_store_lt hp
  have hp' : (store.set p column')[p]? = some column' := by
    rw [List.getElem?_set_self hpl]
  have hvtag : IsTag val.tag := by rw [← htag]; exact Column.get_type_isTag column
  refine ⟨_, k1, ?_, ?_, List.length_set _ _ _⟩
  · rw [(mem_get_typed_of_column hget hp' r hvtag).2 (by rw [k3, htag]),
      Column.holds_get k2]
    simp [List.getElem?_set_self, hrl]
  · intro tag c' r' htg hne
    by_cases hcc : c' = c
    · subst hcc
      have hr' : r' ≠ r := by
        rcases hne with h1 | h1
        · exact absurd rfl h1
        · exact h1
      obtain ⟨a1, a2⟩ := mem_get_typed_of_column hget hp' r' htg
      obtain ⟨b1, b2⟩ := mem_get_typed_of_column hget hp r' htg
      by_cases ht : column.get_type = tag
      · rw [a2 (by rw [k3]; exact ht), b2 ht, Column.holds_get k2, Column.holds_get hl,
          List.getElem?_set_ne (Ne.symm hr')]
      · rw [a1 (by rw [k3]; exact ht), b1 ht]
    · unfold Mem.DataFrame.get_typed
      rw [mem_slot_get hc]
      cases hq : ptrs[c']? with
      | none => rfl
      | some q =>
        have hqp : p ≠ q := by
          intro e
          subst e
          exact hcc (mem_nodup_slots hnd hq hslot)
        simp only []
        rw [List.getElem?_set_ne hqp]

/-- Witness of C33: the table of the schema `"I"` with the row 4; `set(0, 0, 9)`. -/
theorem set_then_get_unshared_witness :
    ∃ store0 df0 store1 df1 store2,
      Mem.DataFrame.ctor Garbage.blank (fun _ _ => none) []
        (Schema.ctor Garbage.blank [TAG_I]) = .ok (store0, df0) ∧
      Mem.DataFrame.add_row store0 df0
        { types_ := (Schema.ctor Garbage.blank [TAG_I]).types_
          vals_ := [.int 4]
          idx_ := 0 } = .ok (store1, df1) ∧
      Mem.DataFrame.set store1 df1 0 0 (.int 9) = .ok (store2, df1) ∧
      Mem.DataFrame.get_typed store2 df1 TAG_I 0 0 = .ok (.int 9) := by
  obtain ⟨c, hc⟩ : ∃ c, (Column.ctor Garbage.blank TAG_I).push_back (.int 4) = .ok c :=
    ⟨_, rfl⟩
  have hholds : c.Holds [.int 4] :=
    (Column.push_back_ok (Column.ctor_holds Garbage.blank TAG_I).1 (.int 4) hc).2.1
  have hcols : ∃ columns, Rep columns ([0].map some) ∧
      Mem.DataFrame.add_row [Column.ctor Garbage.blank TAG_I]
        { columns_ := columns
          schema_ := Schema.ctor Garbage.blank [TAG_I]
          length_ := 0 }
        { types_ := (Schema.ctor Garbage.blank [TAG_I]).types_
          vals_ := [.int 4]
          idx_ := 0 } = .ok ([c], { columns_ := columns
                                    schema_ := Schema.ctor Garbage.blank [TAG_I]
                                    length_ := 1 }) ∧
      Mem.DataFrame.ctor Garbage.blank (fun _ _ => none) []
        (Schema.ctor Garbage.blank [TAG_I]) = .ok ([Column.ctor Garbage.blank TAG_I],
          { columns_ := columns
            schema_ := Schema.ctor Garbage.blank [TAG_I]
            length_ := 0 }) := by
    refine ⟨_, rep_append (rep_ctor _) (some 0), ?_, rfl⟩
    cases hc
    rfl
  obtain ⟨columns, k1, k2, k3⟩ := hcols
  obtain ⟨store2, k4, k5, _⟩ := @set_then_get_unshared [c]
    { columns_ := columns
      schema_ := Schema.ctor Garbage.blank [TAG_I]
      length_ := 1 } [0] k1 (by decide)
    (fun p hp => by
      simp only [List.mem_singleton] at hp
      subst hp
      exact ⟨c, _, rfl, hholds, Nat.le_refl _⟩)
    0 0 Nat.zero_lt_one 0 c (by rw [mem_slot_get k1]; rfl) rfl (.int 9)
    (by cases hc; rfl)
  exact ⟨_, _, _, _, store2, k3, k2, k4, k5⟩

/-! ## The sizes of the column objects of a reachable table -/

theorem mem_add_row_loop_eq (df : Mem.DataFrame) (row : Row) (left : Nat) :
    ∀ (j : Nat) (store : Mem.Store), Mem.DataFrame.add_row_loop df row left j store =
      Mem.for_objects (fun j c => DataFrame.add_row_switch row j c c.get_type) df.columns_
        left j store := by
  induction left with
  | zero =>
    intro j store
    rfl
  | succ n ih =>
    intro j store
    simp only [Mem.DataFrame.add_row_loop, Mem.for_objects, Mem.DataFrame.ncols, ih]

theorem mem_add_column_loop_eq (df : Mem.DataFrame) (left : Nat) :
    ∀ (j : Nat) (store : Mem.Store), Mem.DataFrame.add_column_loop df left j store =
      Mem.for_objects
        (fun _ c => DataFrame.pad_column_loop df.length_ c.get_type (df.length_ - c.size) c)
        df.columns_ left j store := by
  induction left with
  | zero =>
    intro j store
    rfl
  | succ n ih =>
    intro j store
    simp only [Mem.DataFrame.add_column_loop, Mem.for_objects, Mem.DataFrame.pad_column, ih]
    by_cases hj : j < df.columns_.size
    · rw [if_pos hj, if_pos hj]
      cases df.columns_.get j with
      | error e => rfl
      | ok o =>
        cases o with
        | none => rfl
        | some p =>
          simp only []
          cases store[p]? with
          | none => rfl
          | some c =>
            simp only []
            cases DataFrame.pad_column_loop df.length_ c.get_type (df.length_ - c.size) c with
            | error e => rfl
            | ok c' => rfl
    · rw [if_neg hj, if_neg hj]

/-- A loop over the slots of `columns_` that returns, on a table in which no column object
is in two slots: the object of each slot from `j` on is the result of `f` on it, and the
other objects are as before. -/
theorem mem_for_objects_spec (f : Nat → Column → Except Fault Column) {columns : Array Nat}
    {ptrs : List Nat} (hc : Rep columns (ptrs.map some)) (hnd : ptrs.Nodup) (left : Nat) :
    ∀ (j : Nat) (store store' : Mem.Store), j + left = ptrs.length →
      Mem.for_objects f columns left j store = .ok store' →
      (∀ q : Nat, (∀ k, j ≤ k → ptrs[k]? ≠ some q) → store'[q]? = store[q]?) ∧
      (∀ k p, j ≤ k → ptrs[k]? = some p →
        ∃ c c', store[p]? = some c ∧ f k c = .ok c' ∧ store'[p]? = some c') := by
  induction left with
  | zero =>
    intro j store store' hj h
    cases h
    refine ⟨fun q _ => rfl, fun k p hk hp => ?_⟩
    rw [List.getElem?_eq_none (by omega)] at hp
    cases hp
  | succ n ih =>
    intro j store store' hj h
    have hjl : j < ptrs.length := by omega
    have hsz : j < columns.size := by
      show j < columns.size_
      rw [hc.size_eq]
      simpa using hjl
    have hslot : ptrs[j]? = some ptrs[j] := List.getElem?_eq_getElem hjl
    have hgetj : columns.get j = .ok (some ptrs[j]) := by
      rw [mem_slot_get hc, hslot]
    simp only [Mem.for_objects, if_pos hsz, hgetj] at h
    cases hs : store[ptrs[j]]? with
    | none =>
      rw [hs] at h
      cases h
    | some c =>
      rw [hs] at h
      simp only [] at h
      cases hf : f j c with
      | error e =>
        rw [hf] at h
        cases h
      | ok c1 =>
        rw [hf] at h
        simp only [] at h
        obtain ⟨ih1, ih2⟩ := ih (j + 1) _ store' (by omega) h
        have hpl : ptrs[j] < store.length := mem_store_lt hs
        have hne : ∀ k p, j + 1 ≤ k → ptrs[k]? = some p → p ≠ ptrs[j] := by
          intro k p hk hp e
          rw [e] at hp
          have := mem_nodup_slots hnd hp hslot
          omega
        refine ⟨?_, ?_⟩
        · intro q hq
          rw [ih1 q (fun k hk => hq k (by omega))]
          have hqj : ptrs[j] ≠ q := fun e => hq j (Nat.le_refl _) (by rw [hslot, e])
          exact List.getElem?_set_ne hqj
        · intro k p hk hp
          by_cases hkj : k = j
          · subst hkj
            rw [hslot] at hp
            cases hp
            refine ⟨c, c1, hs, hf, ?_⟩
            rw [ih1 _ (fun k' hk' hp' => hne k' _ hk' hp' rfl)]
            exact List.getElem?_set_self hpl
          · obtain ⟨c2, c3, h1, h2, h3⟩ := ih2 k p (by omega) hp
            refine ⟨c2, c3, ?_, h2, h3⟩
            rw [← h1]
            exact (List.getElem?_set_ne (Ne.symm (hne k p (by omega) hp))).symm

/-- The loop of the constructor, on any type tags, leaves new empty column objects, one in
each slot. -/
theorem mem_ctor_loop_sized (g : Garbage) {types : IntArray} {ts : List Int}
    (ht : Rep types ts) (left : Nat) :
    ∀ (i : Nat) (store : Mem.Store) (columns : Array Nat) (ps : List Nat),
      Rep columns (ps.map some) → ps.Nodup →
      (∀ p, p ∈ ps → ∃ c, store[p]? = some c ∧ c.Holds []) → i + left = ts.length →
      ∃ (store' : Mem.Store) (columns' : Array Nat) (ps' : List Nat),
        Mem.DataFrame.ctor_loop g types left i store columns = .ok (store', columns') ∧
        Rep columns' (ps'.map some) ∧ ps'.Nodup ∧
        ∀ p, p ∈ ps' → ∃ c, store'[p]? = some c ∧ c.Holds [] := by
  induction left with
  | zero =>
    intro i store columns ps hc hnd hps _
    exact ⟨store, columns, ps, rfl, hc, hnd, hps⟩
  | succ n ih =>
    intro i store columns ps hc hnd hps hi
    have hil : i < ts.length := by omega
    have hguard : i < types.size := by
      show i < types.size_
      rw [ht.size_eq]; exact hil
    have hstep : ∀ t, ∃ ps2 : List Nat,
        Rep (columns.append (some store.length)) (ps2.map some) ∧ ps2.Nodup ∧
        ∀ p, p ∈ ps2 → ∃ c, (store ++ [Column.ctor g t])[p]? = some c ∧ c.Holds [] := by
      intro t
      refine ⟨ps ++ [store.length], by simpa using rep_append hc (some store.length), ?_, ?_⟩
      · rw [List.nodup_append]
        refine ⟨hnd, List.nodup_singleton _, ?_⟩
        intro a ha hb
        simp only [List.mem_singleton] at hb
        subst hb
        obtain ⟨c, h1, _⟩ := hps _ ha
        exact absurd (mem_store_lt h1) (Nat.lt_irrefl _)
      · intro p hp
        rcases List.mem_append.mp hp with h | h
        · obtain ⟨c, h1, h2⟩ := hps p h
          exact ⟨c, by rw [List.getElem?_append_left (mem_store_lt h1)]; exact h1, h2⟩
        · simp only [List.mem_singleton] at h
          subst h
          exact ⟨_, by simp, (Column.ctor_holds g t).1⟩
    unfold Mem.DataFrame.ctor_loop
    rw [if_pos hguard, rep_get_ok ht hil]
    simp only []
    split
    · obtain ⟨ps2, h1, h2, h3⟩ := hstep TAG_I
      exact ih (i + 1) _ _ ps2 h1 h2 h3 (by omega)
    · split
      · obtain ⟨ps2, h1, h2, h3⟩ := hstep TAG_B
        exact ih (i + 1) _ _ ps2 h1 h2 h3 (by omega)
      · split
        · obtain ⟨ps2, h1, h2, h3⟩ := hstep TAG_F
          exact ih (i + 1) _ _ ps2 h1 h2 h3 (by omega)
        · split
          · obtain ⟨ps2, h1, h2, h3⟩ := hstep TAG_S
            exact ih (i + 1) _ _ ps2 h1 h2 h3 (by omega)
          · exact ih (i + 1) _ _ ps hc hnd hps (by omega)

theorem mem_sized_ctor (g : Garbage) (fresh : Nat → Nat → Option Nat) (store0 : Mem.Store)
    {schema : Schema} {ts : List Int} (ht : Rep schema.types_ ts) {store : Mem.Store}
    {df : Mem.DataFrame} (hctor : Mem.DataFrame.ctor g fresh store0 schema = .ok (store, df)) :
    ∃ ptrs, Mem.Sized store df ptrs := by
  obtain ⟨store', columns', ps', h1, h2, h3, h4⟩ := mem_ctor_loop_sized g ht ts.length 0
    store0 (ChunkedArray.ctor fresh) [] (by simpa using rep_ctor fresh) List.nodup_nil
    (fun p hp => by cases hp) (by simp)
  have hsz : schema.get_types.size = ts.length := ht.size_eq
  unfold Mem.DataFrame.ctor at hctor
  simp only [hsz] at hctor
  rw [show schema.get_types = schema.types_ from rfl, h1] at hctor
  cases hctor
  refine ⟨ps', h2, h3, fun p hp => ?_⟩
  obtain ⟨c, k1, k2⟩ := h4 p hp
  exact ⟨c, [], k1, k2, rfl⟩

theorem mem_not_slot {columns : Array Nat} {ptrs : List Nat}
    (hc : Rep columns (ptrs.map some)) {p : Nat}
    (hfresh : ∀ j, columns.get j ≠ .ok (some p)) : p ∉ ptrs := by
  intro hp
  obtain ⟨k, hk, hkp⟩ := List.getElem_of_mem hp
  apply hfresh k
  rw [mem_slot_get hc, List.getElem?_eq_getElem hk, hkp]

theorem mem_sized_alloc {store : Mem.Store} {df : Mem.DataFrame} {ptrs : List Nat}
    (h : Mem.Sized store df ptrs) (col : Column) : Mem.Sized (store ++ [col]) df ptrs := by
  refine ⟨h.columns, h.nodup, fun p hp => ?_⟩
  obtain ⟨c, l, h1, h2, h3⟩ := h.sized p hp
  exact ⟨c, l, by rw [List.getElem?_append_left (mem_store_lt h1)]; exact h1, h2, h3⟩

theorem mem_sized_write {store : Mem.Store} {df : Mem.DataFrame} {ptrs : List Nat}
    (h : Mem.Sized store df ptrs) {p : Nat} (hfresh : ∀ j, df.columns_.get j ≠ .ok (some p))
    (col : Column) : Mem.Sized (store.set p col) df ptrs := by
  have hp : p ∉ ptrs := mem_not_slot h.columns hfresh
  refine ⟨h.columns, h.nodup, fun q hq => ?_⟩
  obtain ⟨c, l, h1, h2, h3⟩ := h.sized q hq
  have hne : p ≠ q := fun e => hp (e ▸ hq)
  exact ⟨c, l, by rw [List.getElem?_set_ne hne]; exact h1, h2, h3⟩

theorem mem_sized_add_row {store store' : Mem.Store} {df df' : Mem.DataFrame}
    {ptrs : List Nat} (h : Mem.Sized store df ptrs) {row : Row}
    (hadd : Mem.DataFrame.add_row store df row = .ok (store', df')) :
    Mem.Sized store' df' ptrs := by
  have hncols : df.ncols = ptrs.length := by
    show df.columns_.size_ = _
    rw [h.columns.size_eq]
    simp
  unfold Mem.DataFrame.add_row at hadd
  cases heq : df.schema_.get_types.equals row.get_types with
  | error e => rw [heq] at hadd; cases hadd
  | ok b =>
    rw [heq] at hadd
    cases b with
    | false => cases hadd
    | true =>
      simp only [] at hadd
      cases hres : Mem.DataFrame.add_row_loop df row df.ncols 0 store with
      | error e => rw [hres] at hadd; cases hadd
      | ok store1 =>
        rw [hres] at hadd
        cases hadd
        rw [mem_add_row_loop_eq] at hres
        obtain ⟨_, hfrom⟩ := mem_for_objects_spec _ h.columns h.nodup df.ncols 0 store
          _ (by rw [hncols]; simp) hres
        refine ⟨h.columns, h.nodup, fun p hp => ?_⟩
        obtain ⟨k, hk, hkp⟩ := List.getElem_of_mem hp
        obtain ⟨c0, l, k1, k2, k3⟩ := h.sized p hp
        obtain ⟨c, c', j1, j2, j3⟩ := hfrom k p (Nat.zero_le _)
          (by rw [List.getElem?_eq_getElem hk, hkp])
        rw [k1] at j1
        cases j1
        obtain ⟨v, hv⟩ := add_row_switch_ok j2
        obtain ⟨_, hh, _⟩ := Column.push_back_ok k2 v hv
        refine ⟨c', _, j3, hh, ?_⟩
        show _ = df.length_ + 1
        simp [k3]

theorem mem_sized_set {store store' : Mem.Store} {df df' : Mem.DataFrame}
    {ptrs : List Nat} (h : Mem.Sized store df ptrs) {col row : Nat} {val : Value}
    (hrow : row < df.nrows)
    (hset : Mem.DataFrame.set store df col row val = .ok (store', df')) :
    Mem.Sized store' df' ptrs := by
  have hrow2 : row < df.length_ := hrow
  cases hslot : ptrs[col]? with
  | none =>
    unfold Mem.DataFrame.set at hset
    rw [mem_slot_get h.columns, hslot] at hset
    cases hset
  | some p =>
    have hget : df.columns_.get col = .ok (some p) := by
      rw [mem_slot_get h.columns, hslot]
    have hmem : p ∈ ptrs := List.getElem?_mem hslot
    obtain ⟨c, l, k1, k2, k3⟩ := h.sized p hmem
    obtain ⟨a1, a2⟩ := mem_set_in_column hget k1 k2 (by rw [k3]; exact hrow2) val
    by_cases ht : c.get_type = val.tag
    · obtain ⟨c', b1, b2, _⟩ := a1 ht
      rw [b1] at hset
      cases hset
      refine ⟨h.columns, h.nodup, fun q hq => ?_⟩
      by_cases hqp : q = p
      · subst hqp
        exact ⟨c', _, List.getElem?_set_self (mem_store_lt k1), b2,
          by rw [List.length_set]; exact k3⟩
      · obtain ⟨c2, l2, m1, m2, m3⟩ := h.sized q hq
        exact ⟨c2, l2, by rw [List.getElem?_set_ne (Ne.symm hqp)]; exact m1, m2, m3⟩
    · rw [a2 ht] at hset
      cases hset

/-- The `if` and `else if` of `add_column` with a column object that is in no slot of the
table: afterwards the objects of the slots and the new object hold `nrows()` values. -/
theorem mem_sized_add_column_pad {store store1 : Mem.Store} {df df1 : Mem.DataFrame}
    {ptrs : List Nat} (h : Mem.Sized store df ptrs) {p : Nat} (hp : p ∉ ptrs)
    {col : Column} {l : List Value} (hstore : store[p]? = some col) (hcol : col.Holds l)
    (hpad : Mem.DataFrame.add_column_pad store df p col = .ok (store1, df1)) :
    df1.columns_ = df.columns_ ∧
    ∀ q, q ∈ ptrs ++ [p] → ∃ c l, store1[q]? = some c ∧ c.Holds l ∧ l.length = df1.length_ := by
  have hsize : col.size = l.length := Column.holds_size hcol
  unfold Mem.DataFrame.add_column_pad at hpad
  by_cases h1 : col.size < df.length_
  · rw [if_pos h1] at hpad
    obtain ⟨c', k1, k2, _⟩ := pad_column_loop_holds df.length_ (df.length_ - col.size) col l
      hcol (by rw [hsize])
    have hpadc : Mem.DataFrame.pad_column store df p = .ok (store.set p c') := by
      unfold Mem.DataFrame.pad_column
      rw [hstore]
      simp only []
      rw [k1]
    rw [hpadc] at hpad
    cases hpad
    refine ⟨rfl, fun q hq => ?_⟩
    rcases List.mem_append.mp hq with hq | hq
    · obtain ⟨c2, l2, m1, m2, m3⟩ := h.sized q hq
      have hne : p ≠ q := fun e => hp (e ▸ hq)
      exact ⟨c2, l2, by rw [List.getElem?_set_ne hne]; exact m1, m2, m3⟩
    · simp only [List.mem_singleton] at hq
      subst hq
      refine ⟨c', _, List.getElem?_set_self (mem_store_lt hstore), k2, ?_⟩
      simp
      omega
  · rw [if_neg h1] at hpad
    by_cases h2 : col.size > df.length_
    · rw [if_pos h2] at hpad
      simp only [] at hpad
      cases hres : Mem.DataFrame.add_column_loop { df with length_ := col.size }
          df.columns_.size 0 store with
      | error e =>
        rw [hres] at hpad
        cases hpad
      | ok store2 =>
        rw [hres] at hpad
        cases hpad
        rw [mem_add_column_loop_eq] at hres
        have hcount : df.columns_.size = ptrs.length := by
          show df.columns_.size_ = _
          rw [h.columns.size_eq]
          simp
        obtain ⟨hframe, hfrom⟩ := mem_for_objects_spec _ h.columns h.nodup df.columns_.size
          0 store _ (by rw [hcount]; simp) hres
        refine ⟨rfl, fun q hq => ?_⟩
        rcases List.mem_append.mp hq with hq | hq
        · obtain ⟨k, hk, hkq⟩ := List.getElem_of_mem hq
          obtain ⟨c0, l0, m1, m2, m3⟩ := h.sized q hq
          obtain ⟨c, c', j1, j2, j3⟩ := hfrom k q (Nat.zero_le _)
            (by rw [List.getElem?_eq_getElem hk, hkq])
          rw [m1] at j1
          cases j1
          have hsz0 : c0.size = l0.length := Column.holds_size m2
          obtain ⟨c2, n1, n2, _⟩ := pad_column_loop_holds col.size (col.size - c0.size) c0 l0
            m2 (by rw [hsz0])
          have j2' : DataFrame.pad_column_loop col.size c0.get_type (col.size - c0.size) c0
              = .ok c' := j2
          have hcc : c2 = c' := by
            rw [n1] at j2'
            injection j2'
          refine ⟨c', _, j3, hcc ▸ n2, ?_⟩
          show _ = col.size
          simp
          omega
        · simp only [List.mem_singleton] at hq
          subst hq
          refine ⟨col, l, ?_, hcol, hsize.symm⟩
          rw [hframe q (fun k _ hk => hp (List.getElem?_mem hk))]
          exact hstore
    · rw [if_neg h2] at hpad
      cases hpad
      refine ⟨rfl, fun q hq => ?_⟩
      rcases List.mem_append.mp hq with hq | hq
      · exact h.sized q hq
      · simp only [List.mem_singleton] at hq
        subst hq
        exact ⟨col, l, hstore, hcol, by omega⟩

theorem mem_sized_add_column {store store' : Mem.Store} {df df' : Mem.DataFrame}
    {ptrs : List Nat} (h : Mem.Sized store df ptrs) {p : Nat}
    (hfresh : ∀ j, df.columns_.get j ≠ .ok (some p)) {col : Column} {l : List Value}
    (hstore : store[p]? = some col) (hcol : col.Holds l) (name : Option String)
    (hadd : Mem.DataFrame.add_column store df (some p) name = .ok (store', df')) :
    Mem.Sized store' df' (ptrs ++ [p]) := by
  have hp : p ∉ ptrs := mem_not_slot h.columns hfresh
  unfold Mem.DataFrame.add_column at hadd
  simp only [hstore] at hadd
  cases hpad : Mem.DataFrame.add_column_pad store df p col with
  | error e =>
    rw [hpad] at hadd
    cases hadd
  | ok r =>
    obtain ⟨store1, df1⟩ := r
    rw [hpad] at hadd
    simp only [] at hadd
    obtain ⟨k1, k2⟩ := mem_sized_add_column_pad h hp hstore hcol hpad
    have hrep : Rep (df1.columns_.append (some p)) ((ptrs ++ [p]).map some) := by
      rw [k1]
      simpa using rep_append h.columns (some p)
    have hnd : (ptrs ++ [p]).Nodup := by
      rw [List.nodup_append]
      refine ⟨h.nodup, List.nodup_singleton _, ?_⟩
      intro a ha hb
      simp only [List.mem_singleton] at hb
      subst hb
      exact hp ha
    split at hadd
    · obtain ⟨c, l2, m1, _, _⟩ := k2 p (by simp)
      rw [m1] at hadd
      cases hadd
      exact ⟨hrep, hnd, k2⟩
    · cases hadd
      exact ⟨hrep, hnd, k2⟩

/-- Every reachable table has, in its slots, column objects in states of their class that
hold `nrows()` values, no object in two slots. -/
theorem mem_reachable_table_sized {store : Mem.Store} {df : Mem.DataFrame}
    (h : Mem.ReachableTable store df) : ∃ ptrs, Mem.Sized store df ptrs := by
  induction h with
  | ctor g fresh store0 schema ts store df hs hctor =>
    exact mem_sized_ctor g fresh store0 hs.rep hctor
  | alloc col _ ih =>
    obtain ⟨ptrs, h1⟩ := ih
    exact ⟨ptrs, mem_sized_alloc h1 col⟩
  | write p col _ hfresh ih =>
    obtain ⟨ptrs, h1⟩ := ih
    exact ⟨ptrs, mem_sized_write h1 hfresh col⟩
  | add_column p col l name _ hfresh hstore hcol hadd ih =>
    obtain ⟨ptrs, h1⟩ := ih
    exact ⟨_, mem_sized_add_column h1 hfresh hstore hcol name hadd⟩
  | add_row row _ hadd ih =>
    obtain ⟨ptrs, h1⟩ := ih
    exact ⟨ptrs, mem_sized_add_row h1 hadd⟩
  | set col row val _ hrow hset ih =>
    obtain ⟨ptrs, h1⟩ := ih
    exact ⟨ptrs, mem_sized_set h1 hrow hset⟩

/-- C17, counterexample: on the empty table of the schema `"II"`, where `nrows()` is 0,
`set(0, 0, 5)` returns and leaves column 0 with one value, column 1 with none and
`nrows()` at 0; and on the table of the empty schema to which `add_column(c)` is called
twice with the same empty column object `c`, shared with no other table, `add_row` returns
and leaves both columns with two values and `nrows()` at 1. -/
theorem sizes_differ_after_set_at_nrows_or_column_added_twice :
    (∃ store0 df0 store1 c0 c1,
      Mem.DataFrame.ctor Garbage.blank (fun _ _ => none) []
        (Schema.ctor Garbage.blank [TAG_I, TAG_I]) = .ok (store0, df0) ∧
      Mem.DataFrame.set store0 df0 0 0 (.int 5) = .ok (store1, df0) ∧
      df0.columns_.get 0 = .ok (some 0) ∧ df0.columns_.get 1 = .ok (some 1) ∧
      store1[0]? = some c0 ∧ store1[1]? = some c1 ∧
      c0.size = 1 ∧ c1.size = 0 ∧ df0.nrows = 0) ∧
    (∃ store0 df0 store1 df1 store2 df2 store3 df3 c,
      Mem.DataFrame.ctor Garbage.blank (fun _ _ => none) []
        (Schema.ctor Garbage.blank []) = .ok (store0, df0) ∧
      Mem.DataFrame.add_column (store0 ++ [Column.ctor Garbage.blank TAG_I]) df0
        (some store0.length) none = .ok (store1, df1) ∧
      Mem.DataFrame.add_column store1 df1 (some store0.length) none = .ok (store2, df2) ∧
      Mem.DataFrame.add_row store2 df2
        { types_ := (Schema.ctor Garbage.blank [TAG_I, TAG_I]).types_
          vals_ := [.int 1, .int 2]
          idx_ := 0 } = .ok (store3, df3) ∧
      df3.columns_.get 0 = .ok (some 0) ∧ df3.columns_.get 1 = .ok (some 0) ∧
      store3[0]? = some c ∧ c.size = 2 ∧ df3.nrows = 1) :=
  ⟨⟨_, _, _, _, _, rfl, rfl, rfl, rfl, rfl, rfl, rfl, rfl, rfl⟩,
   ⟨_, _, _, _, _, _, _, _, _, rfl, rfl, rfl, rfl, rfl, rfl, rfl, rfl, rfl⟩⟩

/-- C17, amended: in every table reachable from `DataFrame(schema)` by calls that return of
`add_column` with a column object that is in no slot of the table yet and in no other
table, of `add_row`, and of `set(col, row, value)` with `row < nrows()`, the size of the
column object of every slot is `nrows()`. -/
theorem reachable_columns_sized {store : Mem.Store} {df : Mem.DataFrame}
    (h : Mem.ReachableTable store df) :
    ∀ j, j < df.ncols → ∃ p c, df.columns_.get j = .ok (some p) ∧ store[p]? = some c ∧
      c.size = df.nrows := by
  obtain ⟨ptrs, h1⟩ := mem_reachable_table_sized h
  intro j hj
  have hjc : j < ptrs.length := by
    have : df.columns_.size_ = ptrs.length := by
      rw [h1.columns.size_eq]
      simp
    rw [← this]
    exact hj
  obtain ⟨c, l, k1, k2, k3⟩ := h1.sized _ (List.getElem_mem hjc)
  refine ⟨ptrs[j], c, ?_, k1, ?_⟩
  · rw [mem_slot_get h1.columns, List.getElem?_eq_getElem hjc]
  · rw [Column.holds_size k2, k3]
    rfl

/-- Witness of C17: the table of the schema `"I"` after `add_row`, `add_column` with a new
empty column object, and `set(0, 0, 9)`. -/
theorem reachable_columns_sized_witness :
    ∃ store0 df0 store1 df1 store2 df2 store3 df3 p c,
      Mem.DataFrame.ctor Garbage.blank (fun _ _ => none) []
        (Schema.ctor Garbage.blank [TAG_I]) = .ok (store0, df0) ∧
      Mem.DataFrame.add_row store0 df0
        { types_ := (Schema.ctor Garbage.blank [TAG_I]).types_
          vals_ := [.int 4]
          idx_ := 0 } = .ok (store1, df1) ∧
      Mem.DataFrame.add_column (store1 ++ [Column.ctor Garbage.blank TAG_B]) df1
        (some store1.length) none = .ok (store2, df2) ∧
      Mem.DataFrame.set store2 df2 0 0 (.int 9) = .ok (store3, df3) ∧
      df3.columns_.get 1 = .ok (some p) ∧ store3[p]? = some c ∧ c.size = df3.nrows := by
  have h0 : Mem.ReachableTable _ _ := Mem.ReachableTable.ctor Garbage.blank
    (fun _ _ => none) [] (Schema.ctor Garbage.blank [TAG_I]) [TAG_I] _ _
    (reachable_of_appends _ _) rfl
  have h1 : Mem.ReachableTable _ _ := Mem.ReachableTable.add_row
    { types_ := (Schema.ctor Garbage.blank [TAG_I]).types_
      vals_ := [.int 4]
      idx_ := 0 } h0 rfl
  have h2 : Mem.ReachableTable _ _ :=
    Mem.ReachableTable.alloc (Column.ctor Garbage.blank TAG_B) h1
  have h3 : Mem.ReachableTable _ _ := Mem.ReachableTable.add_column 1
    (Column.ctor Garbage.blank TAG_B) [] none h2
    (fun j e => by
      have hslot := mem_slot_of_get (show Rep _ ([0].map some) from
        rep_append (rep_ctor _) (some 0)) e
      cases j with
      | zero => simp at hslot
      | succ k => simp at hslot)
    rfl (Column.ctor_holds Garbage.blank TAG_B).1 rfl
  have h4 : Mem.ReachableTable _ _ :=
    Mem.ReachableTable.set 0 0 (.int 9) h3 Nat.zero_lt_one rfl
  obtain ⟨p, c, k1, k2, k3⟩ := reachable_columns_sized h4 1 (by decide)
  exact ⟨_, _, _, _, _, _, _, _, p, c, rfl, rfl, rfl, rfl, k1, k2, k3⟩

end Cs4500a5
